import Mathlib

/-!
# gmsm: SM9 keys, the GT wire format and the XTS mode

A shallow embedding of `sm9/sm9_key.go` and `sm9/gt.go`, and a model of the XTS mode that
`cipher/xts_sm4_test.go` tests.

* `*big.Int` values are `Int`; `big.Int.Mod` is the Euclidean remainder, which is `Int.emod`.
* Byte slices are `List UInt8`.
* A Go pointer that may be `nil` is an `Option`.
* A Go function returning `(value, error)` returns `Except String value`.
* A method that changes its receiver returns the receiver after the call; a call that panics
  (an index out of range) returns `none`.
* The `bn256` package (curve groups, pairing, group order) and the helpers `hashH1` and
  `randFieldElement` are not part of the sources read here; the functions that call them take
  them as parameters.
-/

namespace Gmsm

/-! ## math/big -/

/-- Left-to-right square-and-multiply evaluation of `x ^ n` reduced modulo `m`. -/
def powMod (x m : Int) : Nat → Int
  | 0 => 1 % m
  | n + 1 =>
    let h := powMod x m ((n + 1) / 2)
    let s := h * h % m
    if (n + 1) % 2 = 1 then s * x % m else s
termination_by n => n
decreasing_by omega

/-- The call `new(big.Int).Exp(x, y, m)` of `math/big` for an exponent `y ≥ 0`:
`x ** y mod |m|`, with a result in `[0, |m|)`, and `x ** y` when `m = 0`.
(A negative exponent with a non-zero modulus asks `math/big` for a modular inverse; the
only call site, `fermatInverse`, passes `N - 2` for the group order `N`.) -/
def bigExp (x y m : Int) : Int :=
  if m = 0 then x ^ y.toNat else powMod x |m| y.toNat

/-- The function `fermatInverse(k, N)` of sm9_key.go:
`two := big.NewInt(2); nMinus2 := N - two; return Exp(k, nMinus2, N)`. -/
def fermatInverse (k N : Int) : Int :=
  let two : Int := 2
  let nMinus2 := N - two
  bigExp k nMinus2 N

/-! ## The bn256 package, as used by sm9_key.go -/

/-- The part of package `bn256` that sm9_key.go uses. The package is not among the sources,
so its types and operations are the fields of this record. -/
structure Bn256 where
  /-- The type `bn256.G1` (points of the curve over F_p). -/
  G1 : Type
  /-- The type `bn256.G2` (points of the twist). -/
  G2 : Type
  /-- The type `bn256.GT` (target group). -/
  GT : Type
  /-- The type `[32 * 2]bn256.GTFieldTable`. -/
  GTFieldTable : Type
  /-- The constant `bn256.Order`, the group order N. -/
  Order : Int
  /-- The generator `bn256.Gen1`. -/
  Gen1 : G1
  /-- The generator `bn256.Gen2`. -/
  Gen2 : G2
  /-- The call `new(bn256.G1).ScalarBaseMult(k)`. -/
  G1ScalarBaseMult : Int → G1
  /-- The call `new(bn256.G2).ScalarBaseMult(k)`. -/
  G2ScalarBaseMult : Int → G2
  /-- The call `p.Add(a, b)` on `bn256.G1`. -/
  G1Add : G1 → G1 → G1
  /-- The call `p.Add(a, b)` on `bn256.G2`. -/
  G2Add : G2 → G2 → G2
  /-- The function `bn256.Pair`. -/
  Pair : G1 → G2 → GT
  /-- The function `bn256.GenerateGTFieldTable`. -/
  GenerateGTFieldTable : GT → GTFieldTable
  /-- The function `bn256.ScalarBaseMultGT`. -/
  ScalarBaseMultGT : GTFieldTable → Int → GT

/-! ## Key types of sm9_key.go -/

/-- The struct `SignMasterPublicKey`. A `sync.Once` is the flag "has already run". -/
structure SignMasterPublicKey (B : Bn256) where
  MasterPublicKey : Option B.G2
  pairOnce : Bool
  basePoint : Option B.GT
  tableGenOnce : Bool
  table : Option B.GTFieldTable

/-- The struct `SignMasterPrivateKey`: the embedded public key and the scalar `D`. -/
structure SignMasterPrivateKey (B : Bn256) where
  SignMasterPublicKey : SignMasterPublicKey B
  D : Int

/-- The struct `SignPrivateKey`: the user key point and the embedded master public key. -/
structure SignPrivateKey (B : Bn256) where
  PrivateKey : Option B.G1
  SignMasterPublicKey : SignMasterPublicKey B

/-- The struct `EncryptMasterPublicKey`. -/
structure EncryptMasterPublicKey (B : Bn256) where
  MasterPublicKey : Option B.G1
  pairOnce : Bool
  basePoint : Option B.GT
  tableGenOnce : Bool
  table : Option B.GTFieldTable

/-- The struct `EncryptMasterPrivateKey`. -/
structure EncryptMasterPrivateKey (B : Bn256) where
  EncryptMasterPublicKey : EncryptMasterPublicKey B
  D : Int

/-- The struct `EncryptPrivateKey`. -/
structure EncryptPrivateKey (B : Bn256) where
  PrivateKey : Option B.G2
  EncryptMasterPublicKey : EncryptMasterPublicKey B

/-- The value `new(SignMasterPublicKey)`: every field zero. -/
def SignMasterPublicKey.new (B : Bn256) : SignMasterPublicKey B :=
  { MasterPublicKey := none, pairOnce := false, basePoint := none,
    tableGenOnce := false, table := none }

/-- The value `new(EncryptMasterPublicKey)`: every field zero. -/
def EncryptMasterPublicKey.new (B : Bn256) : EncryptMasterPublicKey B :=
  { MasterPublicKey := none, pairOnce := false, basePoint := none,
    tableGenOnce := false, table := none }

/-! ## User key extraction -/

/-- The scalar `t2` that `GenerateUserKey` hands to `ScalarBaseMult` (sm9_key.go lines 98-105,
the same text in lines 340-347), or the error of line 101. `h` is `hashH1(id)`. -/
def userKeyScalar (N h D : Int) (err : String) : Except String Int :=
  let t1 := h
  let t1 := t1 + D
  if t1 = 0 then
    .error err
  else
    let t1 := fermatInverse t1 N
    let t2 := t1 * D
    let t2 := t2 % N
    .ok t2

/-- The method `(*SignMasterPrivateKey).GenerateUserKey(uid, hid)`. -/
def SignMasterPrivateKey.GenerateUserKey {B : Bn256} (hashH1 : List UInt8 → Int)
    (master : SignMasterPrivateKey B) (uid : List UInt8) (hid : UInt8) :
    Except String (SignPrivateKey B) :=
  let id : List UInt8 := []
  let id := id ++ uid
  let id := id ++ [hid]
  match userKeyScalar B.Order (hashH1 id) master.D
      "sm9: need to re-generate sign master private key" with
  | .error e => .error e
  | .ok t2 =>
    .ok { SignMasterPublicKey := master.SignMasterPublicKey
          PrivateKey := some (B.G1ScalarBaseMult t2) }

/-- The method `(*EncryptMasterPrivateKey).GenerateUserKey(uid, hid)`. -/
def EncryptMasterPrivateKey.GenerateUserKey {B : Bn256} (hashH1 : List UInt8 → Int)
    (master : EncryptMasterPrivateKey B) (uid : List UInt8) (hid : UInt8) :
    Except String (EncryptPrivateKey B) :=
  let id : List UInt8 := []
  let id := id ++ uid
  let id := id ++ [hid]
  match userKeyScalar B.Order (hashH1 id) master.D
      "sm9: need to re-generate encrypt master private key" with
  | .error e => .error e
  | .ok t2 =>
    .ok { EncryptMasterPublicKey := master.EncryptMasterPublicKey
          PrivateKey := some (B.G2ScalarBaseMult t2) }

/-- The method `(*SignMasterPublicKey).GenerateUserPublicKey(uid, hid)`. The receiver's
`MasterPublicKey` is dereferenced by `p.Add`, so a nil one gives no result. -/
def SignMasterPublicKey.GenerateUserPublicKey {B : Bn256} (hashH1 : List UInt8 → Int)
    (pub : SignMasterPublicKey B) (uid : List UInt8) (hid : UInt8) : Option B.G2 :=
  let buffer : List UInt8 := []
  let buffer := buffer ++ uid
  let buffer := buffer ++ [hid]
  let h1 := hashH1 buffer
  let p := B.G2ScalarBaseMult h1
  pub.MasterPublicKey.map (fun mpk => B.G2Add p mpk)

/-- The method `(*EncryptMasterPublicKey).GenerateUserPublicKey(uid, hid)`. -/
def EncryptMasterPublicKey.GenerateUserPublicKey {B : Bn256} (hashH1 : List UInt8 → Int)
    (pub : EncryptMasterPublicKey B) (uid : List UInt8) (hid : UInt8) : Option B.G1 :=
  let buffer : List UInt8 := []
  let buffer := buffer ++ uid
  let buffer := buffer ++ [hid]
  let h1 := hashH1 buffer
  let p := B.G1ScalarBaseMult h1
  pub.MasterPublicKey.map (fun mpk => B.G1Add p mpk)

/-! ## golang.org/x/crypto/cryptobyte, as used for the master private keys -/

/-- The value of a byte string read as a big-endian unsigned integer (`big.Int.SetBytes`). -/
def beValue (bs : List UInt8) : Nat :=
  bs.foldl (fun acc b => acc * 256 + b.toNat) 0

/-- The `len`-byte big-endian encoding of `v` (of `v mod 256 ^ len` when `v` is too large). -/
def beBytes : Nat → Nat → List UInt8
  | 0, _ => []
  | len + 1, v => beBytes len (v / 256) ++ [UInt8.ofNat (v % 256)]

/-- The method `(*cryptobyte.String).ReadAnyASN1` (`readASN1` with `skipHeader = true`): one
DER element is read from the front of `s`. The result is the tag, the contents without the
header, and what is left of `s`; `none` is the return value `false`. The lengths are `uint32`
values; `int` is 64 bits wide, so the test `int(length) < 0` never holds. -/
def readAnyASN1 (s : List UInt8) : Option (UInt8 × List UInt8 × List UInt8) :=
  match s with
  | tag :: lenByte :: _ =>
    if tag.toNat % 32 = 31 then
      -- tag&0x1f == 0x1f: high-tag-number form is not supported
      none
    else if lenByte.toNat < 128 then
      -- lenByte&0x80 == 0: short-form length
      let length := lenByte.toNat + 2
      let headerLen := 2
      if s.length < length then none
      else some (tag, (s.take length).drop headerLen, s.drop length)
    else
      let lenLen := lenByte.toNat % 128
      if lenLen = 0 ∨ lenLen > 4 ∨ s.length < 2 + lenLen then none
      else
        let len32 := beValue ((s.drop 2).take lenLen)
        if len32 < 128 then none
        else if len32 / 2 ^ ((lenLen - 1) * 8) = 0 then none
        else
          let headerLen := 2 + lenLen
          if (headerLen + len32) % 2 ^ 32 < len32 then none
          else
            let length := headerLen + len32
            if s.length < length then none
            else some (tag, (s.take length).drop headerLen, s.drop length)
  | _ => none

/-- The method `(*cryptobyte.String).ReadASN1(out, tag)`: the contents and the rest. -/
def readASN1 (s : List UInt8) (tag : UInt8) : Option (List UInt8 × List UInt8) :=
  match readAnyASN1 s with
  | some (t, out, rest) => if t ≠ tag then none else some (out, rest)
  | none => none

/-- The function `checkASN1Integer` of cryptobyte: the contents are a minimal encoding. -/
def checkASN1Integer (bytes : List UInt8) : Bool :=
  match bytes with
  | [] => false
  | [_] => true
  | b0 :: b1 :: _ =>
    if (b0.toNat = 0 ∧ b1.toNat < 128) ∨ (b0.toNat = 0xff ∧ 128 ≤ b1.toNat) then false
    else true

/-- The method `(*cryptobyte.String).ReadASN1Integer(out)` for `out *big.Int`
(`readASN1BigInt`): the integer and the rest of the input. A first content byte with its top
bit set is a negative number in two's complement. -/
def ReadASN1Integer (s : List UInt8) : Option (Int × List UInt8) :=
  match readASN1 s 0x02 with
  | none => none
  | some (bytes, rest) =>
    if !checkASN1Integer bytes then none
    else
      match bytes with
      | [] => none
      | b0 :: _ =>
        if 128 ≤ b0.toNat then
          let neg := bytes.map (fun b => UInt8.ofNat (255 - b.toNat))
          some (-((beValue neg : Int) + 1), rest)
        else
          some ((beValue bytes : Int), rest)

/-! ## Master keys -/

/-- Modelled from the spec: `randFieldElement` is not among the sources. The spec (§4.6): "sample
D uniformly from [1, N−1] using rejection sampling on a cryptographically secure RNG". The
reader is the sequence of candidates it yields; candidates outside `[1, N-1]` are rejected, and
a reader that runs dry is the read error. -/
def randFieldElement (N : Int) (rand : List Int) : Except String Int :=
  match rand with
  | [] => .error "EOF"
  | k :: rest => if 1 ≤ k ∧ k ≤ N - 1 then .ok k else randFieldElement N rest

/-- The function `GenerateSignMasterKey(rand)`. -/
def GenerateSignMasterKey (B : Bn256) (rand : List Int) : Except String (SignMasterPrivateKey B) :=
  match randFieldElement B.Order rand with
  | .error err => .error err
  | .ok k =>
    let priv : SignMasterPrivateKey B :=
      { SignMasterPublicKey := SignMasterPublicKey.new B, D := 0 }
    let priv := { priv with D := k }
    let priv := { priv with
      SignMasterPublicKey.MasterPublicKey := some (B.G2ScalarBaseMult k) }
    .ok priv

/-- The function `GenerateEncryptMasterKey(rand)`. -/
def GenerateEncryptMasterKey (B : Bn256) (rand : List Int) :
    Except String (EncryptMasterPrivateKey B) :=
  match randFieldElement B.Order rand with
  | .error err => .error err
  | .ok k =>
    let priv : EncryptMasterPrivateKey B :=
      { EncryptMasterPublicKey := EncryptMasterPublicKey.new B, D := 0 }
    let priv := { priv with D := k }
    let priv := { priv with
      EncryptMasterPublicKey.MasterPublicKey := some (B.G1ScalarBaseMult k) }
    .ok priv

/-- The method `(*SignMasterPrivateKey).UnmarshalASN1(der)`: the receiver after a successful
call, or the error (returned before the receiver is written). -/
def SignMasterPrivateKey.UnmarshalASN1 {B : Bn256} (master : SignMasterPrivateKey B)
    (der : List UInt8) : Except String (SignMasterPrivateKey B) :=
  let input := der
  match ReadASN1Integer input with
  | none => .error "sm9: invalid sign master key asn1 data"
  | some (d, input) =>
    if !input.isEmpty then .error "sm9: invalid sign master key asn1 data"
    else
      let master := { master with D := d }
      let master := { master with
        SignMasterPublicKey.MasterPublicKey := some (B.G2ScalarBaseMult d) }
      .ok master

/-- The method `(*EncryptMasterPrivateKey).UnmarshalASN1(der)`. -/
def EncryptMasterPrivateKey.UnmarshalASN1 {B : Bn256} (master : EncryptMasterPrivateKey B)
    (der : List UInt8) : Except String (EncryptMasterPrivateKey B) :=
  let input := der
  match ReadASN1Integer input with
  | none => .error "sm9: invalid encrpt master key asn1 data"
  | some (d, input) =>
    if !input.isEmpty then .error "sm9: invalid encrpt master key asn1 data"
    else
      let master := { master with D := d }
      let master := { master with
        EncryptMasterPublicKey.MasterPublicKey := some (B.G1ScalarBaseMult d) }
      .ok master

/-! ## Field elements: gfP -/

/-- Modelled from the spec: the type `gfP` is not among the sources. The spec (§3): a 256-bit
integer held in Montgomery form; here it is the integer that the four 64-bit limbs hold. -/
abbrev gfP := Nat

/-- The constant `numBytes = 256 / 8` of `GT.Marshal` and `GT.Unmarshal`. -/
def numBytes : Nat := 256 / 8

/-- The Montgomery radix R = 2^256 (spec §3). -/
def montR : Nat := 2 ^ 256

/-- The inverse of R modulo `pmod`, in `[0, pmod)`, from the extended Euclidean algorithm. -/
def montRInv (pmod : Nat) : Nat := (Nat.gcdA montR pmod % (pmod : Int)).toNat

/-- Modelled from the spec: `montEncode` is not among the sources. The spec (§3): the Montgomery
form of a value is "value · R mod p, with R = 2²⁵⁶". -/
def montEncode (pmod : Nat) (a : gfP) : gfP := a * montR % pmod

/-- Modelled from the spec: `montDecode` is not among the sources. It undoes `montEncode` (spec
§4.1 "Montgomery encode/decode"): the stored value times R⁻¹ modulo p. -/
def montDecode (pmod : Nat) (a : gfP) : gfP := a * montRInv pmod % pmod

/-- Modelled from the spec: `(*gfP).Marshal(out)` is not among the sources. The spec (§4.5, §6):
a field element is written as a big-endian 32-byte value. The first 32 bytes of `out` are
overwritten; the result is `out` after the call. -/
def gfP.Marshal (e : gfP) (out : List UInt8) : List UInt8 :=
  beBytes 32 e ++ out.drop 32

/-- Modelled from the spec: `(*gfP).Unmarshal(in)` is not among the sources. The spec (§4.1):
"Input `Unmarshal` rejects representations ≥ p". The first 32 bytes of `in` are read as a
big-endian value, which is the receiver's new, not yet Montgomery-encoded, content. -/
def gfP.Unmarshal (pmod : Nat) (inp : List UInt8) : Except String gfP :=
  let v := beValue (inp.take 32)
  if v < pmod then .ok v else .error "sm9: coordinate exceeds modulus"

/-- The struct `gfP2`, with coordinates `x` and `y`. -/
structure gfP2 where
  x : gfP
  y : gfP
deriving DecidableEq

/-- The struct `gfP4`, with coordinates `x` and `y`. -/
structure gfP4 where
  x : gfP2
  y : gfP2
deriving DecidableEq

/-- The struct `gfP12`, with coordinates `x`, `y` and `z`. -/
structure gfP12 where
  x : gfP4
  y : gfP4
  z : gfP4
deriving DecidableEq

/-- The value `&gfP12{}`: every coordinate zero. -/
def gfP12.zero : gfP12 :=
  { x := { x := { x := 0, y := 0 }, y := { x := 0, y := 0 } }
    y := { x := { x := 0, y := 0 }, y := { x := 0, y := 0 } }
    z := { x := { x := 0, y := 0 }, y := { x := 0, y := 0 } } }

/-- The twelve coordinates in the order in which `GT.Marshal` writes them. -/
def gfP12.coords (v : gfP12) : List gfP :=
  [v.x.x.x, v.x.x.y, v.x.y.x, v.x.y.y, v.y.x.x, v.y.x.y, v.y.y.x, v.y.y.y,
   v.z.x.x, v.z.x.y, v.z.y.x, v.z.y.y]

/-- Every coordinate is reduced, that is, in `[0, pmod)`. -/
def gfP12.Reduced (pmod : Nat) (v : gfP12) : Prop :=
  ∀ c ∈ v.coords, c < pmod

/-! ## gt.go -/

/-- The struct `GT` of gt.go: a pointer `p` to an element of F_p¹². The type of the element is
`gfP12` for the wire format; the group operations, whose arithmetic is not among the sources,
are stated for any type `F` that carries the operations of F_p¹². -/
structure GT (F : Type) where
  p : Option F

/-- The concatenation of a list of byte strings. -/
def concatChunks : List (List UInt8) → List UInt8
  | [] => []
  | c :: cs => c ++ concatChunks cs

/-- The call `temp.Marshal(ret[off:])`: `ret` after the call. -/
def marshalAt (temp : gfP) (ret : List UInt8) (off : Nat) : List UInt8 :=
  ret.take off ++ gfP.Marshal temp (ret.drop off)

/-- The method `(*GT).Marshal()`. A receiver whose `p` is nil is a nil dereference (`none`). -/
def GT.Marshal (pmod : Nat) (e : GT gfP12) : Option (List UInt8) :=
  match e.p with
  | none => none
  | some v =>
    let ret : List UInt8 := List.replicate (numBytes * 12) 0
    let temp := montDecode pmod v.x.x.x
    let ret := gfP.Marshal temp ret
    let temp := montDecode pmod v.x.x.y
    let ret := marshalAt temp ret numBytes
    let temp := montDecode pmod v.x.y.x
    let ret := marshalAt temp ret (2 * numBytes)
    let temp := montDecode pmod v.x.y.y
    let ret := marshalAt temp ret (3 * numBytes)

    let temp := montDecode pmod v.y.x.x
    let ret := marshalAt temp ret (4 * numBytes)
    let temp := montDecode pmod v.y.x.y
    let ret := marshalAt temp ret (5 * numBytes)
    let temp := montDecode pmod v.y.y.x
    let ret := marshalAt temp ret (6 * numBytes)
    let temp := montDecode pmod v.y.y.y
    let ret := marshalAt temp ret (7 * numBytes)

    let temp := montDecode pmod v.z.x.x
    let ret := marshalAt temp ret (8 * numBytes)
    let temp := montDecode pmod v.z.x.y
    let ret := marshalAt temp ret (9 * numBytes)
    let temp := montDecode pmod v.z.y.x
    let ret := marshalAt temp ret (10 * numBytes)
    let temp := montDecode pmod v.z.y.y
    let ret := marshalAt temp ret (11 * numBytes)
    some ret

/-- The method `(*GT).Unmarshal(m)`: the receiver after the call, and the returned pair
(remaining bytes, error). Each coordinate is written as soon as it has been read. -/
def GT.Unmarshal (pmod : Nat) (e : GT gfP12) (m : List UInt8) :
    GT gfP12 × Except String (List UInt8) :=
  if m.length < 12 * numBytes then
    (e, .error "sm9.GT: not enough data")
  else
    let v : gfP12 := match e.p with
      | none => gfP12.zero
      | some v => v
    match gfP.Unmarshal pmod m with
    | .error err => (⟨some v⟩, .error err)
    | .ok c =>
    let v := { v with x.x.x := c }
    match gfP.Unmarshal pmod (m.drop numBytes) with
    | .error err => (⟨some v⟩, .error err)
    | .ok c =>
    let v := { v with x.x.y := c }
    match gfP.Unmarshal pmod (m.drop (2 * numBytes)) with
    | .error err => (⟨some v⟩, .error err)
    | .ok c =>
    let v := { v with x.y.x := c }
    match gfP.Unmarshal pmod (m.drop (3 * numBytes)) with
    | .error err => (⟨some v⟩, .error err)
    | .ok c =>
    let v := { v with x.y.y := c }
    match gfP.Unmarshal pmod (m.drop (4 * numBytes)) with
    | .error err => (⟨some v⟩, .error err)
    | .ok c =>
    let v := { v with y.x.x := c }
    match gfP.Unmarshal pmod (m.drop (5 * numBytes)) with
    | .error err => (⟨some v⟩, .error err)
    | .ok c =>
    let v := { v with y.x.y := c }
    match gfP.Unmarshal pmod (m.drop (6 * numBytes)) with
    | .error err => (⟨some v⟩, .error err)
    | .ok c =>
    let v := { v with y.y.x := c }
    match gfP.Unmarshal pmod (m.drop (7 * numBytes)) with
    | .error err => (⟨some v⟩, .error err)
    | .ok c =>
    let v := { v with y.y.y := c }
    match gfP.Unmarshal pmod (m.drop (8 * numBytes)) with
    | .error err => (⟨some v⟩, .error err)
    | .ok c =>
    let v := { v with z.x.x := c }
    match gfP.Unmarshal pmod (m.drop (9 * numBytes)) with
    | .error err => (⟨some v⟩, .error err)
    | .ok c =>
    let v := { v with z.x.y := c }
    match gfP.Unmarshal pmod (m.drop (10 * numBytes)) with
    | .error err => (⟨some v⟩, .error err)
    | .ok c =>
    let v := { v with z.y.x := c }
    match gfP.Unmarshal pmod (m.drop (11 * numBytes)) with
    | .error err => (⟨some v⟩, .error err)
    | .ok c =>
    let v := { v with z.y.y := c }
    let v := { v with x.x.x := montEncode pmod v.x.x.x }
    let v := { v with x.x.y := montEncode pmod v.x.x.y }
    let v := { v with x.y.x := montEncode pmod v.x.y.x }
    let v := { v with x.y.y := montEncode pmod v.x.y.y }
    let v := { v with y.x.x := montEncode pmod v.y.x.x }
    let v := { v with y.x.y := montEncode pmod v.y.x.y }
    let v := { v with y.y.x := montEncode pmod v.y.y.x }
    let v := { v with y.y.y := montEncode pmod v.y.y.y }
    let v := { v with z.x.x := montEncode pmod v.z.x.x }
    let v := { v with z.x.y := montEncode pmod v.z.x.y }
    let v := { v with z.y.x := montEncode pmod v.z.y.x }
    let v := { v with z.y.y := montEncode pmod v.z.y.y }
    (⟨some v⟩, .ok (m.drop (12 * numBytes)))

/-- The method `(*GT).Add(a, b)`: `e.p.Mul(a.p, b.p)`, multiplication in F_p¹². The result is
the receiver after the call; a nil `a.p` or `b.p` is a nil dereference (`none`). -/
def GT.Add {F : Type} [Mul F] (_e a b : GT F) : Option (GT F) :=
  match a.p, b.p with
  | some x, some y => some ⟨some (x * y)⟩
  | _, _ => none

/-- The method `(*GT).Neg(a)`: `e.p.Neg(a.p)`, which the spec (§9) identifies as negation in the
field F_p¹². -/
def GT.Neg {F : Type} [Neg F] (_e a : GT F) : Option (GT F) :=
  match a.p with
  | some x => some ⟨some (-x)⟩
  | none => none

/-- The functions of the pairing that gt.go calls and that are not among the sources. -/
structure PairingCore (F : Type) where
  /-- The type `*curvePoint`. -/
  curvePoint : Type
  /-- The type `*twistPoint`. -/
  twistPoint : Type
  /-- The function `miller`: the Miller loop with its adjustment (spec §4.4, steps 1 and 2). -/
  miller : twistPoint → curvePoint → F
  /-- The function `finalExponentiation` (spec §4.4, step 3). -/
  finalExponentiation : F → F

/-- Modelled from the spec: `pairing` is not among the sources. The spec (§4.4): the pairing is
the Miller loop with its adjustment followed by the final exponentiation. -/
def pairing {F : Type} (K : PairingCore F) (a : K.twistPoint) (b : K.curvePoint) : F :=
  K.finalExponentiation (K.miller a b)

/-- The struct `G1` of gt.go's package: a pointer to a curve point. -/
structure G1 {F : Type} (K : PairingCore F) where
  p : K.curvePoint

/-- The struct `G2` of gt.go's package: a pointer to a twist point. -/
structure G2 {F : Type} (K : PairingCore F) where
  p : K.twistPoint

/-- The function `Pair(g1, g2)`: `&GT{pairing(g2.p, g1.p)}`. -/
def Pair {F : Type} (K : PairingCore F) (g1 : G1 K) (g2 : G2 K) : GT F :=
  ⟨some (pairing K g2.p g1.p)⟩

/-- The function `Miller(g1, g2)`: `&GT{miller(g2.p, g1.p)}`. -/
def Miller {F : Type} (K : PairingCore F) (g1 : G1 K) (g2 : G2 K) : GT F :=
  ⟨some (K.miller g2.p g1.p)⟩

/-- The method `(*GT).Finalize()`: `ret := finalExponentiation(e.p); e.p.Set(ret)`. The result
is the receiver after the call; a nil `e.p` is a nil dereference (`none`). -/
def GT.Finalize {F : Type} (K : PairingCore F) (e : GT F) : Option (GT F) :=
  match e.p with
  | some x =>
    let ret := K.finalExponentiation x
    some ⟨some ret⟩
  | none => none

/-- What claim C3 assumes of the `bn256` package: the group operations are those of abelian
groups, `ScalarBaseMult` is scalar multiplication of the generator, `Pair` is bilinear, and
`Pair(Gen1, Gen2)` has order exactly `Order`. -/
structure Bn256.IsPairing (B : Bn256) [AddCommGroup B.G1] [AddCommGroup B.G2] [CommGroup B.GT] :
    Prop where
  g1ScalarBaseMult : ∀ k : Int, B.G1ScalarBaseMult k = k • B.Gen1
  g2ScalarBaseMult : ∀ k : Int, B.G2ScalarBaseMult k = k • B.Gen2
  g1Add : ∀ a b : B.G1, B.G1Add a b = a + b
  g2Add : ∀ a b : B.G2, B.G2Add a b = a + b
  bilinear : ∀ (a b : Int) (P : B.G1) (Q : B.G2), B.Pair (a • P) (b • Q) = B.Pair P Q ^ (a * b)
  order : ∀ k : Int, B.Pair B.Gen1 B.Gen2 ^ k = 1 ↔ B.Order ∣ k

/-! ## A small instance of the bn256 interface -/

/-- A small instance of the `bn256` interface: both source groups are the integers modulo `N`
with generator 1, the target group is the same group written multiplicatively, and the
pairing is `(a, b) ↦ a * b`, which is bilinear and sends the generators to an element of
order `N`. -/
def toyBn256 (N : Nat) : Bn256 :=
  { G1 := ZMod N
    G2 := ZMod N
    GT := Multiplicative (ZMod N)
    GTFieldTable := Multiplicative (ZMod N)
    Order := N
    Gen1 := 1
    Gen2 := 1
    G1ScalarBaseMult := fun k => (k : ZMod N)
    G2ScalarBaseMult := fun k => (k : ZMod N)
    G1Add := fun a b => a + b
    G2Add := fun a b => a + b
    Pair := fun a b => Multiplicative.ofAdd (a * b)
    GenerateGTFieldTable := fun g => g
    ScalarBaseMultGT := fun t k => t ^ k }

instance (N : Nat) : AddCommGroup (toyBn256 N).G1 := inferInstanceAs (AddCommGroup (ZMod N))

instance (N : Nat) : AddCommGroup (toyBn256 N).G2 := inferInstanceAs (AddCommGroup (ZMod N))

instance (N : Nat) : CommGroup (toyBn256 N).GT :=
  inferInstanceAs (CommGroup (Multiplicative (ZMod N)))

/-! ## Concrete values of GM/T 0044 -/

/-- The group order N of the SM9 curve fixed by GM/T 0044, the value of `bn256.Order`. -/
def sm9Order : Nat := 0xB640000002A3A6F1D603AB4FF58EC74449F2934B18EA8BEEE56EE19CD69ECF25

instance : NeZero sm9Order := ⟨by decide⟩

/-- The base-field prime p of the SM9 curve fixed by GM/T 0044. -/
def sm9P : Nat := 0xB640000002A3A6F1D603AB4FF58EC74521F2934B1A7AEEDBE56F9B27E351457D

/-- The bytes of the identity "Alice". -/
def aliceUid : List UInt8 := [0x41, 0x6c, 0x69, 0x63, 0x65]

/-- The value H1("Alice" ‖ 0x01, N) of GM/T 0044. -/
def h1Alice : Int := 0x2ACC468C3926B0BDB2767E99FF26E084DE9CED8DBC7D5FBF418027B667862FAB

/-- The master scalar `N - H1("Alice" ‖ 0x01, N)`, a value in `[1, N-1]`. -/
def dAlice : Int := 0x8B73B973C97CF634238D2CB5F667E6BF6B55A5BD5C6D2C2FA3EEB9E66F189F7A

/-- A GT element used as a concrete input: coordinates 1, ..., 11 and p - 1. -/
def gtSample : gfP12 :=
  { x := { x := { x := 1, y := 2 }, y := { x := 3, y := 4 } }
    y := { x := { x := 5, y := 6 }, y := { x := 7, y := 8 } }
    z := { x := { x := 9, y := 10 }, y := { x := 11, y := sm9P - 1 } } }

/-! ## cryptobyte: BIT STRING and the Builder -/

/-- The method `(*cryptobyte.String).ReadASN1BitStringAsBytes(out)`: the bytes of the bit
string (its contents without the leading count of padding bits, which must be 0) and the rest
of the input; `none` is the return value `false`. -/
def ReadASN1BitStringAsBytes (s : List UInt8) : Option (List UInt8 × List UInt8) :=
  match readASN1 s 0x03 with
  | none => none
  | some (bytes, rest) =>
    match bytes with
    | [] => none
    | paddingBits :: out => if paddingBits ≠ 0 then none else some (out, rest)

/-- The length octets that `(*cryptobyte.Builder).flushChild` writes in front of an ASN.1 child
of `length` bytes: one octet up to 127, otherwise `0x80 | k` and `k` big-endian octets; `none`
is the builder error "pending ASN.1 child too long". -/
def derLength (length : Nat) : Option (List UInt8) :=
  if length > 0xfffffffe then none
  else if length > 0xffffff then some (0x84 :: beBytes 4 length)
  else if length > 0xffff then some (0x83 :: beBytes 3 length)
  else if length > 0xff then some (0x82 :: beBytes 2 length)
  else if length > 0x7f then some (0x81 :: beBytes 1 length)
  else some [UInt8.ofNat length]

/-- The calls `b.AddASN1(tag, f); b.Bytes()` on a fresh `cryptobyte.Builder`, where `f` writes
`contents`. -/
def addASN1 (tag : UInt8) (contents : List UInt8) : Except String (List UInt8) :=
  if tag.toNat % 32 = 31 then
    .error "cryptobyte: high-tag number identifier octects not supported"
  else
    match derLength contents.length with
    | none => .error "pending ASN.1 child too long"
    | some len => .ok (tag :: (len ++ contents))

/-- The calls `b.AddASN1BitString(data); b.Bytes()` on a fresh `cryptobyte.Builder`: a BIT
STRING whose contents are the octet 0 (no padding bits) and `data`. -/
def AddASN1BitString (data : List UInt8) : Except String (List UInt8) :=
  addASN1 0x03 (0 :: data)

/-! ## Point encodings of bn256 -/

/-- The point encodings of package `bn256` that sm9_key.go calls. The package is not among the
sources, so the encoders and decoders are the fields of this record. A decoder is the method
called on a fresh point, `new(bn256.G1).Unmarshal(m)`: the decoded point and the returned
remaining bytes, or the returned error. -/
structure PointCodec (B : Bn256) where
  /-- The method `(*bn256.G1).Unmarshal`. -/
  G1Unmarshal : List UInt8 → Except String (B.G1 × List UInt8)
  /-- The method `(*bn256.G1).UnmarshalCompressed`. -/
  G1UnmarshalCompressed : List UInt8 → Except String (B.G1 × List UInt8)
  /-- The method `(*bn256.G1).MarshalUncompressed`. -/
  G1MarshalUncompressed : B.G1 → List UInt8
  /-- The method `(*bn256.G1).MarshalCompressed`. -/
  G1MarshalCompressed : B.G1 → List UInt8
  /-- The method `(*bn256.G2).Unmarshal`. -/
  G2Unmarshal : List UInt8 → Except String (B.G2 × List UInt8)
  /-- The method `(*bn256.G2).UnmarshalCompressed`. -/
  G2UnmarshalCompressed : List UInt8 → Except String (B.G2 × List UInt8)
  /-- The method `(*bn256.G2).MarshalUncompressed`. -/
  G2MarshalUncompressed : B.G2 → List UInt8
  /-- The method `(*bn256.G2).MarshalCompressed`. -/
  G2MarshalCompressed : B.G2 → List UInt8

/-- The function `unmarshalG2(bytes)`. `none` is the run-time panic of `bytes[0]` on an empty
slice; otherwise the returned pair (point, error). -/
def unmarshalG2 {B : Bn256} (C : PointCodec B) (bytes : List UInt8) :
    Option (Except String B.G2) :=
  match bytes with
  | [] => none
  | b0 :: _ =>
    if b0 = 4 then
      match C.G2Unmarshal (bytes.drop 1) with
      | .error err => some (.error err)
      | .ok (g2, _) => some (.ok g2)
    else if b0 = 2 ∨ b0 = 3 then
      match C.G2UnmarshalCompressed bytes with
      | .error err => some (.error err)
      | .ok (g2, _) => some (.ok g2)
    else
      some (.error "sm9: invalid point identity byte")

/-- The function `unmarshalG1(bytes)`. `none` is the run-time panic of `bytes[0]` on an empty
slice; otherwise the returned pair (point, error). -/
def unmarshalG1 {B : Bn256} (C : PointCodec B) (bytes : List UInt8) :
    Option (Except String B.G1) :=
  match bytes with
  | [] => none
  | b0 :: _ =>
    if b0 = 4 then
      match C.G1Unmarshal (bytes.drop 1) with
      | .error err => some (.error err)
      | .ok (g, _) => some (.ok g)
    else if b0 = 2 ∨ b0 = 3 then
      match C.G1UnmarshalCompressed bytes with
      | .error err => some (.error err)
      | .ok (g, _) => some (.ok g)
    else
      some (.error "sm9: invalid point identity byte")

/-! ## Unmarshalling keys

An unmarshalling method returns `none` when it panics, and otherwise the receiver after the
call together with the returned error (`none` for `nil`). -/

/-- The method `(*SignMasterPublicKey).UnmarshalRaw(bytes)`. -/
def SignMasterPublicKey.UnmarshalRaw {B : Bn256} (C : PointCodec B)
    (pub : SignMasterPublicKey B) (bytes : List UInt8) :
    Option (SignMasterPublicKey B × Option String) :=
  match unmarshalG2 C bytes with
  | none => none
  | some (.error err) => some (pub, some err)
  | some (.ok g2) => some ({ pub with MasterPublicKey := some g2 }, none)

/-- The method `(*SignMasterPublicKey).UnmarshalASN1(der)`. -/
def SignMasterPublicKey.UnmarshalASN1 {B : Bn256} (C : PointCodec B)
    (pub : SignMasterPublicKey B) (der : List UInt8) :
    Option (SignMasterPublicKey B × Option String) :=
  let input := der
  match ReadASN1BitStringAsBytes input with
  | none => some (pub, some "sm9: invalid sign master public key asn1 data")
  | some (bytes, input) =>
    if !input.isEmpty then some (pub, some "sm9: invalid sign master public key asn1 data")
    else pub.UnmarshalRaw C bytes

/-- The method `(*SignPrivateKey).SetMasterPublicKey(pub)`. -/
def SignPrivateKey.SetMasterPublicKey {B : Bn256} (priv : SignPrivateKey B)
    (pub : Gmsm.SignMasterPublicKey B) : SignPrivateKey B :=
  if priv.SignMasterPublicKey.MasterPublicKey.isNone then
    { priv with SignMasterPublicKey := pub }
  else priv

/-- The method `(*SignPrivateKey).UnmarshalRaw(bytes)`. -/
def SignPrivateKey.UnmarshalRaw {B : Bn256} (C : PointCodec B)
    (priv : SignPrivateKey B) (bytes : List UInt8) :
    Option (SignPrivateKey B × Option String) :=
  match unmarshalG1 C bytes with
  | none => none
  | some (.error err) => some (priv, some err)
  | some (.ok g) => some ({ priv with PrivateKey := some g }, none)

/-- The first part of `(*SignPrivateKey).UnmarshalASN1` and of
`(*EncryptPrivateKey).UnmarshalASN1` (lines 290-305 and 509-524): the DER structure is read
into `bytes` and `pubBytes`. `none` is the panic of `der[0]` on an empty slice; an error is one
of the two messages `errPriv` and `errPub`. -/
def readPrivateKeyDER (der : List UInt8) (errPriv errPub : String) :
    Option (Except String (List UInt8 × List UInt8)) :=
  let pubBytes : List UInt8 := []
  let input := der
  match der with
  | [] => none
  | der0 :: _ =>
    if der0 = 0x30 then
      match readASN1 input 0x30 with
      | none => some (.error errPriv)
      | some (inner, input) =>
        if !input.isEmpty then some (.error errPriv)
        else
          match ReadASN1BitStringAsBytes inner with
          | none => some (.error errPriv)
          | some (bytes, inner) =>
            if !inner.isEmpty then
              match ReadASN1BitStringAsBytes inner with
              | none => some (.error errPub)
              | some (pubBytes, inner) =>
                if !inner.isEmpty then some (.error errPub)
                else some (.ok (bytes, pubBytes))
            else some (.ok (bytes, pubBytes))
    else
      match ReadASN1BitStringAsBytes input with
      | none => some (.error errPriv)
      | some (bytes, input) =>
        if !input.isEmpty then some (.error errPriv)
        else some (.ok (bytes, pubBytes))

/-- The method `(*SignPrivateKey).UnmarshalASN1(der)`. -/
def SignPrivateKey.UnmarshalASN1 {B : Bn256} (C : PointCodec B)
    (priv : SignPrivateKey B) (der : List UInt8) :
    Option (SignPrivateKey B × Option String) :=
  match readPrivateKeyDER der "sm9: invalid sign user private key asn1 data"
      "sm9: invalid sign master public key asn1 data" with
  | none => none
  | some (.error err) => some (priv, some err)
  | some (.ok (bytes, pubBytes)) =>
    match priv.UnmarshalRaw C bytes with
    | none => none
    | some (priv, some err) => some (priv, some err)
    | some (priv, none) =>
      if pubBytes.length > 0 then
        let masterPK := SignMasterPublicKey.new B
        match masterPK.UnmarshalRaw C pubBytes with
        | none => none
        | some (_, some err) => some (priv, some err)
        | some (masterPK, none) => some (priv.SetMasterPublicKey masterPK, none)
      else some (priv, none)

/-- The method `(*EncryptMasterPublicKey).UnmarshalRaw(bytes)`. -/
def EncryptMasterPublicKey.UnmarshalRaw {B : Bn256} (C : PointCodec B)
    (pub : EncryptMasterPublicKey B) (bytes : List UInt8) :
    Option (EncryptMasterPublicKey B × Option String) :=
  match unmarshalG1 C bytes with
  | none => none
  | some (.error err) => some (pub, some err)
  | some (.ok g) => some ({ pub with MasterPublicKey := some g }, none)

/-- The method `(*EncryptMasterPublicKey).UnmarshalASN1(der)`. -/
def EncryptMasterPublicKey.UnmarshalASN1 {B : Bn256} (C : PointCodec B)
    (pub : EncryptMasterPublicKey B) (der : List UInt8) :
    Option (EncryptMasterPublicKey B × Option String) :=
  let input := der
  match ReadASN1BitStringAsBytes input with
  | none => some (pub, some "sm9: invalid encrypt master public key asn1 data")
  | some (bytes, input) =>
    if !input.isEmpty then some (pub, some "sm9: invalid encrypt master public key asn1 data")
    else pub.UnmarshalRaw C bytes

/-- The method `(*EncryptPrivateKey).SetMasterPublicKey(pub)`. -/
def EncryptPrivateKey.SetMasterPublicKey {B : Bn256} (priv : EncryptPrivateKey B)
    (pub : Gmsm.EncryptMasterPublicKey B) : EncryptPrivateKey B :=
  if priv.EncryptMasterPublicKey.MasterPublicKey.isNone then
    { priv with EncryptMasterPublicKey := pub }
  else priv

/-- The method `(*EncryptPrivateKey).UnmarshalRaw(bytes)`. -/
def EncryptPrivateKey.UnmarshalRaw {B : Bn256} (C : PointCodec B)
    (priv : EncryptPrivateKey B) (bytes : List UInt8) :
    Option (EncryptPrivateKey B × Option String) :=
  match unmarshalG2 C bytes with
  | none => none
  | some (.error err) => some (priv, some err)
  | some (.ok g) => some ({ priv with PrivateKey := some g }, none)

/-- The method `(*EncryptPrivateKey).UnmarshalASN1(der)`. -/
def EncryptPrivateKey.UnmarshalASN1 {B : Bn256} (C : PointCodec B)
    (priv : EncryptPrivateKey B) (der : List UInt8) :
    Option (EncryptPrivateKey B × Option String) :=
  match readPrivateKeyDER der "sm9: invalid encrypt user private key asn1 data"
      "sm9: invalid encrypt master public key asn1 data" with
  | none => none
  | some (.error err) => some (priv, some err)
  | some (.ok (bytes, pubBytes)) =>
    match priv.UnmarshalRaw C bytes with
    | none => none
    | some (priv, some err) => some (priv, some err)
    | some (priv, none) =>
      if pubBytes.length > 0 then
        let masterPK := EncryptMasterPublicKey.new B
        match masterPK.UnmarshalRaw C pubBytes with
        | none => none
        | some (_, some err) => some (priv, some err)
        | some (masterPK, none) => some (priv.SetMasterPublicKey masterPK, none)
      else some (priv, none)

/-! ## Marshalling keys

A marshalling method returns `none` when it panics (the point is nil), and otherwise the
returned pair (bytes, error). -/

/-- The method `(*SignMasterPublicKey).MarshalASN1()`. -/
def SignMasterPublicKey.MarshalASN1 {B : Bn256} (C : PointCodec B)
    (pub : SignMasterPublicKey B) : Option (Except String (List UInt8)) :=
  pub.MasterPublicKey.map (fun g => AddASN1BitString (C.G2MarshalUncompressed g))

/-- The method `(*SignMasterPublicKey).MarshalCompressedASN1()`. -/
def SignMasterPublicKey.MarshalCompressedASN1 {B : Bn256} (C : PointCodec B)
    (pub : SignMasterPublicKey B) : Option (Except String (List UInt8)) :=
  pub.MasterPublicKey.map (fun g => AddASN1BitString (C.G2MarshalCompressed g))

/-- The method `(*SignPrivateKey).MarshalASN1()`. -/
def SignPrivateKey.MarshalASN1 {B : Bn256} (C : PointCodec B)
    (priv : SignPrivateKey B) : Option (Except String (List UInt8)) :=
  priv.PrivateKey.map (fun g => AddASN1BitString (C.G1MarshalUncompressed g))

/-- The method `(*SignPrivateKey).MarshalCompressedASN1()`. -/
def SignPrivateKey.MarshalCompressedASN1 {B : Bn256} (C : PointCodec B)
    (priv : SignPrivateKey B) : Option (Except String (List UInt8)) :=
  priv.PrivateKey.map (fun g => AddASN1BitString (C.G1MarshalCompressed g))

/-- The method `(*EncryptMasterPublicKey).MarshalASN1()`. -/
def EncryptMasterPublicKey.MarshalASN1 {B : Bn256} (C : PointCodec B)
    (pub : EncryptMasterPublicKey B) : Option (Except String (List UInt8)) :=
  pub.MasterPublicKey.map (fun g => AddASN1BitString (C.G1MarshalUncompressed g))

/-- The method `(*EncryptMasterPublicKey).MarshalCompressedASN1()`. -/
def EncryptMasterPublicKey.MarshalCompressedASN1 {B : Bn256} (C : PointCodec B)
    (pub : EncryptMasterPublicKey B) : Option (Except String (List UInt8)) :=
  pub.MasterPublicKey.map (fun g => AddASN1BitString (C.G1MarshalCompressed g))

/-- The method `(*EncryptPrivateKey).MarshalASN1()`. -/
def EncryptPrivateKey.MarshalASN1 {B : Bn256} (C : PointCodec B)
    (priv : EncryptPrivateKey B) : Option (Except String (List UInt8)) :=
  priv.PrivateKey.map (fun g => AddASN1BitString (C.G2MarshalUncompressed g))

/-- The method `(*EncryptPrivateKey).MarshalCompressedASN1()`. -/
def EncryptPrivateKey.MarshalCompressedASN1 {B : Bn256} (C : PointCodec B)
    (priv : EncryptPrivateKey B) : Option (Except String (List UInt8)) :=
  priv.PrivateKey.map (fun g => AddASN1BitString (C.G2MarshalCompressed g))

/-- What claim C11 assumes of the G1 encodings at a point `P`: the uncompressed form is
`0x04‖X‖Y` and `Unmarshal` of `X‖Y` returns `P`; the compressed form starts with `0x02` or `0x03`
and `UnmarshalCompressed` of it returns `P`; both forms are shorter than 2^32 - 7 bytes. -/
def PointCodec.G1RoundTrip {B : Bn256} (C : PointCodec B) (P : B.G1) : Prop :=
  (∃ raw rest, C.G1MarshalUncompressed P = 4 :: raw ∧ C.G1Unmarshal raw = .ok (P, rest)) ∧
  (∃ t x rest, C.G1MarshalCompressed P = t :: x ∧ (t = 2 ∨ t = 3) ∧
    C.G1UnmarshalCompressed (t :: x) = .ok (P, rest)) ∧
  (C.G1MarshalUncompressed P).length + 7 < 2 ^ 32 ∧
  (C.G1MarshalCompressed P).length + 7 < 2 ^ 32

/-- What claim C11 assumes of the G2 encodings at a point `P` (as `G1RoundTrip`). -/
def PointCodec.G2RoundTrip {B : Bn256} (C : PointCodec B) (P : B.G2) : Prop :=
  (∃ raw rest, C.G2MarshalUncompressed P = 4 :: raw ∧ C.G2Unmarshal raw = .ok (P, rest)) ∧
  (∃ t x rest, C.G2MarshalCompressed P = t :: x ∧ (t = 2 ∨ t = 3) ∧
    C.G2UnmarshalCompressed (t :: x) = .ok (P, rest)) ∧
  (C.G2MarshalUncompressed P).length + 7 < 2 ^ 32 ∧
  (C.G2MarshalCompressed P).length + 7 < 2 ^ 32

/-- The DER input `der` has the sequence form: a SEQUENCE, with nothing after it, that holds
exactly two BIT STRINGs, whose bytes are `privBytes` and `pubBytes`. -/
def IsKeySequence (der privBytes pubBytes : List UInt8) : Prop :=
  ∃ inner rest1, readASN1 der 0x30 = some (inner, []) ∧
    ReadASN1BitStringAsBytes inner = some (privBytes, rest1) ∧ rest1 ≠ [] ∧
    ReadASN1BitStringAsBytes rest1 = some (pubBytes, [])

/-! ## A small instance of the point encodings -/

/-- The decoder of `toyCodec`: a 32-byte big-endian value below `N`, and the remaining bytes. -/
def toyUnmarshal (N : Nat) (m : List UInt8) : Except String (ZMod N × List UInt8) :=
  if m.length < 32 then .error "sm9: not enough data"
  else
    let v := beValue (m.take 32)
    if v < N then .ok ((v : ZMod N), m.drop 32) else .error "sm9: coordinate exceeds modulus"

/-- The compressed decoder of `toyCodec`: the tag `0x02` or `0x03`, then the value. -/
def toyUnmarshalCompressed (N : Nat) (m : List UInt8) : Except String (ZMod N × List UInt8) :=
  match m with
  | [] => .error "sm9: not enough data"
  | t :: raw => if t = 2 ∨ t = 3 then toyUnmarshal N raw else .error "sm9: invalid point"

/-- A small instance of the point encodings, for the groups of `toyBn256 N`: a point `x` is
written as the 32-byte big-endian value of `x`, after the tag `0x04` (uncompressed) or `0x02`
(compressed). -/
def toyCodec (N : Nat) : PointCodec (toyBn256 N) :=
  { G1Unmarshal := toyUnmarshal N
    G1UnmarshalCompressed := toyUnmarshalCompressed N
    G1MarshalUncompressed := fun (x : ZMod N) => 4 :: beBytes 32 x.val
    G1MarshalCompressed := fun (x : ZMod N) => 2 :: beBytes 32 x.val
    G2Unmarshal := toyUnmarshal N
    G2UnmarshalCompressed := toyUnmarshalCompressed N
    G2MarshalUncompressed := fun (x : ZMod N) => 4 :: beBytes 32 x.val
    G2MarshalCompressed := fun (x : ZMod N) => 2 :: beBytes 32 x.val }

/-- The DER BIT STRING (34 content bytes) that holds the tag `t` and the 32-byte value `v`. -/
def toyPointBits (t : UInt8) (v : Nat) : List UInt8 :=
  [0x03, 0x22, 0x00, t] ++ beBytes 32 v

/-- The DER SEQUENCE of two such BIT STRINGs (72 content bytes). -/
def toySequence (a b : List UInt8) : List UInt8 :=
  [0x30, 0x48] ++ a ++ b

/-! ## XTS mode (package cipher)

The implementation of the XTS mode is not among the sources; only its test,
cipher/xts_sm4_test.go, is. The mode is modelled from the spec (§4.7, §4.8), and the model is
run on the vectors of the test. -/

/-- Modelled from the spec: the block cipher object of §4.7, "an object supporting
`Encrypt(dst, src)` and `Decrypt(dst, src)` over 16-byte blocks". Each function returns the
bytes written to `dst`. -/
structure Block where
  Encrypt : List UInt8 → List UInt8
  Decrypt : List UInt8 → List UInt8

/-- What the XTS claims assume of a block cipher: `Encrypt` and `Decrypt` map 16-byte blocks
to 16-byte blocks, and `Decrypt` inverts `Encrypt`. -/
structure Block.IsCipher (c : Block) : Prop where
  encrypt_length : ∀ b : List UInt8, b.length = 16 → (c.Encrypt b).length = 16
  decrypt_length : ∀ b : List UInt8, b.length = 16 → (c.Decrypt b).length = 16
  decrypt_encrypt : ∀ b : List UInt8, b.length = 16 → c.Decrypt (c.Encrypt b) = b

/-- The XOR of two bytes. -/
def xorByte (a b : UInt8) : UInt8 := UInt8.ofNat (a.toNat ^^^ b.toNat)

/-- The bytewise XOR of two byte strings (of the shorter length). -/
def xorBytes (a b : List UInt8) : List UInt8 := List.zipWith xorByte a b

/-- The left shift by one bit of a byte string whose byte 0 is the least significant: the
shifted bytes and the bit carried out of the last byte. -/
def shiftLeft1 : List UInt8 → Nat → List UInt8 × Nat
  | [], carryIn => ([], carryIn)
  | b :: rest, carryIn =>
    let carryOut := b.toNat / 128
    let out := UInt8.ofNat ((2 * b.toNat + carryIn) % 256)
    let (rest', carry) := shiftLeft1 rest carryOut
    (out :: rest', carry)

/-- Modelled from the spec: the tweak advance of §4.8, "shift the 16-byte tweak left by one bit
(treating byte 0 as least significant), and if the high bit overflowed, XOR byte 0 with
0x87". -/
def mul2 (tweak : List UInt8) : List UInt8 :=
  match shiftLeft1 tweak 0 with
  | (b0 :: rest, carry) => if carry ≠ 0 then xorByte b0 0x87 :: rest else b0 :: rest
  | ([], _) => []

/-- The right shift by one bit of a byte string whose byte 0 is the most significant: the
shifted bytes and the bit carried out of the last byte. -/
def shiftRight1 : List UInt8 → Nat → List UInt8 × Nat
  | [], carryIn => ([], carryIn)
  | b :: rest, carryIn =>
    let carryOut := b.toNat % 2
    let out := UInt8.ofNat (b.toNat / 2 + 128 * carryIn)
    let (rest', carry) := shiftRight1 rest carryOut
    (out :: rest', carry)

/-- Modelled from the spec: the tweak advance of the GB/T 17964 variant. The spec (§4.8, §9)
leaves its convention to the standard and to the test vector of `TestXTS_GB`; the vector is
reproduced by the bit-reflected convention: byte 0 holds the highest coefficients, the tweak
is shifted right by one bit, and if a bit was shifted out, byte 0 is XORed with 0xE1. -/
def mul2GB (tweak : List UInt8) : List UInt8 :=
  match shiftRight1 tweak 0 with
  | (b0 :: rest, carry) => if carry ≠ 0 then xorByte b0 0xE1 :: rest else b0 :: rest
  | ([], _) => []

/-- Modelled from the spec: the XTS state of §3, "two subciphers (K1-cipher, K2-cipher), a
current tweak value T", with the variant chosen at construction (§9) and the direction. -/
structure xts where
  k1 : Block
  k2 : Block
  tweak : List UInt8
  isGB : Bool
  decrypt : Bool

/-- The tweak advance of the state's variant. -/
def xts.advance (x : xts) : List UInt8 → List UInt8 :=
  if x.isGB then mul2GB else mul2

/-- The little-endian encoding of `v` in `len` bytes. -/
def leBytes : Nat → Nat → List UInt8
  | 0, _ => []
  | len + 1, v => UInt8.ofNat (v % 256) :: leBytes len (v / 256)

/-- Modelled from the spec: the constructor of §4.8 for both directions and both tweak sources.
The two subciphers are made from the two keys, and T₀ is the K2-encryption of the tweak. The
optional check of §4.8 that rejects `k1 == k2` is not made: `TestXTS` builds an encrypter and
a decrypter from the all-zero key, whose halves are equal, and fails if a constructor returns
an error. -/
def newXTS (cipherFunc : List UInt8 → Except String Block) (key tweakKey tweak : List UInt8)
    (isGB decrypt : Bool) : Except String xts :=
  match cipherFunc key with
  | .error err => .error err
  | .ok k1 =>
    match cipherFunc tweakKey with
    | .error err => .error err
    | .ok k2 =>
      .ok { k1 := k1, k2 := k2, tweak := k2.Encrypt tweak, isGB := isGB, decrypt := decrypt }

/-- Modelled from the spec: `NewXTSEncrypterWithSector`, the P1619 constructor of §4.8: "The
initial tweak T₀ is the K2-encryption of the little-endian 16-byte representation" of the
64-bit sector number. -/
def NewXTSEncrypterWithSector (cipherFunc : List UInt8 → Except String Block)
    (key tweakKey : List UInt8) (sector : Nat) : Except String xts :=
  newXTS cipherFunc key tweakKey (leBytes 16 (sector % 2 ^ 64)) false false

/-- Modelled from the spec: `NewXTSDecrypterWithSector` (§4.8). -/
def NewXTSDecrypterWithSector (cipherFunc : List UInt8 → Except String Block)
    (key tweakKey : List UInt8) (sector : Nat) : Except String xts :=
  newXTS cipherFunc key tweakKey (leBytes 16 (sector % 2 ^ 64)) false true

/-- Modelled from the spec: `NewGBXTSEncrypter`, the GB/T 17964 constructor of §4.8:
"`tweakSource` is 16 raw bytes. T₀ = K2-encrypt(those bytes)". -/
def NewGBXTSEncrypter (cipherFunc : List UInt8 → Except String Block)
    (key tweakKey tweak : List UInt8) : Except String xts :=
  newXTS cipherFunc key tweakKey tweak true false

/-- Modelled from the spec: `NewGBXTSDecrypter` (§4.8). -/
def NewGBXTSDecrypter (cipherFunc : List UInt8 → Except String Block)
    (key tweakKey tweak : List UInt8) : Except String xts :=
  newXTS cipherFunc key tweakKey tweak true true

/-- One block of §4.8: `f(P ⊕ T) ⊕ T`, where `f` is the K1-encryption or the K1-decryption. -/
def xtsBlock (f : List UInt8 → List UInt8) (T P : List UInt8) : List UInt8 :=
  xorBytes (f (xorBytes P T)) T

/-- Modelled from the spec: the first `n` blocks of `src` are processed "normally" (§4.8):
block `i` is `f(P_i ⊕ T_i) ⊕ T_i`, and the tweak advances after each block. The result is the
output and the tweak that follows the last block. -/
def cryptFull (f : List UInt8 → List UInt8) (adv : List UInt8 → List UInt8) :
    List UInt8 → List UInt8 → Nat → List UInt8 × List UInt8
  | T, _, 0 => ([], T)
  | T, src, n + 1 =>
    let c := xtsBlock f T (src.take 16)
    let (rest, T') := cryptFull f adv (adv T) (src.drop 16) n
    (c ++ rest, T')

/-- Modelled from the spec: the streaming core of §4.8 for encryption, from the tweak `T0`. With
`n = ⌊L / 16⌋` and `r = L mod 16`: if `r = 0` all `n` blocks are encrypted normally; otherwise
blocks `0..n-2` are, `CC` is the normal encryption of block `n-1`, `PP` is the `r`-byte tail
followed by the last `16 - r` bytes of `CC`, and the output ends with the encryption of `PP`
under `T_n` and the first `r` bytes of `CC`. -/
def xtsEncrypt (k1 : Block) (adv : List UInt8 → List UInt8) (T0 src : List UInt8) :
    List UInt8 :=
  let n := src.length / 16
  let r := src.length % 16
  if r = 0 then (cryptFull k1.Encrypt adv T0 src n).1
  else
    let (out, T) := cryptFull k1.Encrypt adv T0 src (n - 1)
    let CC := xtsBlock k1.Encrypt T ((src.drop (16 * (n - 1))).take 16)
    let PP := src.drop (16 * n) ++ CC.drop r
    let Tn := adv T
    out ++ xtsBlock k1.Encrypt Tn PP ++ CC.take r

/-- Modelled from the spec: the streaming core of §4.8 for decryption: "during CTS the tweak for
the second-to-last block uses T_n and the last (short) block uses T_{n−1}". -/
def xtsDecrypt (k1 : Block) (adv : List UInt8 → List UInt8) (T0 src : List UInt8) :
    List UInt8 :=
  let n := src.length / 16
  let r := src.length % 16
  if r = 0 then (cryptFull k1.Decrypt adv T0 src n).1
  else
    let (out, T) := cryptFull k1.Decrypt adv T0 src (n - 1)
    let Tn := adv T
    let PP := xtsBlock k1.Decrypt Tn ((src.drop (16 * (n - 1))).take 16)
    let CC := src.drop (16 * n) ++ PP.drop r
    out ++ xtsBlock k1.Decrypt T CC ++ PP.take r

/-- Modelled from the spec: `CryptBlocks(dst, src)` of §4.8: the bytes written to `dst`, or the
error `ShortInput` for an input of fewer than 16 bytes. -/
def xts.CryptBlocks (x : xts) (src : List UInt8) : Except String (List UInt8) :=
  if src.length < 16 then .error "ShortInput"
  else if x.decrypt then .ok (xtsDecrypt x.k1 x.advance x.tweak src)
  else .ok (xtsEncrypt x.k1 x.advance x.tweak src)

/-- The `i`-th 16-byte block of a byte string. -/
def block16 (l : List UInt8) (i : Nat) : List UInt8 := (l.drop (16 * i)).take 16

/-! ## The SM4 block cipher

Package sm4 is not among the sources and the spec (§4.7) does not respecify the cipher. It is
the cipher that xts_sm4_test.go passes to the XTS constructors; GB/T 32907 is transcribed
here so that the test vectors can be run. Words are 32-bit values held in `Nat`. -/

/-- The S-box of SM4. -/
def sm4Sbox : List Nat :=
  [0xd6, 0x90, 0xe9, 0xfe, 0xcc, 0xe1, 0x3d, 0xb7, 0x16, 0xb6, 0x14, 0xc2, 0x28, 0xfb, 0x2c, 0x05,
   0x2b, 0x67, 0x9a, 0x76, 0x2a, 0xbe, 0x04, 0xc3, 0xaa, 0x44, 0x13, 0x26, 0x49, 0x86, 0x06, 0x99,
   0x9c, 0x42, 0x50, 0xf4, 0x91, 0xef, 0x98, 0x7a, 0x33, 0x54, 0x0b, 0x43, 0xed, 0xcf, 0xac, 0x62,
   0xe4, 0xb3, 0x1c, 0xa9, 0xc9, 0x08, 0xe8, 0x95, 0x80, 0xdf, 0x94, 0xfa, 0x75, 0x8f, 0x3f, 0xa6,
   0x47, 0x07, 0xa7, 0xfc, 0xf3, 0x73, 0x17, 0xba, 0x83, 0x59, 0x3c, 0x19, 0xe6, 0x85, 0x4f, 0xa8,
   0x68, 0x6b, 0x81, 0xb2, 0x71, 0x64, 0xda, 0x8b, 0xf8, 0xeb, 0x0f, 0x4b, 0x70, 0x56, 0x9d, 0x35,
   0x1e, 0x24, 0x0e, 0x5e, 0x63, 0x58, 0xd1, 0xa2, 0x25, 0x22, 0x7c, 0x3b, 0x01, 0x21, 0x78, 0x87,
   0xd4, 0x00, 0x46, 0x57, 0x9f, 0xd3, 0x27, 0x52, 0x4c, 0x36, 0x02, 0xe7, 0xa0, 0xc4, 0xc8, 0x9e,
   0xea, 0xbf, 0x8a, 0xd2, 0x40, 0xc7, 0x38, 0xb5, 0xa3, 0xf7, 0xf2, 0xce, 0xf9, 0x61, 0x15, 0xa1,
   0xe0, 0xae, 0x5d, 0xa4, 0x9b, 0x34, 0x1a, 0x55, 0xad, 0x93, 0x32, 0x30, 0xf5, 0x8c, 0xb1, 0xe3,
   0x1d, 0xf6, 0xe2, 0x2e, 0x82, 0x66, 0xca, 0x60, 0xc0, 0x29, 0x23, 0xab, 0x0d, 0x53, 0x4e, 0x6f,
   0xd5, 0xdb, 0x37, 0x45, 0xde, 0xfd, 0x8e, 0x2f, 0x03, 0xff, 0x6a, 0x72, 0x6d, 0x6c, 0x5b, 0x51,
   0x8d, 0x1b, 0xaf, 0x92, 0xbb, 0xdd, 0xbc, 0x7f, 0x11, 0xd9, 0x5c, 0x41, 0x1f, 0x10, 0x5a, 0xd8,
   0x0a, 0xc1, 0x31, 0x88, 0xa5, 0xcd, 0x7b, 0xbd, 0x2d, 0x74, 0xd0, 0x12, 0xb8, 0xe5, 0xb4, 0xb0,
   0x89, 0x69, 0x97, 0x4a, 0x0c, 0x96, 0x77, 0x7e, 0x65, 0xb9, 0xf1, 0x09, 0xc5, 0x6e, 0xc6, 0x84,
   0x18, 0xf0, 0x7d, 0xec, 0x3a, 0xdc, 0x4d, 0x20, 0x79, 0xee, 0x5f, 0x3e, 0xd7, 0xcb, 0x39, 0x48]

/-- The rotation of a 32-bit word to the left by `n` bits. -/
def rotl32 (x n : Nat) : Nat := ((x <<< n) ||| (x >>> (32 - n))) % 2 ^ 32

/-- The S-box applied to the four bytes of a word. -/
def sm4Tau (a : Nat) : Nat :=
  (sm4Sbox.getD ((a >>> 24) % 256) 0 <<< 24) ||| (sm4Sbox.getD ((a >>> 16) % 256) 0 <<< 16) |||
    (sm4Sbox.getD ((a >>> 8) % 256) 0 <<< 8) ||| sm4Sbox.getD (a % 256) 0

/-- The linear transformation L of the round function. -/
def sm4L (b : Nat) : Nat := b ^^^ rotl32 b 2 ^^^ rotl32 b 10 ^^^ rotl32 b 18 ^^^ rotl32 b 24

/-- The linear transformation L' of the key expansion. -/
def sm4LKey (b : Nat) : Nat := b ^^^ rotl32 b 13 ^^^ rotl32 b 23

/-- The constant CK_i: its four bytes are `(4i + j) * 7 mod 256`. -/
def sm4CK (i : Nat) : Nat :=
  (((4 * i) * 7 % 256) <<< 24) ||| (((4 * i + 1) * 7 % 256) <<< 16) |||
    (((4 * i + 2) * 7 % 256) <<< 8) ||| ((4 * i + 3) * 7 % 256)

/-- The rounds `i, i+1, ..` of the key expansion from the state `(k0, k1, k2, k3)`. -/
def sm4ExpandFrom : Nat → Nat → Nat → Nat → Nat → Nat → List Nat
  | 0, _, _, _, _, _ => []
  | cnt + 1, i, k0, k1, k2, k3 =>
    let rk := k0 ^^^ sm4LKey (sm4Tau (k1 ^^^ k2 ^^^ k3 ^^^ sm4CK i))
    rk :: sm4ExpandFrom cnt (i + 1) k1 k2 k3 rk

/-- The 32 round keys of a 16-byte key. -/
def sm4Expand (key : List UInt8) : List Nat :=
  sm4ExpandFrom 32 0 (beValue ((key.drop 0).take 4) ^^^ 0xa3b1bac6)
    (beValue ((key.drop 4).take 4) ^^^ 0x56aa3350)
    (beValue ((key.drop 8).take 4) ^^^ 0x677d9197)
    (beValue ((key.drop 12).take 4) ^^^ 0xb27022dc)

/-- The rounds of SM4 for the round keys `rk`, from the state `(x0, x1, x2, x3)`; the result is
the reversed final state. -/
def sm4Rounds : List Nat → Nat → Nat → Nat → Nat → List UInt8
  | [], x0, x1, x2, x3 => beBytes 4 x3 ++ beBytes 4 x2 ++ beBytes 4 x1 ++ beBytes 4 x0
  | rk :: rks, x0, x1, x2, x3 =>
    sm4Rounds rks x1 x2 x3 (x0 ^^^ sm4L (sm4Tau (x1 ^^^ x2 ^^^ x3 ^^^ rk)))

/-- One block of SM4 under the round keys `rk`. -/
def sm4Crypt (rk : List Nat) (b : List UInt8) : List UInt8 :=
  sm4Rounds rk (beValue ((b.drop 0).take 4)) (beValue ((b.drop 4).take 4))
    (beValue ((b.drop 8).take 4)) (beValue ((b.drop 12).take 4))

/-- The function `sm4.NewCipher(key)`: a key of 16 bytes gives the cipher, any other length
an error. Decryption runs the round keys in reverse order. -/
def sm4NewCipher (key : List UInt8) : Except String Block :=
  if key.length ≠ 16 then .error "sm4: invalid key size"
  else
    let rk := sm4Expand key
    .ok { Encrypt := sm4Crypt rk, Decrypt := sm4Crypt rk.reverse }

/-- The bytes of a string of hexadecimal digits (the function `fromHex` of the test). -/
def fromHex (s : String) : List UInt8 :=
  let digit (c : Char) : Nat :=
    if c.toNat ≥ 97 then c.toNat - 87 else if c.toNat ≥ 65 then c.toNat - 55 else c.toNat - 48
  let rec go : List Char → List UInt8
    | a :: b :: rest => UInt8.ofNat (16 * digit a + digit b) :: go rest
    | _ => []
  go s.toList

/-- The state `(x0, x1, x2, x3)` after the rounds of SM4 for the round keys `rk`; `sm4Rounds`
writes this state out in reverse order. -/
def sm4State : List Nat → Nat × Nat × Nat × Nat → Nat × Nat × Nat × Nat
  | [], s => s
  | rk :: rks, (x0, x1, x2, x3) =>
    sm4State rks (x1, x2, x3, x0 ^^^ sm4L (sm4Tau (x1 ^^^ x2 ^^^ x3 ^^^ rk)))


/-! ## The cached base point of a master public key -/

/-- The method `(*SignMasterPublicKey).pair()` (sm9_key.go lines 120-125): the returned
`pub.basePoint` and the receiver after the call. `pairOnce.Do` runs its function only when the
flag is not set yet, and sets the flag. `none` stands for the call of `bn256.Pair` on a nil
`MasterPublicKey`, which is outside the model of `bn256`. -/
def SignMasterPublicKey.pair {B : Bn256} (pub : SignMasterPublicKey B) :
    Option (Option B.GT × SignMasterPublicKey B) :=
  if pub.pairOnce then some (pub.basePoint, pub)
  else
    match pub.MasterPublicKey with
    | none => none
    | some mpk =>
      let pub := { pub with basePoint := some (B.Pair B.Gen1 mpk), pairOnce := true }
      some (pub.basePoint, pub)

/-- The method `(*SignMasterPublicKey).generatorTable()` (lines 127-132): the returned
`pub.table` and the receiver after the call. `none` as in `pair`, and for
`bn256.GenerateGTFieldTable` on a nil base point. -/
def SignMasterPublicKey.generatorTable {B : Bn256} (pub : SignMasterPublicKey B) :
    Option (Option B.GTFieldTable × SignMasterPublicKey B) :=
  if pub.tableGenOnce then some (pub.table, pub)
  else
    match pub.pair with
    | none => none
    | some (none, _) => none
    | some (some basePoint, pub) =>
      let pub := { pub with table := some (B.GenerateGTFieldTable basePoint),
                            tableGenOnce := true }
      some (pub.table, pub)

/-- The method `(*SignMasterPublicKey).ScalarBaseMult(r)` (lines 136-139): the returned element
of GT and the receiver after the call. `none` as in `generatorTable`, and for
`bn256.ScalarBaseMultGT` on a nil table. -/
def SignMasterPublicKey.ScalarBaseMult {B : Bn256} (pub : SignMasterPublicKey B) (r : Int) :
    Option (B.GT × SignMasterPublicKey B) :=
  match pub.generatorTable with
  | none => none
  | some (none, _) => none
  | some (some tables, pub) => some (B.ScalarBaseMultGT tables r, pub)

/-- The method `(*EncryptMasterPublicKey).pair()` (lines 382-387). -/
def EncryptMasterPublicKey.pair {B : Bn256} (pub : EncryptMasterPublicKey B) :
    Option (Option B.GT × EncryptMasterPublicKey B) :=
  if pub.pairOnce then some (pub.basePoint, pub)
  else
    match pub.MasterPublicKey with
    | none => none
    | some mpk =>
      let pub := { pub with basePoint := some (B.Pair mpk B.Gen2), pairOnce := true }
      some (pub.basePoint, pub)

/-- The method `(*EncryptMasterPublicKey).generatorTable()` (lines 389-394). -/
def EncryptMasterPublicKey.generatorTable {B : Bn256} (pub : EncryptMasterPublicKey B) :
    Option (Option B.GTFieldTable × EncryptMasterPublicKey B) :=
  if pub.tableGenOnce then some (pub.table, pub)
  else
    match pub.pair with
    | none => none
    | some (none, _) => none
    | some (some basePoint, pub) =>
      let pub := { pub with table := some (B.GenerateGTFieldTable basePoint),
                            tableGenOnce := true }
      some (pub.table, pub)

/-- The method `(*EncryptMasterPublicKey).ScalarBaseMult(r)` (lines 398-401). -/
def EncryptMasterPublicKey.ScalarBaseMult {B : Bn256} (pub : EncryptMasterPublicKey B)
    (r : Int) : Option (B.GT × EncryptMasterPublicKey B) :=
  match pub.generatorTable with
  | none => none
  | some (none, _) => none
  | some (some tables, pub) => some (B.ScalarBaseMultGT tables r, pub)

/-- The method `(*SignMasterPublicKey).ParseFromPEM(data)` (lines 213-227). `pemBits` stands
for lines 214-225, which only call `encoding/pem` and `encoding/asn1`: the right-aligned bytes
of the BIT STRING of the PEM block, or the returned error. -/
def SignMasterPublicKey.ParseFromPEM {B : Bn256} (C : PointCodec B)
    (pemBits : List UInt8 → Except String (List UInt8))
    (pub : SignMasterPublicKey B) (data : List UInt8) :
    Option (SignMasterPublicKey B × Option String) :=
  match pemBits data with
  | .error err => some (pub, some err)
  | .ok der => pub.UnmarshalRaw C der

/-- The method `(*EncryptMasterPublicKey).ParseFromPEM(data)` (lines 441-455). -/
def EncryptMasterPublicKey.ParseFromPEM {B : Bn256} (C : PointCodec B)
    (pemBits : List UInt8 → Except String (List UInt8))
    (pub : EncryptMasterPublicKey B) (data : List UInt8) :
    Option (EncryptMasterPublicKey B × Option String) :=
  match pemBits data with
  | .error err => some (pub, some err)
  | .ok der => pub.UnmarshalRaw C der

/-- A public operation on a master public key, as claim C24 lists them. -/
inductive PublicOp where
  | UnmarshalRaw (bytes : List UInt8)
  | UnmarshalASN1 (der : List UInt8)
  | ParseFromPEM (data : List UInt8)
  | ScalarBaseMult (r : Int)

/-- One public operation on a `SignMasterPublicKey`: the receiver after the call, or `none`
when the call does not return. -/
def SignMasterPublicKey.step {B : Bn256} (C : PointCodec B)
    (pemBits : List UInt8 → Except String (List UInt8))
    (pub : SignMasterPublicKey B) : PublicOp → Option (SignMasterPublicKey B)
  | .UnmarshalRaw bytes => (pub.UnmarshalRaw C bytes).map Prod.fst
  | .UnmarshalASN1 der => (pub.UnmarshalASN1 C der).map Prod.fst
  | .ParseFromPEM data => (pub.ParseFromPEM C pemBits data).map Prod.fst
  | .ScalarBaseMult r => (pub.ScalarBaseMult r).map Prod.snd

/-- A sequence of public operations on a `SignMasterPublicKey`, from left to right. -/
def SignMasterPublicKey.run {B : Bn256} (C : PointCodec B)
    (pemBits : List UInt8 → Except String (List UInt8)) :
    SignMasterPublicKey B → List PublicOp → Option (SignMasterPublicKey B)
  | pub, [] => some pub
  | pub, op :: ops =>
    match pub.step C pemBits op with
    | none => none
    | some pub => SignMasterPublicKey.run C pemBits pub ops

/-- One public operation on an `EncryptMasterPublicKey`. -/
def EncryptMasterPublicKey.step {B : Bn256} (C : PointCodec B)
    (pemBits : List UInt8 → Except String (List UInt8))
    (pub : EncryptMasterPublicKey B) : PublicOp → Option (EncryptMasterPublicKey B)
  | .UnmarshalRaw bytes => (pub.UnmarshalRaw C bytes).map Prod.fst
  | .UnmarshalASN1 der => (pub.UnmarshalASN1 C der).map Prod.fst
  | .ParseFromPEM data => (pub.ParseFromPEM C pemBits data).map Prod.fst
  | .ScalarBaseMult r => (pub.ScalarBaseMult r).map Prod.snd

/-- A sequence of public operations on an `EncryptMasterPublicKey`, from left to right. -/
def EncryptMasterPublicKey.run {B : Bn256} (C : PointCodec B)
    (pemBits : List UInt8 → Except String (List UInt8)) :
    EncryptMasterPublicKey B → List PublicOp → Option (EncryptMasterPublicKey B)
  | pub, [] => some pub
  | pub, op :: ops =>
    match pub.step C pemBits op with
    | none => none
    | some pub => EncryptMasterPublicKey.run C pemBits pub ops

/-! ## Sample user private keys -/

/-- A sign user private key over the integers modulo 251: the private key `p`, bound to the
master public key `m`. -/
def toySignPrivateKey (p m : ZMod 251) : SignPrivateKey (toyBn256 251) :=
  { PrivateKey := some p
    SignMasterPublicKey := { SignMasterPublicKey.new (toyBn256 251) with MasterPublicKey := some m } }

/-- An encrypt user private key over the integers modulo 251: the private key `p`, bound to
the master public key `m`. -/
def toyEncryptPrivateKey (p m : ZMod 251) : EncryptPrivateKey (toyBn256 251) :=
  { PrivateKey := some p
    EncryptMasterPublicKey :=
      { EncryptMasterPublicKey.new (toyBn256 251) with MasterPublicKey := some m } }

/-! ## The tweak as a polynomial over GF(2) -/

/-- The coefficient of `x^k` in a tweak: bit `k mod 8` of byte `k / 8`. -/
def tweakBit (T : List UInt8) (k : Nat) : Nat :=
  (T.getD (k / 8) 0).toNat / 2 ^ (k % 8) % 2

/-! ## Lemmas: math/big -/

theorem powMod_eq (x m : Int) (n : Nat) : powMod x m n = x ^ n % m := by
  induction n using Nat.strong_induction_on with
  | _ n ih =>
    cases n with
    | zero => simp [powMod]
    | succ k =>
      rw [powMod]
      have hlt : (k + 1) / 2 < k + 1 := by omega
      have hh := ih _ hlt
      simp only [hh]
      have hsplit : k + 1 = (k + 1) / 2 + (k + 1) / 2 + (k + 1) % 2 := by omega
      by_cases hodd : (k + 1) % 2 = 1
      · simp only [hodd, if_true]
        conv_rhs => rw [hsplit, hodd, pow_add, pow_add, pow_one]
        generalize x ^ ((k + 1) / 2) = a
        rw [← Int.mul_emod a a m, Int.mul_emod (a * a % m) x m,
          Int.emod_emod_of_dvd _ (dvd_refl m), ← Int.mul_emod]
      · have heven : (k + 1) % 2 = 0 := by omega
        simp only [heven]
        conv_rhs => rw [hsplit, heven, pow_add, pow_add, pow_zero, mul_one]
        simp [Int.mul_emod]

theorem fermatInverse_eq (k N : Int) (hN : 2 ≤ N) :
    fermatInverse k N = k ^ (N - 2).toNat % N := by
  have h0 : N ≠ 0 := by omega
  have habs : |N| = N := abs_of_nonneg (by omega)
  simp [fermatInverse, bigExp, h0, powMod_eq, habs]

/-! ## User key extraction: when it fails -/

theorem userKeyScalar_error_iff (N h D : Int) (err : String) :
    (∃ e, userKeyScalar N h D err = .error e) ↔ h + D = 0 := by
  unfold userKeyScalar
  by_cases h0 : h + D = 0 <;> simp [h0]

theorem userKeyScalar_order (N h D : Int) (err : String) (hN : 2 < N) (hD : h + D = N) :
    userKeyScalar N h D err = .ok 0 := by
  have h0 : ¬ (h + D = 0) := by omega
  have hdvd : N ∣ N ^ (N - 2).toNat := by
    apply dvd_pow_self
    omega
  have hz : N ^ (N - 2).toNat % N = 0 := Int.emod_eq_zero_of_dvd hdvd
  simp only [userKeyScalar, h0, if_false]
  rw [hD, fermatInverse_eq N N (by omega), hz]
  simp

theorem GenerateUserKey_error_iff (B : Bn256) (hashH1 : List UInt8 → Int)
    (master : SignMasterPrivateKey B) (uid : List UInt8) (hid : UInt8) :
    (∃ e, master.GenerateUserKey hashH1 uid hid = .error e) ↔
      hashH1 (uid ++ [hid]) + master.D = 0 := by
  rw [← userKeyScalar_error_iff B.Order _ _ "sm9: need to re-generate sign master private key"]
  simp only [SignMasterPrivateKey.GenerateUserKey, List.nil_append]
  cases userKeyScalar B.Order (hashH1 (uid ++ [hid])) master.D
    "sm9: need to re-generate sign master private key" <;> simp

/-- C1 (the code at the failing input). When `H1(uid‖hid) + D` is exactly the group order `N`
(with `D` and the hash both in `[1, N-1]`), `(h + D) mod N = 0`, yet both `GenerateUserKey`
methods return a key, `[0]·generator`, and no error. -/
theorem GenerateUserKey_ok_when_sum_is_order (B : Bn256) (hashH1 : List UInt8 → Int)
    (smaster : SignMasterPrivateKey B) (emaster : EncryptMasterPrivateKey B)
    (uid : List UInt8) (hid : UInt8)
    (hN : 2 < B.Order)
    (hh : 1 ≤ hashH1 (uid ++ [hid]) ∧ hashH1 (uid ++ [hid]) ≤ B.Order - 1)
    (hs : smaster.D = B.Order - hashH1 (uid ++ [hid]))
    (he : emaster.D = B.Order - hashH1 (uid ++ [hid])) :
    (1 ≤ smaster.D ∧ smaster.D ≤ B.Order - 1) ∧
    (hashH1 (uid ++ [hid]) + smaster.D) % B.Order = 0 ∧
    smaster.GenerateUserKey hashH1 uid hid =
      .ok { PrivateKey := some (B.G1ScalarBaseMult 0)
            SignMasterPublicKey := smaster.SignMasterPublicKey } ∧
    emaster.GenerateUserKey hashH1 uid hid =
      .ok { PrivateKey := some (B.G2ScalarBaseMult 0)
            EncryptMasterPublicKey := emaster.EncryptMasterPublicKey } := by
  have hsum : hashH1 (uid ++ [hid]) + smaster.D = B.Order := by omega
  have hsum2 : hashH1 (uid ++ [hid]) + emaster.D = B.Order := by omega
  refine ⟨⟨by omega, by omega⟩, ?_, ?_, ?_⟩
  · rw [hsum]; exact Int.emod_self
  · simp [SignMasterPrivateKey.GenerateUserKey, userKeyScalar_order _ _ _ _ hN hsum]
  · simp [EncryptMasterPrivateKey.GenerateUserKey, userKeyScalar_order _ _ _ _ hN hsum2]

/-- C1, at the SM9 group order, `uid = "Alice"`, `hid = 1` and `D = N - H1`. -/
theorem GenerateUserKey_ok_when_sum_is_order_witness :
    (1 ≤ dAlice ∧ dAlice ≤ (toyBn256 sm9Order).Order - 1) ∧
    ((fun _ => h1Alice : List UInt8 → Int) (aliceUid ++ [1]) + dAlice) % (toyBn256 sm9Order).Order = 0 ∧
    SignMasterPrivateKey.GenerateUserKey (fun _ => h1Alice)
        ({ SignMasterPublicKey := SignMasterPublicKey.new (toyBn256 sm9Order), D := dAlice } :
          SignMasterPrivateKey (toyBn256 sm9Order)) aliceUid 1 =
      .ok { PrivateKey := some ((toyBn256 sm9Order).G1ScalarBaseMult 0)
            SignMasterPublicKey := SignMasterPublicKey.new (toyBn256 sm9Order) } ∧
    EncryptMasterPrivateKey.GenerateUserKey (fun _ => h1Alice)
        ({ EncryptMasterPublicKey := EncryptMasterPublicKey.new (toyBn256 sm9Order), D := dAlice } :
          EncryptMasterPrivateKey (toyBn256 sm9Order)) aliceUid 1 =
      .ok { PrivateKey := some ((toyBn256 sm9Order).G2ScalarBaseMult 0)
            EncryptMasterPublicKey := EncryptMasterPublicKey.new (toyBn256 sm9Order) } :=
  GenerateUserKey_ok_when_sum_is_order (toyBn256 sm9Order) (fun _ => h1Alice)
    { SignMasterPublicKey := SignMasterPublicKey.new (toyBn256 sm9Order), D := dAlice }
    { EncryptMasterPublicKey := EncryptMasterPublicKey.new (toyBn256 sm9Order), D := dAlice }
    aliceUid 1 (by decide) (by decide) (by decide) (by decide)


/-! ## User key extraction: the scalar -/

theorem userKeyScalar_inverse_nat (p : Nat) (h D : Int) (err : String) (hp : Nat.Prime p)
    (hne : (h + D) % (p : Int) ≠ 0) :
    ∃ s, userKeyScalar p h D err = .ok s ∧ 0 ≤ s ∧ s < p ∧
      s = D * fermatInverse (h + D) p % p ∧ s * (h + D) % p = D % p := by
  have hp2 : 2 ≤ p := hp.two_le
  have hN : 2 ≤ (p : Int) := by omega
  have h0 : ¬ (h + D = 0) := by
    intro h0
    rw [h0] at hne
    simp at hne
  refine ⟨fermatInverse (h + D) p * D % p, ?_, ?_, ?_, ?_, ?_⟩
  · simp [userKeyScalar, h0]
  · exact Int.emod_nonneg _ (by omega)
  · exact Int.emod_lt_of_pos _ (by omega)
  · rw [mul_comm]
  · haveI : Fact (Nat.Prime p) := ⟨hp⟩
    have hexp : ((p : Int) - 2).toNat = p - 2 := by omega
    have ht : ((h + D : Int) : ZMod p) ≠ 0 := by
      rw [Ne, ZMod.intCast_zmod_eq_zero_iff_dvd]
      intro hd
      exact hne (Int.emod_eq_zero_of_dvd hd)
    have hfl : ((h + D : Int) : ZMod p) ^ (p - 2) * ((h + D : Int) : ZMod p) = 1 := by
      rw [← pow_succ]
      have : p - 2 + 1 = p - 1 := by omega
      rw [this]
      exact ZMod.pow_card_sub_one_eq_one ht
    have key : (((fermatInverse (h + D) p * D % p * (h + D) : Int)) : ZMod p)
        = ((D : Int) : ZMod p) := by
      rw [fermatInverse_eq _ _ hN, hexp]
      rw [Int.cast_mul, ZMod.intCast_mod, Int.cast_mul, ZMod.intCast_mod, Int.cast_pow]
      calc ((h + D : Int) : ZMod p) ^ (p - 2) * (D : ZMod p) * ((h + D : Int) : ZMod p)
          = (((h + D : Int) : ZMod p) ^ (p - 2) * ((h + D : Int) : ZMod p))
              * (D : ZMod p) := by ring
        _ = (D : ZMod p) := by rw [hfl, one_mul]
    exact (ZMod.intCast_eq_intCast_iff _ _ _).1 key

theorem userKeyScalar_ok_of_prime (N h D : Int) (err : String) (hp : Nat.Prime N.toNat)
    (hne : (h + D) % N ≠ 0) :
    ∃ s, userKeyScalar N h D err = .ok s ∧ 0 ≤ s ∧ s < N ∧
      s = D * fermatInverse (h + D) N % N ∧ s * (h + D) % N = D % N := by
  have hp2 : 2 ≤ N.toNat := hp.two_le
  have hcast : ((N.toNat : Nat) : Int) = N := Int.toNat_of_nonneg (by omega)
  have := userKeyScalar_inverse_nat N.toNat h D err hp (by rw [hcast]; exact hne)
  rw [hcast] at this
  exact this

/-- Whenever `(H1 + D) mod N ≠ 0` for a prime `N`, `GenerateUserKey` computes a scalar `s` with
`0 ≤ s < N`, `s = D * fermatInverse(H1 + D) mod N` and `s * (H1 + D) ≡ D (mod N)`. -/
theorem userKeyScalar_inverse (N h D : Int) (err : String) (hp : Nat.Prime N.toNat)
    (hne : (h + D) % N ≠ 0) :
    ∃ s, userKeyScalar N h D err = .ok s ∧ 0 ≤ s ∧ s < N ∧
      s = D * fermatInverse (h + D) N % N ∧ s * (h + D) % N = D % N :=
  userKeyScalar_ok_of_prime N h D err hp hne

/-- The scalar of `GenerateUserKey` at `N = 7`, `H1 = 3`, `D = 2`. -/
theorem userKeyScalar_inverse_witness :
    ∃ s, userKeyScalar 7 3 2 "sm9: need to re-generate sign master private key" = .ok s ∧
      0 ≤ s ∧ s < 7 ∧ s = 2 * fermatInverse (3 + 2) 7 % 7 ∧ s * (3 + 2) % 7 = 2 % 7 :=
  userKeyScalar_inverse 7 3 2 "sm9: need to re-generate sign master private key"
    (show Nat.Prime 7 by norm_num) (by decide)

/-- C2 (the code at the failing input). When `H1(uid‖hid) + D` is exactly the group order `N`,
`SignMasterPrivateKey.GenerateUserKey` succeeds, the scalar it hands to `G1.ScalarBaseMult` is
`0`, and `0 * (H1 + D)` is not congruent to `D` modulo `N`. -/
theorem GenerateUserKey_scalar_when_sum_is_order (B : Bn256) (hashH1 : List UInt8 → Int)
    (master : SignMasterPrivateKey B) (uid : List UInt8) (hid : UInt8)
    (hN : 2 < B.Order)
    (hh : 1 ≤ hashH1 (uid ++ [hid]) ∧ hashH1 (uid ++ [hid]) ≤ B.Order - 1)
    (hs : master.D = B.Order - hashH1 (uid ++ [hid])) :
    userKeyScalar B.Order (hashH1 (uid ++ [hid])) master.D
        "sm9: need to re-generate sign master private key" = .ok 0 ∧
    master.GenerateUserKey hashH1 uid hid =
      .ok { PrivateKey := some (B.G1ScalarBaseMult 0)
            SignMasterPublicKey := master.SignMasterPublicKey } ∧
    0 * (hashH1 (uid ++ [hid]) + master.D) % B.Order ≠ master.D % B.Order := by
  have hsum : hashH1 (uid ++ [hid]) + master.D = B.Order := by omega
  refine ⟨userKeyScalar_order _ _ _ _ hN hsum, ?_, ?_⟩
  · simp [SignMasterPrivateKey.GenerateUserKey, userKeyScalar_order _ _ _ _ hN hsum]
  · rw [zero_mul, Int.zero_emod, Int.emod_eq_of_lt (by omega) (by omega)]
    omega

/-- C2, at the SM9 group order, `uid = "Alice"`, `hid = 1` and `D = N - H1`. -/
theorem GenerateUserKey_scalar_when_sum_is_order_witness :
    userKeyScalar (toyBn256 sm9Order).Order ((fun _ => h1Alice : List UInt8 → Int) (aliceUid ++ [1])) dAlice
        "sm9: need to re-generate sign master private key" = .ok 0 ∧
    SignMasterPrivateKey.GenerateUserKey (fun _ => h1Alice)
        ({ SignMasterPublicKey := SignMasterPublicKey.new (toyBn256 sm9Order), D := dAlice } :
          SignMasterPrivateKey (toyBn256 sm9Order)) aliceUid 1 =
      .ok { PrivateKey := some ((toyBn256 sm9Order).G1ScalarBaseMult 0)
            SignMasterPublicKey := SignMasterPublicKey.new (toyBn256 sm9Order) } ∧
    0 * ((fun _ => h1Alice : List UInt8 → Int) (aliceUid ++ [1]) + dAlice) % (toyBn256 sm9Order).Order
      ≠ dAlice % (toyBn256 sm9Order).Order :=
  GenerateUserKey_scalar_when_sum_is_order (toyBn256 sm9Order) (fun _ => h1Alice)
    { SignMasterPublicKey := SignMasterPublicKey.new (toyBn256 sm9Order), D := dAlice }
    aliceUid 1 (by decide) (by decide) (by decide)

/-! ## User key extraction: the pairing relation -/

theorem toyBn256_isPairing (N : Nat) [NeZero N] : (toyBn256 N).IsPairing where
  g1ScalarBaseMult := by
    intro k
    show (k : ZMod N) = k • (1 : ZMod N)
    simp
  g2ScalarBaseMult := by
    intro k
    show (k : ZMod N) = k • (1 : ZMod N)
    simp
  g1Add := fun _ _ => rfl
  g2Add := fun _ _ => rfl
  bilinear := by
    intro a b (P : ZMod N) (Q : ZMod N)
    show Multiplicative.ofAdd ((a • P) * (b • Q)) = (Multiplicative.ofAdd (P * Q)) ^ (a * b)
    rw [← ofAdd_zsmul]
    congr 1
    simp only [zsmul_eq_mul, Int.cast_mul]
    ring
  order := by
    intro k
    show (Multiplicative.ofAdd ((1 : ZMod N) * 1)) ^ k = 1 ↔ ((N : Nat) : Int) ∣ k
    rw [← ofAdd_zsmul, ← ZMod.intCast_zmod_eq_zero_iff_dvd]
    simp only [mul_one, zsmul_eq_mul]
    exact Iff.rfl

theorem pair_scalars (B : Bn256) [AddCommGroup B.G1] [AddCommGroup B.G2] [CommGroup B.GT]
    (hB : B.IsPairing) (s h D : Int) :
    B.Pair (B.G1ScalarBaseMult s) (B.G2Add (B.G2ScalarBaseMult h) (B.G2ScalarBaseMult D))
      = B.Pair B.Gen1 B.Gen2 ^ (s * (h + D)) := by
  rw [hB.g2Add, hB.g1ScalarBaseMult, hB.g2ScalarBaseMult, hB.g2ScalarBaseMult, ← add_smul,
    hB.bilinear]

theorem pair_master (B : Bn256) [AddCommGroup B.G1] [AddCommGroup B.G2] [CommGroup B.GT]
    (hB : B.IsPairing) (D : Int) :
    B.Pair B.Gen1 (B.G2ScalarBaseMult D) = B.Pair B.Gen1 B.Gen2 ^ D := by
  have h := hB.bilinear 1 D B.Gen1 B.Gen2
  rw [one_smul, one_mul] at h
  rw [hB.g2ScalarBaseMult, h]

/-- Whenever `(H1 + D) mod N ≠ 0` for a prime `N`, the user private key `ds` and the user
public key `Q` of a sign master pair satisfy `Pair(ds, Q) = Pair(Gen1, P_pub)`, for every
bilinear pairing. -/
theorem GenerateUserKey_pairing (B : Bn256) [AddCommGroup B.G1] [AddCommGroup B.G2]
    [CommGroup B.GT] (hB : B.IsPairing) (hashH1 : List UInt8 → Int)
    (master : SignMasterPrivateKey B) (uid : List UInt8) (hid : UInt8)
    (hp : Nat.Prime B.Order.toNat)
    (hpub : master.SignMasterPublicKey.MasterPublicKey = some (B.G2ScalarBaseMult master.D))
    (hne : (hashH1 (uid ++ [hid]) + master.D) % B.Order ≠ 0) :
    ∃ key ds Q, master.GenerateUserKey hashH1 uid hid = .ok key ∧
      key.PrivateKey = some ds ∧
      master.SignMasterPublicKey.GenerateUserPublicKey hashH1 uid hid = some Q ∧
      B.Pair ds Q = B.Pair B.Gen1 (B.G2ScalarBaseMult master.D) := by
  obtain ⟨s, hs, -, -, -, hmod⟩ := userKeyScalar_ok_of_prime B.Order (hashH1 (uid ++ [hid])) master.D
    "sm9: need to re-generate sign master private key" hp hne
  refine ⟨{ PrivateKey := some (B.G1ScalarBaseMult s)
            SignMasterPublicKey := master.SignMasterPublicKey }, B.G1ScalarBaseMult s,
    B.G2Add (B.G2ScalarBaseMult (hashH1 (uid ++ [hid]))) (B.G2ScalarBaseMult master.D), ?_, rfl,
    ?_, ?_⟩
  · simp only [SignMasterPrivateKey.GenerateUserKey, List.nil_append, hs]
  · simp [SignMasterPublicKey.GenerateUserPublicKey, hpub]
  · rw [pair_scalars B hB, pair_master B hB]
    have hdvd : B.Order ∣ s * (hashH1 (uid ++ [hid]) + master.D) - master.D :=
      Int.modEq_iff_dvd.1 (Int.ModEq.symm hmod)
    have h1 := (hB.order _).2 hdvd
    rw [zpow_sub] at h1
    exact mul_inv_eq_one.1 h1

/-- The pairing relation in the groups of integers modulo 7, at `H1 = 3`, `D = 2`. -/
theorem GenerateUserKey_pairing_witness :
    ∃ key ds Q, SignMasterPrivateKey.GenerateUserKey (fun _ => 3)
        ({ SignMasterPublicKey :=
            { SignMasterPublicKey.new (toyBn256 7) with
              MasterPublicKey := some ((toyBn256 7).G2ScalarBaseMult 2) }
           D := 2 } : SignMasterPrivateKey (toyBn256 7)) aliceUid 1 = .ok key ∧
      key.PrivateKey = some ds ∧
      SignMasterPublicKey.GenerateUserPublicKey (fun _ => 3)
        ({ SignMasterPublicKey.new (toyBn256 7) with
            MasterPublicKey := some ((toyBn256 7).G2ScalarBaseMult 2) } :
          SignMasterPublicKey (toyBn256 7)) aliceUid 1 = some Q ∧
      (toyBn256 7).Pair ds Q = (toyBn256 7).Pair (toyBn256 7).Gen1 ((toyBn256 7).G2ScalarBaseMult 2) :=
  GenerateUserKey_pairing (toyBn256 7) (toyBn256_isPairing 7) (fun _ => 3)
    { SignMasterPublicKey :=
        { SignMasterPublicKey.new (toyBn256 7) with
          MasterPublicKey := some ((toyBn256 7).G2ScalarBaseMult 2) }
      D := 2 }
    aliceUid 1 (show Nat.Prime 7 by norm_num) rfl (by decide)

/-- C3 (the code at the failing input). For a sign master pair `(D, P_pub = [D]·Gen2)` with
`H1(uid‖hid) + D` equal to the group order, `GenerateUserKey` succeeds with `ds = [0]·Gen1`,
the user public key is `Q = [H1]·Gen2 + P_pub`, and `Pair(ds, Q) ≠ Pair(Gen1, P_pub)` for every
bilinear pairing whose value at the generators has order `N`. -/
theorem GenerateUserKey_pairing_when_sum_is_order (B : Bn256) [AddCommGroup B.G1]
    [AddCommGroup B.G2] [CommGroup B.GT] (hB : B.IsPairing) (hashH1 : List UInt8 → Int)
    (master : SignMasterPrivateKey B) (uid : List UInt8) (hid : UInt8)
    (hN : 2 < B.Order)
    (hh : 1 ≤ hashH1 (uid ++ [hid]) ∧ hashH1 (uid ++ [hid]) ≤ B.Order - 1)
    (hs : master.D = B.Order - hashH1 (uid ++ [hid]))
    (hpub : master.SignMasterPublicKey.MasterPublicKey = some (B.G2ScalarBaseMult master.D)) :
    master.GenerateUserKey hashH1 uid hid =
      .ok { PrivateKey := some (B.G1ScalarBaseMult 0)
            SignMasterPublicKey := master.SignMasterPublicKey } ∧
    master.SignMasterPublicKey.GenerateUserPublicKey hashH1 uid hid =
      some (B.G2Add (B.G2ScalarBaseMult (hashH1 (uid ++ [hid])))
        (B.G2ScalarBaseMult master.D)) ∧
    B.Pair (B.G1ScalarBaseMult 0)
        (B.G2Add (B.G2ScalarBaseMult (hashH1 (uid ++ [hid]))) (B.G2ScalarBaseMult master.D))
      ≠ B.Pair B.Gen1 (B.G2ScalarBaseMult master.D) := by
  have hsum : hashH1 (uid ++ [hid]) + master.D = B.Order := by omega
  refine ⟨?_, ?_, ?_⟩
  · simp [SignMasterPrivateKey.GenerateUserKey, userKeyScalar_order _ _ _ _ hN hsum]
  · simp [SignMasterPublicKey.GenerateUserPublicKey, hpub]
  · rw [pair_scalars B hB, pair_master B hB, zero_mul, zpow_zero]
    intro h1
    have hdvd := (hB.order _).1 h1.symm
    have hle := Int.le_of_dvd (by omega) hdvd
    omega

/-- C3, at the SM9 group order, `uid = "Alice"`, `hid = 1` and `D = N - H1`, in the groups of integers modulo N. -/
theorem GenerateUserKey_pairing_when_sum_is_order_witness :
    SignMasterPrivateKey.GenerateUserKey (fun _ => h1Alice)
        ({ SignMasterPublicKey :=
            { SignMasterPublicKey.new (toyBn256 sm9Order) with
              MasterPublicKey := some ((toyBn256 sm9Order).G2ScalarBaseMult dAlice) }
           D := dAlice } : SignMasterPrivateKey (toyBn256 sm9Order)) aliceUid 1 =
      .ok { PrivateKey := some ((toyBn256 sm9Order).G1ScalarBaseMult 0)
            SignMasterPublicKey :=
              { SignMasterPublicKey.new (toyBn256 sm9Order) with
                MasterPublicKey := some ((toyBn256 sm9Order).G2ScalarBaseMult dAlice) } } ∧
    SignMasterPublicKey.GenerateUserPublicKey (fun _ => h1Alice)
        ({ SignMasterPublicKey.new (toyBn256 sm9Order) with
            MasterPublicKey := some ((toyBn256 sm9Order).G2ScalarBaseMult dAlice) } :
          SignMasterPublicKey (toyBn256 sm9Order)) aliceUid 1 =
      some ((toyBn256 sm9Order).G2Add ((toyBn256 sm9Order).G2ScalarBaseMult h1Alice)
        ((toyBn256 sm9Order).G2ScalarBaseMult dAlice)) ∧
    (toyBn256 sm9Order).Pair ((toyBn256 sm9Order).G1ScalarBaseMult 0)
        ((toyBn256 sm9Order).G2Add ((toyBn256 sm9Order).G2ScalarBaseMult h1Alice) ((toyBn256 sm9Order).G2ScalarBaseMult dAlice))
      ≠ (toyBn256 sm9Order).Pair (toyBn256 sm9Order).Gen1 ((toyBn256 sm9Order).G2ScalarBaseMult dAlice) :=
  GenerateUserKey_pairing_when_sum_is_order (toyBn256 sm9Order) (toyBn256_isPairing sm9Order)
    (fun _ => h1Alice)
    { SignMasterPublicKey :=
        { SignMasterPublicKey.new (toyBn256 sm9Order) with
          MasterPublicKey := some ((toyBn256 sm9Order).G2ScalarBaseMult dAlice) }
      D := dAlice }
    aliceUid 1 (by decide) (by decide) (by decide) rfl

/-! ## Big-endian byte strings -/

theorem beBytes_length (n v : Nat) : (beBytes n v).length = n := by
  induction n generalizing v with
  | zero => rfl
  | succ n ih => simp [beBytes, ih]

theorem beValue_append_singleton (bs : List UInt8) (b : UInt8) :
    beValue (bs ++ [b]) = beValue bs * 256 + b.toNat := by
  simp [beValue, List.foldl_append]

theorem beValue_beBytes (n v : Nat) : beValue (beBytes n v) = v % 256 ^ n := by
  induction n generalizing v with
  | zero => simp [beBytes, beValue, Nat.mod_one]
  | succ n ih =>
    rw [beBytes, beValue_append_singleton, ih]
    have hb : (UInt8.ofNat (v % 256)).toNat = v % 256 := by
      simp [UInt8.toNat, UInt8.ofNat]
    rw [hb, pow_succ, mul_comm (256 ^ n) 256, Nat.mod_mul]
    ring

theorem beValue_beBytes_of_lt (v : Nat) (h : v < 2 ^ 256) : beValue (beBytes 32 v) = v := by
  rw [beValue_beBytes]
  exact Nat.mod_eq_of_lt (by norm_num at h ⊢; exact h)

/-! ## Montgomery form -/

theorem montR_mul_montRInv (pmod : Nat) (hodd : pmod % 2 = 1) (h1 : 1 < pmod) :
    montR * montRInv pmod % pmod = 1 := by
  have hcop : Nat.Coprime montR pmod := by
    unfold montR
    apply Nat.Coprime.pow_left
    rw [Nat.coprime_two_left]
    exact Nat.odd_iff.2 hodd
  have hb := Nat.gcd_eq_gcd_ab montR pmod
  rw [hcop] at hb
  have hpos : (0 : Int) < pmod := by omega
  have hinv : ((montRInv pmod : Nat) : Int) = Nat.gcdA montR pmod % (pmod : Int) := by
    unfold montRInv
    exact Int.toNat_of_nonneg (Int.emod_nonneg _ (by omega))
  have key : ((montR * montRInv pmod % pmod : Nat) : Int) = 1 := by
    push_cast
    rw [hinv, Int.mul_emod, Int.emod_emod_of_dvd _ (dvd_refl _), ← Int.mul_emod]
    have : (montR : Int) * Nat.gcdA montR pmod = 1 - pmod * Nat.gcdB montR pmod := by
      have := hb
      push_cast at this
      linarith
    rw [this, show (1 : Int) - pmod * Nat.gcdB montR pmod = 1 + pmod * (-Nat.gcdB montR pmod) by ring,
      Int.add_mul_emod_self_left]
    exact Int.emod_eq_of_lt (by norm_num) (by omega)
  exact_mod_cast key

theorem montEncode_montDecode (pmod : Nat) (hodd : pmod % 2 = 1) (h1 : 1 < pmod) (c : gfP)
    (hc : c < pmod) : montEncode pmod (montDecode pmod c) = c := by
  unfold montEncode montDecode
  rw [Nat.mod_mul_mod, mul_assoc, mul_comm (montRInv pmod) montR, Nat.mul_mod,
    montR_mul_montRInv pmod hodd h1, mul_one, Nat.mod_mod, Nat.mod_eq_of_lt hc]

theorem montDecode_lt (pmod : Nat) (h1 : 0 < pmod) (c : gfP) : montDecode pmod c < pmod :=
  Nat.mod_lt _ h1


/-! ## GT.Marshal -/

theorem gfP_Marshal_append (t : gfP) (old post : List UInt8) (hold : old.length = 32) :
    gfP.Marshal t (old ++ post) = beBytes 32 t ++ post := by
  simp [gfP.Marshal, List.drop_append_eq_append_drop, hold]

theorem marshalAt_append (t : gfP) (pre old post : List UInt8) (off : Nat)
    (hpre : pre.length = off) (hold : old.length = 32) :
    marshalAt t (pre ++ (old ++ post)) off = (pre ++ beBytes 32 t) ++ post := by
  subst hpre
  simp [marshalAt, gfP_Marshal_append, hold]

theorem replicate_chunks :
    List.replicate (numBytes * 12) (0 : UInt8) =
      List.replicate 32 0 ++ (List.replicate 32 0 ++ (List.replicate 32 0 ++
      (List.replicate 32 0 ++ (List.replicate 32 0 ++ (List.replicate 32 0 ++
      (List.replicate 32 0 ++ (List.replicate 32 0 ++ (List.replicate 32 0 ++
      (List.replicate 32 0 ++ (List.replicate 32 0 ++ (List.replicate 32 0 ++ []))))))))))) := by
  simp [numBytes]

theorem GT_Marshal_eq (pmod : Nat) (v : gfP12) :
    GT.Marshal pmod ⟨some v⟩ =
      some (concatChunks (v.coords.map (fun c => beBytes 32 (montDecode pmod c)))) := by
  simp only [GT.Marshal, replicate_chunks]
  rw [gfP_Marshal_append _ _ _ (List.length_replicate _ _)]
  simp only [marshalAt_append, List.length_append, beBytes_length, numBytes,
    List.length_replicate, List.length_nil, Nat.reduceAdd, Nat.reduceMul, Nat.reduceDiv]
  simp [concatChunks, gfP12.coords]

theorem concatChunks_length (cs : List (List UInt8)) (hlen : ∀ c ∈ cs, c.length = 32) :
    (concatChunks cs).length = cs.length * 32 := by
  induction cs with
  | nil => rfl
  | cons c cs ih =>
    have hc : c.length = 32 := hlen c (List.mem_cons_self _ _)
    have ih' := ih (fun d hd => hlen d (List.mem_cons_of_mem _ hd))
    simp only [concatChunks, List.length_append, List.length_cons, hc, ih']
    ring

theorem chunk_concatChunks (cs : List (List UInt8)) (tail : List UInt8)
    (hlen : ∀ c ∈ cs, c.length = 32) (i : Nat) (c : List UInt8) (hi : cs[i]? = some c) :
    ((concatChunks cs ++ tail).drop (i * 32)).take 32 = c := by
  induction cs generalizing i with
  | nil => simp at hi
  | cons c0 cs ih =>
    have hc0 : c0.length = 32 := hlen c0 (List.mem_cons_self _ _)
    cases i with
    | zero =>
      simp only [List.getElem?_cons_zero, Option.some.injEq] at hi
      subst hi
      rw [Nat.zero_mul, List.drop_zero, concatChunks, List.append_assoc, ← hc0, List.take_left]
    | succ j =>
      simp only [List.getElem?_cons_succ] at hi
      have ih' := ih (fun d hd => hlen d (List.mem_cons_of_mem _ hd)) j hi
      have hoff : (j + 1) * 32 = c0.length + j * 32 := by rw [hc0]; ring
      rw [concatChunks, List.append_assoc, hoff, List.drop_append]
      exact ih'

theorem drop_concatChunks (cs : List (List UInt8)) (tail : List UInt8)
    (hlen : ∀ c ∈ cs, c.length = 32) :
    (concatChunks cs ++ tail).drop (cs.length * 32) = tail := by
  rw [← concatChunks_length cs hlen, List.drop_left]

theorem marshalChunks_length (pmod : Nat) (v : gfP12) :
    ∀ c ∈ v.coords.map (fun c => beBytes 32 (montDecode pmod c)), c.length = 32 := by
  intro c hc
  obtain ⟨x, -, rfl⟩ := List.mem_map.1 hc
  exact beBytes_length _ _

theorem chunk_concat (pmod : Nat) (v : gfP12) (tail : List UInt8) (i : Nat) (c : gfP)
    (hi : v.coords[i]? = some c) :
    ((concatChunks (v.coords.map (fun c => beBytes 32 (montDecode pmod c))) ++ tail).drop
      (i * 32)).take 32 = beBytes 32 (montDecode pmod c) := by
  apply chunk_concatChunks _ _ (marshalChunks_length pmod v)
  rw [List.getElem?_map, hi]
  rfl


/-- C6. For every GT element, `Marshal` returns exactly 384 bytes, and for `i = 0..11` the
bytes `[32i, 32i+32)` are the 32-byte big-endian encoding of the Montgomery-decoded value of the
`i`-th coordinate in the order x.x.x, x.x.y, x.y.x, x.y.y, y.x.x, ..., z.y.y. -/
theorem GT_Marshal_layout (pmod : Nat) (v : gfP12) :
    ∃ bytes, GT.Marshal pmod ⟨some v⟩ = some bytes ∧ bytes.length = 384 ∧
      v.coords = [v.x.x.x, v.x.x.y, v.x.y.x, v.x.y.y, v.y.x.x, v.y.x.y, v.y.y.x, v.y.y.y,
        v.z.x.x, v.z.x.y, v.z.y.x, v.z.y.y] ∧
      ∀ i c, v.coords[i]? = some c →
        (bytes.drop (32 * i)).take 32 = beBytes 32 (montDecode pmod c) ∧
        ((bytes.drop (32 * i)).take 32).length = 32 ∧
        beValue ((bytes.drop (32 * i)).take 32) = montDecode pmod c % 2 ^ 256 := by
  refine ⟨_, GT_Marshal_eq pmod v, ?_, rfl, ?_⟩
  · rw [concatChunks_length _ (marshalChunks_length pmod v)]
    simp [gfP12.coords]
  · intro i c hi
    have h := chunk_concat pmod v [] i c hi
    rw [List.append_nil, Nat.mul_comm] at h
    rw [h, beBytes_length, beValue_beBytes]
    exact ⟨rfl, rfl, by norm_num⟩

theorem gfP_Unmarshal_chunk (pmod : Nat) (h1 : 0 < pmod) (h256 : pmod ≤ 2 ^ 256) (v : gfP12)
    (tail : List UInt8) (i : Nat) (c : gfP) (off : Nat) (hoff : off = i * 32)
    (hi : v.coords[i]? = some c) :
    gfP.Unmarshal pmod
      ((concatChunks (v.coords.map (fun c => beBytes 32 (montDecode pmod c))) ++ tail).drop off)
      = .ok (montDecode pmod c) := by
  subst hoff
  have hlt : montDecode pmod c < pmod := montDecode_lt pmod h1 c
  simp only [gfP.Unmarshal, chunk_concat pmod v tail i c hi]
  rw [beValue_beBytes_of_lt _ (lt_of_lt_of_le hlt h256)]
  simp [hlt]

/-- C4. For every GT element with reduced coordinates and every `tail`, `Unmarshal` of
`Marshal(e) ++ tail` succeeds on any receiver, leaves the receiver equal to `e` coordinate by
coordinate, and returns exactly `tail`. -/
theorem GT_Unmarshal_Marshal (pmod : Nat) (hodd : pmod % 2 = 1) (h1 : 1 < pmod)
    (h256 : pmod ≤ 2 ^ 256) (v : gfP12) (hv : v.Reduced pmod) (e : GT gfP12)
    (tail : List UInt8) :
    ∃ bytes, GT.Marshal pmod ⟨some v⟩ = some bytes ∧
      GT.Unmarshal pmod e (bytes ++ tail) = (⟨some v⟩, .ok tail) := by
  refine ⟨_, GT_Marshal_eq pmod v, ?_⟩
  have hp0 : 0 < pmod := by omega
  have hlen : ¬ ((concatChunks (v.coords.map (fun c => beBytes 32 (montDecode pmod c)))
      ++ tail).length < 12 * numBytes) := by
    rw [List.length_append, concatChunks_length _ (marshalChunks_length pmod v)]
    simp [gfP12.coords, numBytes]
  have hdrop := drop_concatChunks _ tail (marshalChunks_length pmod v)
  have hdrop' : (concatChunks (v.coords.map (fun c => beBytes 32 (montDecode pmod c)))
      ++ tail).drop (12 * numBytes) = tail := by
    simpa [gfP12.coords, numBytes] using hdrop
  have H0 := gfP_Unmarshal_chunk pmod hp0 h256 v tail 0 v.x.x.x 0 (by simp) (by simp [gfP12.coords])
  rw [List.drop_zero] at H0
  have H1 := gfP_Unmarshal_chunk pmod hp0 h256 v tail 1 v.x.x.y numBytes
    (by simp [numBytes]) (by simp [gfP12.coords])
  have H2 := gfP_Unmarshal_chunk pmod hp0 h256 v tail 2 v.x.y.x (2 * numBytes)
    (by simp [numBytes]) (by simp [gfP12.coords])
  have H3 := gfP_Unmarshal_chunk pmod hp0 h256 v tail 3 v.x.y.y (3 * numBytes)
    (by simp [numBytes]) (by simp [gfP12.coords])
  have H4 := gfP_Unmarshal_chunk pmod hp0 h256 v tail 4 v.y.x.x (4 * numBytes)
    (by simp [numBytes]) (by simp [gfP12.coords])
  have H5 := gfP_Unmarshal_chunk pmod hp0 h256 v tail 5 v.y.x.y (5 * numBytes)
    (by simp [numBytes]) (by simp [gfP12.coords])
  have H6 := gfP_Unmarshal_chunk pmod hp0 h256 v tail 6 v.y.y.x (6 * numBytes)
    (by simp [numBytes]) (by simp [gfP12.coords])
  have H7 := gfP_Unmarshal_chunk pmod hp0 h256 v tail 7 v.y.y.y (7 * numBytes)
    (by simp [numBytes]) (by simp [gfP12.coords])
  have H8 := gfP_Unmarshal_chunk pmod hp0 h256 v tail 8 v.z.x.x (8 * numBytes)
    (by simp [numBytes]) (by simp [gfP12.coords])
  have H9 := gfP_Unmarshal_chunk pmod hp0 h256 v tail 9 v.z.x.y (9 * numBytes)
    (by simp [numBytes]) (by simp [gfP12.coords])
  have H10 := gfP_Unmarshal_chunk pmod hp0 h256 v tail 10 v.z.y.x (10 * numBytes)
    (by simp [numBytes]) (by simp [gfP12.coords])
  have H11 := gfP_Unmarshal_chunk pmod hp0 h256 v tail 11 v.z.y.y (11 * numBytes)
    (by simp [numBytes]) (by simp [gfP12.coords])
  have E : ∀ c ∈ v.coords, montEncode pmod (montDecode pmod c) = c :=
    fun c hc => montEncode_montDecode pmod hodd h1 c (hv c hc)
  simp only [gfP12.coords, List.mem_cons, List.mem_singleton, forall_eq_or_imp, forall_eq,
    List.not_mem_nil, false_imp_iff, implies_true, and_true] at E
  obtain ⟨e0, e1, e2, e3, e4, e5, e6, e7, e8, e9, e10, e11⟩ := E
  simp only [GT.Unmarshal, hlen, if_false, H0, H1, H2, H3, H4, H5, H6, H7, H8, H9, H10, H11,
    hdrop', e0, e1, e2, e3, e4, e5, e6, e7, e8, e9, e10, e11]


/-- C4, at the SM9 prime, the element `gtSample`, a nil receiver and the tail `[1, 2, 3]`. -/
theorem GT_Unmarshal_Marshal_witness :
    ∃ bytes, GT.Marshal sm9P ⟨some gtSample⟩ = some bytes ∧
      GT.Unmarshal sm9P ⟨none⟩ (bytes ++ [1, 2, 3]) = (⟨some gtSample⟩, .ok [1, 2, 3]) :=
  GT_Unmarshal_Marshal sm9P (by decide) (by decide) (by decide) gtSample
    (by simp [gfP12.Reduced, gfP12.coords, gtSample, sm9P]) ⟨none⟩ [1, 2, 3]

/-! ## GT.Unmarshal: errors -/

theorem gfP_Unmarshal_ok (pmod : Nat) (inp : List UInt8) (h : beValue (inp.take 32) < pmod) :
    gfP.Unmarshal pmod inp = .ok (beValue (inp.take 32)) := by
  simp [gfP.Unmarshal, h]

theorem gfP_Unmarshal_error (pmod : Nat) (inp : List UInt8) (h : ¬ beValue (inp.take 32) < pmod) :
    gfP.Unmarshal pmod inp = .error "sm9: coordinate exceeds modulus" := by
  simp [gfP.Unmarshal, h]

/-- C5. `GT.Unmarshal(m)` returns an error exactly when `m` has fewer than 384 bytes or one of
the twelve 32-byte big-endian values in `m[0:384]` is at least `p`; otherwise it succeeds. -/
theorem GT_Unmarshal_error_iff (pmod : Nat) (e : GT gfP12) (m : List UInt8) :
    ((∃ err, (GT.Unmarshal pmod e m).2 = .error err) ↔
      (m.length < 384 ∨ ∃ i, i < 12 ∧ pmod ≤ beValue ((m.drop (32 * i)).take 32))) ∧
    ((∃ rest, (GT.Unmarshal pmod e m).2 = .ok rest) ↔
      ¬ (m.length < 384 ∨ ∃ i, i < 12 ∧ pmod ≤ beValue ((m.drop (32 * i)).take 32))) := by
  have hsplit : ∀ r : Except String (List UInt8),
      ((∃ rest, r = .ok rest) ↔ ¬ ∃ err, r = .error err) := by
    intro r
    cases r <;> simp
  suffices h : (∃ err, (GT.Unmarshal pmod e m).2 = .error err) ↔
      (m.length < 384 ∨ ∃ i, i < 12 ∧ pmod ≤ beValue ((m.drop (32 * i)).take 32)) by
    exact ⟨h, by rw [hsplit, h]⟩
  by_cases hlen : m.length < 12 * numBytes
  · have hl : m.length < 384 := by simpa [numBytes] using hlen
    simp [GT.Unmarshal, hlen, hl]
  have hl : ¬ m.length < 384 := by simpa [numBytes] using hlen
  by_cases h0 : beValue (m.take 32) < pmod
  swap
  · have hr : ∃ i, i < 12 ∧ pmod ≤ beValue ((m.drop (32 * i)).take 32) :=
      ⟨0, by norm_num, by simpa [numBytes] using h0⟩
    simp only [GT.Unmarshal, hlen, if_false,  gfP_Unmarshal_error _ _ h0]
    simp [hr]
  by_cases h1 : beValue ((m.drop (numBytes)).take 32) < pmod
  swap
  · have hr : ∃ i, i < 12 ∧ pmod ≤ beValue ((m.drop (32 * i)).take 32) :=
      ⟨1, by norm_num, by simpa [numBytes] using h1⟩
    simp only [GT.Unmarshal, hlen, if_false, gfP_Unmarshal_ok _ _ h0, gfP_Unmarshal_error _ _ h1]
    simp [hr]
  by_cases h2 : beValue ((m.drop (2 * numBytes)).take 32) < pmod
  swap
  · have hr : ∃ i, i < 12 ∧ pmod ≤ beValue ((m.drop (32 * i)).take 32) :=
      ⟨2, by norm_num, by simpa [numBytes] using h2⟩
    simp only [GT.Unmarshal, hlen, if_false, gfP_Unmarshal_ok _ _ h0, gfP_Unmarshal_ok _ _ h1, gfP_Unmarshal_error _ _ h2]
    simp [hr]
  by_cases h3 : beValue ((m.drop (3 * numBytes)).take 32) < pmod
  swap
  · have hr : ∃ i, i < 12 ∧ pmod ≤ beValue ((m.drop (32 * i)).take 32) :=
      ⟨3, by norm_num, by simpa [numBytes] using h3⟩
    simp only [GT.Unmarshal, hlen, if_false, gfP_Unmarshal_ok _ _ h0, gfP_Unmarshal_ok _ _ h1, gfP_Unmarshal_ok _ _ h2, gfP_Unmarshal_error _ _ h3]
    simp [hr]
  by_cases h4 : beValue ((m.drop (4 * numBytes)).take 32) < pmod
  swap
  · have hr : ∃ i, i < 12 ∧ pmod ≤ beValue ((m.drop (32 * i)).take 32) :=
      ⟨4, by norm_num, by simpa [numBytes] using h4⟩
    simp only [GT.Unmarshal, hlen, if_false, gfP_Unmarshal_ok _ _ h0, gfP_Unmarshal_ok _ _ h1, gfP_Unmarshal_ok _ _ h2, gfP_Unmarshal_ok _ _ h3, gfP_Unmarshal_error _ _ h4]
    simp [hr]
  by_cases h5 : beValue ((m.drop (5 * numBytes)).take 32) < pmod
  swap
  · have hr : ∃ i, i < 12 ∧ pmod ≤ beValue ((m.drop (32 * i)).take 32) :=
      ⟨5, by norm_num, by simpa [numBytes] using h5⟩
    simp only [GT.Unmarshal, hlen, if_false, gfP_Unmarshal_ok _ _ h0, gfP_Unmarshal_ok _ _ h1, gfP_Unmarshal_ok _ _ h2, gfP_Unmarshal_ok _ _ h3, gfP_Unmarshal_ok _ _ h4, gfP_Unmarshal_error _ _ h5]
    simp [hr]
  by_cases h6 : beValue ((m.drop (6 * numBytes)).take 32) < pmod
  swap
  · have hr : ∃ i, i < 12 ∧ pmod ≤ beValue ((m.drop (32 * i)).take 32) :=
      ⟨6, by norm_num, by simpa [numBytes] using h6⟩
    simp only [GT.Unmarshal, hlen, if_false, gfP_Unmarshal_ok _ _ h0, gfP_Unmarshal_ok _ _ h1, gfP_Unmarshal_ok _ _ h2, gfP_Unmarshal_ok _ _ h3, gfP_Unmarshal_ok _ _ h4, gfP_Unmarshal_ok _ _ h5, gfP_Unmarshal_error _ _ h6]
    simp [hr]
  by_cases h7 : beValue ((m.drop (7 * numBytes)).take 32) < pmod
  swap
  · have hr : ∃ i, i < 12 ∧ pmod ≤ beValue ((m.drop (32 * i)).take 32) :=
      ⟨7, by norm_num, by simpa [numBytes] using h7⟩
    simp only [GT.Unmarshal, hlen, if_false, gfP_Unmarshal_ok _ _ h0, gfP_Unmarshal_ok _ _ h1, gfP_Unmarshal_ok _ _ h2, gfP_Unmarshal_ok _ _ h3, gfP_Unmarshal_ok _ _ h4, gfP_Unmarshal_ok _ _ h5, gfP_Unmarshal_ok _ _ h6, gfP_Unmarshal_error _ _ h7]
    simp [hr]
  by_cases h8 : beValue ((m.drop (8 * numBytes)).take 32) < pmod
  swap
  · have hr : ∃ i, i < 12 ∧ pmod ≤ beValue ((m.drop (32 * i)).take 32) :=
      ⟨8, by norm_num, by simpa [numBytes] using h8⟩
    simp only [GT.Unmarshal, hlen, if_false, gfP_Unmarshal_ok _ _ h0, gfP_Unmarshal_ok _ _ h1, gfP_Unmarshal_ok _ _ h2, gfP_Unmarshal_ok _ _ h3, gfP_Unmarshal_ok _ _ h4, gfP_Unmarshal_ok _ _ h5, gfP_Unmarshal_ok _ _ h6, gfP_Unmarshal_ok _ _ h7, gfP_Unmarshal_error _ _ h8]
    simp [hr]
  by_cases h9 : beValue ((m.drop (9 * numBytes)).take 32) < pmod
  swap
  · have hr : ∃ i, i < 12 ∧ pmod ≤ beValue ((m.drop (32 * i)).take 32) :=
      ⟨9, by norm_num, by simpa [numBytes] using h9⟩
    simp only [GT.Unmarshal, hlen, if_false, gfP_Unmarshal_ok _ _ h0, gfP_Unmarshal_ok _ _ h1, gfP_Unmarshal_ok _ _ h2, gfP_Unmarshal_ok _ _ h3, gfP_Unmarshal_ok _ _ h4, gfP_Unmarshal_ok _ _ h5, gfP_Unmarshal_ok _ _ h6, gfP_Unmarshal_ok _ _ h7, gfP_Unmarshal_ok _ _ h8, gfP_Unmarshal_error _ _ h9]
    simp [hr]
  by_cases h10 : beValue ((m.drop (10 * numBytes)).take 32) < pmod
  swap
  · have hr : ∃ i, i < 12 ∧ pmod ≤ beValue ((m.drop (32 * i)).take 32) :=
      ⟨10, by norm_num, by simpa [numBytes] using h10⟩
    simp only [GT.Unmarshal, hlen, if_false, gfP_Unmarshal_ok _ _ h0, gfP_Unmarshal_ok _ _ h1, gfP_Unmarshal_ok _ _ h2, gfP_Unmarshal_ok _ _ h3, gfP_Unmarshal_ok _ _ h4, gfP_Unmarshal_ok _ _ h5, gfP_Unmarshal_ok _ _ h6, gfP_Unmarshal_ok _ _ h7, gfP_Unmarshal_ok _ _ h8, gfP_Unmarshal_ok _ _ h9, gfP_Unmarshal_error _ _ h10]
    simp [hr]
  by_cases h11 : beValue ((m.drop (11 * numBytes)).take 32) < pmod
  swap
  · have hr : ∃ i, i < 12 ∧ pmod ≤ beValue ((m.drop (32 * i)).take 32) :=
      ⟨11, by norm_num, by simpa [numBytes] using h11⟩
    simp only [GT.Unmarshal, hlen, if_false, gfP_Unmarshal_ok _ _ h0, gfP_Unmarshal_ok _ _ h1, gfP_Unmarshal_ok _ _ h2, gfP_Unmarshal_ok _ _ h3, gfP_Unmarshal_ok _ _ h4, gfP_Unmarshal_ok _ _ h5, gfP_Unmarshal_ok _ _ h6, gfP_Unmarshal_ok _ _ h7, gfP_Unmarshal_ok _ _ h8, gfP_Unmarshal_ok _ _ h9, gfP_Unmarshal_ok _ _ h10, gfP_Unmarshal_error _ _ h11]
    simp [hr]
  simp only [GT.Unmarshal, hlen, if_false, gfP_Unmarshal_ok _ _ h0, gfP_Unmarshal_ok _ _ h1, gfP_Unmarshal_ok _ _ h2, gfP_Unmarshal_ok _ _ h3, gfP_Unmarshal_ok _ _ h4, gfP_Unmarshal_ok _ _ h5, gfP_Unmarshal_ok _ _ h6, gfP_Unmarshal_ok _ _ h7, gfP_Unmarshal_ok _ _ h8, gfP_Unmarshal_ok _ _ h9, gfP_Unmarshal_ok _ _ h10, gfP_Unmarshal_ok _ _ h11]
  simp only [numBytes] at h0 h1 h2 h3 h4 h5 h6 h7 h8 h9 h10 h11
  norm_num at h1 h2 h3 h4 h5 h6 h7 h8 h9 h10 h11
  constructor
  · rintro ⟨err, herr⟩
    cases herr
  · rintro (h | ⟨i, hi, hle⟩)
    · exact absurd h hl
    · interval_cases i <;> norm_num at hle <;> omega


/-! ## GT.Neg -/

/-- C7 (the code at every element of GT). In a field of characteristic other than 2, for every
`a` with `a ^ N = 1` for an odd `N` (every element of the target group, the identity included),
`Neg(a)` is `-a`, `Add(a, Neg(a))` is `-(a * a)`, and that is not the identity element 1. -/
theorem GT_Add_Neg_ne_one (F : Type) [Field F] (h2 : (2 : F) ≠ 0) (N : Nat) (hN : N % 2 = 1)
    (a : F) (ha : a ^ N = 1) (e e' : GT F) :
    GT.Neg e ⟨some a⟩ = some ⟨some (-a)⟩ ∧
    GT.Add e' ⟨some a⟩ ⟨some (-a)⟩ = some ⟨some (-(a * a))⟩ ∧
    (⟨some (-(a * a))⟩ : GT F) ≠ ⟨some 1⟩ := by
  refine ⟨rfl, by simp [GT.Add], ?_⟩
  intro h
  have hsq : -(a * a) = 1 := by
    have := congrArg GT.p h
    simpa using this
  have hsq' : a ^ 2 = -1 := by rw [pow_two, ← hsq, neg_neg]
  obtain ⟨k, hk⟩ : ∃ k, N = 2 * k + 1 := ⟨N / 2, by omega⟩
  rw [hk, pow_succ, pow_mul, hsq'] at ha
  have haa : a * a = 1 := by
    rcases neg_one_pow_eq_or F k with h1 | h1
    · rw [h1, one_mul] at ha
      rw [ha, one_mul]
    · rw [h1, neg_one_mul] at ha
      have : a = -1 := by rw [← ha, neg_neg]
      rw [this]; ring
  rw [haa] at hsq
  apply h2
  have : (2 : F) = 1 + 1 := by norm_num
  rw [this]
  nth_rewrite 1 [← hsq]
  ring

/-- C7, in the field with 7 elements, at the element 2 of order 3. -/
theorem GT_Add_Neg_ne_one_witness :
    GT.Neg (⟨none⟩ : GT (ZMod 7)) ⟨some 2⟩ = some ⟨some (-2)⟩ ∧
    GT.Add (⟨none⟩ : GT (ZMod 7)) ⟨some 2⟩ ⟨some (-2)⟩ = some ⟨some (-(2 * 2))⟩ ∧
    (⟨some (-(2 * 2))⟩ : GT (ZMod 7)) ≠ ⟨some 1⟩ :=
  @GT_Add_Neg_ne_one (ZMod 7) (@ZMod.instField 7 ⟨by norm_num⟩) (by decide) 3 (by decide) 2
    (by decide) ⟨none⟩ ⟨none⟩

/-! ## Pair, Miller, Finalize -/

/-- C8. For every `g1` and `g2`, `Miller(g1, g2).Finalize()` is `Pair(g1, g2)`. -/
theorem Miller_Finalize_eq_Pair {F : Type} (K : PairingCore F) (g1 : G1 K) (g2 : G2 K) :
    GT.Finalize K (Miller K g1 g2) = some (Pair K g1 g2) := rfl


/-! ## Master keys -/

theorem randFieldElement_range (N : Int) (rand : List Int) (k : Int)
    (h : randFieldElement N rand = .ok k) : 1 ≤ k ∧ k ≤ N - 1 := by
  induction rand with
  | nil => simp [randFieldElement] at h
  | cons c rest ih =>
    rw [randFieldElement] at h
    by_cases hc : 1 ≤ c ∧ c ≤ N - 1
    · rw [if_pos hc] at h
      cases h
      exact hc
    · rw [if_neg hc] at h
      exact ih h

theorem GenerateSignMasterKey_ok (B : Bn256) (rand : List Int) (m : SignMasterPrivateKey B)
    (h : GenerateSignMasterKey B rand = .ok m) :
    randFieldElement B.Order rand = .ok m.D ∧
      m.SignMasterPublicKey.MasterPublicKey = some (B.G2ScalarBaseMult m.D) := by
  unfold GenerateSignMasterKey at h
  cases hr : randFieldElement B.Order rand with
  | error err => simp [hr] at h
  | ok k =>
    simp only [hr, Except.ok.injEq] at h
    subst h
    exact ⟨rfl, rfl⟩

theorem GenerateEncryptMasterKey_ok (B : Bn256) (rand : List Int)
    (m : EncryptMasterPrivateKey B) (h : GenerateEncryptMasterKey B rand = .ok m) :
    randFieldElement B.Order rand = .ok m.D ∧
      m.EncryptMasterPublicKey.MasterPublicKey = some (B.G1ScalarBaseMult m.D) := by
  unfold GenerateEncryptMasterKey at h
  cases hr : randFieldElement B.Order rand with
  | error err => simp [hr] at h
  | ok k =>
    simp only [hr, Except.ok.injEq] at h
    subst h
    exact ⟨rfl, rfl⟩

theorem SignMasterPrivateKey_UnmarshalASN1_ok {B : Bn256} (recv m : SignMasterPrivateKey B)
    (der : List UInt8) (h : recv.UnmarshalASN1 der = .ok m) :
    ReadASN1Integer der = some (m.D, []) ∧
      m.SignMasterPublicKey.MasterPublicKey = some (B.G2ScalarBaseMult m.D) := by
  unfold SignMasterPrivateKey.UnmarshalASN1 at h
  cases hr : ReadASN1Integer der with
  | none => simp [hr] at h
  | some r =>
    obtain ⟨d, rest⟩ := r
    cases rest with
    | cons b bs => simp [hr] at h
    | nil =>
      simp only [hr, List.isEmpty_nil, Bool.not_true, Bool.false_eq_true, if_false,
        Except.ok.injEq] at h
      subst h
      exact ⟨rfl, rfl⟩

theorem EncryptMasterPrivateKey_UnmarshalASN1_ok {B : Bn256}
    (recv m : EncryptMasterPrivateKey B) (der : List UInt8)
    (h : recv.UnmarshalASN1 der = .ok m) :
    ReadASN1Integer der = some (m.D, []) ∧
      m.EncryptMasterPublicKey.MasterPublicKey = some (B.G1ScalarBaseMult m.D) := by
  unfold EncryptMasterPrivateKey.UnmarshalASN1 at h
  cases hr : ReadASN1Integer der with
  | none => simp [hr] at h
  | some r =>
    obtain ⟨d, rest⟩ := r
    cases rest with
    | cons b bs => simp [hr] at h
    | nil =>
      simp only [hr, List.isEmpty_nil, Bool.not_true, Bool.false_eq_true, if_false,
        Except.ok.injEq] at h
      subst h
      exact ⟨rfl, rfl⟩

/-- C9 (counterexample). The DER INTEGER 0 (`02 01 00`) is accepted by both `UnmarshalASN1`
methods, and the key they produce has `D = 0`, outside `[1, N-1]`. -/
theorem UnmarshalASN1_accepts_zero_scalar :
    (∃ m, SignMasterPrivateKey.UnmarshalASN1
        ({ SignMasterPublicKey := SignMasterPublicKey.new (toyBn256 sm9Order), D := 1 } :
          SignMasterPrivateKey (toyBn256 sm9Order)) [0x02, 0x01, 0x00] = .ok m ∧
      m.D = 0 ∧ ¬ (1 ≤ m.D ∧ m.D ≤ (toyBn256 sm9Order).Order - 1)) ∧
    (∃ m, EncryptMasterPrivateKey.UnmarshalASN1
        ({ EncryptMasterPublicKey := EncryptMasterPublicKey.new (toyBn256 sm9Order), D := 1 } :
          EncryptMasterPrivateKey (toyBn256 sm9Order)) [0x02, 0x01, 0x00] = .ok m ∧
      m.D = 0 ∧ ¬ (1 ≤ m.D ∧ m.D ≤ (toyBn256 sm9Order).Order - 1)) :=
  ⟨⟨_, rfl, rfl, by decide⟩, ⟨_, rfl, rfl, by decide⟩⟩

/-- C9 (amended). A master private key produced by a successful `GenerateSignMasterKey` or
`GenerateEncryptMasterKey` has `D` in `[1, N-1]`; a successful `UnmarshalASN1` of either master
private key type stores the integer that the DER INTEGER encodes, whatever its range. -/
theorem master_scalar_range (B : Bn256) (rand : List Int) (ms mu recvS : SignMasterPrivateKey B)
    (me mv recvE : EncryptMasterPrivateKey B) (der : List UInt8)
    (hs : GenerateSignMasterKey B rand = .ok ms)
    (he : GenerateEncryptMasterKey B rand = .ok me)
    (hu : recvS.UnmarshalASN1 der = .ok mu)
    (hv : recvE.UnmarshalASN1 der = .ok mv) :
    (1 ≤ ms.D ∧ ms.D ≤ B.Order - 1) ∧ (1 ≤ me.D ∧ me.D ≤ B.Order - 1) ∧
    ReadASN1Integer der = some (mu.D, []) ∧ ReadASN1Integer der = some (mv.D, []) :=
  ⟨randFieldElement_range _ _ _ (GenerateSignMasterKey_ok B rand ms hs).1,
    randFieldElement_range _ _ _ (GenerateEncryptMasterKey_ok B rand me he).1,
    (SignMasterPrivateKey_UnmarshalASN1_ok recvS mu der hu).1,
    (EncryptMasterPrivateKey_UnmarshalASN1_ok recvE mv der hv).1⟩

/-- C9 (amended), at the SM9 group order: the reader yields 0, N and then 5, so `D = 5`; the
DER input `02 01 05` gives `D = 5`. -/
theorem master_scalar_range_witness :
    (1 ≤ (5 : Int) ∧ (5 : Int) ≤ (toyBn256 sm9Order).Order - 1) ∧
    (1 ≤ (5 : Int) ∧ (5 : Int) ≤ (toyBn256 sm9Order).Order - 1) ∧
    ReadASN1Integer [0x02, 0x01, 0x05] = some (5, []) ∧
    ReadASN1Integer [0x02, 0x01, 0x05] = some (5, []) :=
  master_scalar_range (toyBn256 sm9Order) [0, sm9Order, 5]
    { SignMasterPublicKey :=
        { SignMasterPublicKey.new (toyBn256 sm9Order) with
          MasterPublicKey := some ((toyBn256 sm9Order).G2ScalarBaseMult 5) }
      D := 5 }
    { SignMasterPublicKey :=
        { SignMasterPublicKey.new (toyBn256 sm9Order) with
          MasterPublicKey := some ((toyBn256 sm9Order).G2ScalarBaseMult 5) }
      D := 5 }
    { SignMasterPublicKey := SignMasterPublicKey.new (toyBn256 sm9Order), D := 1 }
    { EncryptMasterPublicKey :=
        { EncryptMasterPublicKey.new (toyBn256 sm9Order) with
          MasterPublicKey := some ((toyBn256 sm9Order).G1ScalarBaseMult 5) }
      D := 5 }
    { EncryptMasterPublicKey :=
        { EncryptMasterPublicKey.new (toyBn256 sm9Order) with
          MasterPublicKey := some ((toyBn256 sm9Order).G1ScalarBaseMult 5) }
      D := 5 }
    { EncryptMasterPublicKey := EncryptMasterPublicKey.new (toyBn256 sm9Order), D := 1 }
    [0x02, 0x01, 0x05] rfl rfl rfl rfl

/-- C10. A master private key produced by a successful `GenerateSignMasterKey` or
`SignMasterPrivateKey.UnmarshalASN1` has `MasterPublicKey = [D]·Gen2`, and one produced by
`GenerateEncryptMasterKey` or `EncryptMasterPrivateKey.UnmarshalASN1` has
`MasterPublicKey = [D]·Gen1`, for the `D` stored in the same key (`ScalarBaseMult` being scalar
multiplication of the generator). -/
theorem MasterPublicKey_eq_scalar_mul (B : Bn256) [AddCommGroup B.G1] [AddCommGroup B.G2]
    (h1 : ∀ k : Int, B.G1ScalarBaseMult k = k • B.Gen1)
    (h2 : ∀ k : Int, B.G2ScalarBaseMult k = k • B.Gen2) :
    (∀ rand m, GenerateSignMasterKey B rand = .ok m →
      m.SignMasterPublicKey.MasterPublicKey = some (m.D • B.Gen2)) ∧
    (∀ (recv : SignMasterPrivateKey B) der m, recv.UnmarshalASN1 der = .ok m →
      m.SignMasterPublicKey.MasterPublicKey = some (m.D • B.Gen2)) ∧
    (∀ rand m, GenerateEncryptMasterKey B rand = .ok m →
      m.EncryptMasterPublicKey.MasterPublicKey = some (m.D • B.Gen1)) ∧
    (∀ (recv : EncryptMasterPrivateKey B) der m, recv.UnmarshalASN1 der = .ok m →
      m.EncryptMasterPublicKey.MasterPublicKey = some (m.D • B.Gen1)) := by
  refine ⟨?_, ?_, ?_, ?_⟩
  · intro rand m h
    rw [(GenerateSignMasterKey_ok B rand m h).2, h2]
  · intro recv der m h
    rw [(SignMasterPrivateKey_UnmarshalASN1_ok recv m der h).2, h2]
  · intro rand m h
    rw [(GenerateEncryptMasterKey_ok B rand m h).2, h1]
  · intro recv der m h
    rw [(EncryptMasterPrivateKey_UnmarshalASN1_ok recv m der h).2, h1]

/-- C10, in the groups of integers modulo the SM9 group order: the reader yields 0 and then 5,
and the DER input is `02 01 05`. -/
theorem MasterPublicKey_eq_scalar_mul_witness :
    (∃ m, GenerateSignMasterKey (toyBn256 sm9Order) [0, 5] = .ok m ∧
      m.SignMasterPublicKey.MasterPublicKey = some (m.D • (toyBn256 sm9Order).Gen2)) ∧
    (∃ m, SignMasterPrivateKey.UnmarshalASN1
        ({ SignMasterPublicKey := SignMasterPublicKey.new (toyBn256 sm9Order), D := 1 } :
          SignMasterPrivateKey (toyBn256 sm9Order)) [0x02, 0x01, 0x05] = .ok m ∧
      m.SignMasterPublicKey.MasterPublicKey = some (m.D • (toyBn256 sm9Order).Gen2)) ∧
    (∃ m, GenerateEncryptMasterKey (toyBn256 sm9Order) [0, 5] = .ok m ∧
      m.EncryptMasterPublicKey.MasterPublicKey = some (m.D • (toyBn256 sm9Order).Gen1)) ∧
    (∃ m, EncryptMasterPrivateKey.UnmarshalASN1
        ({ EncryptMasterPublicKey := EncryptMasterPublicKey.new (toyBn256 sm9Order), D := 1 } :
          EncryptMasterPrivateKey (toyBn256 sm9Order)) [0x02, 0x01, 0x05] = .ok m ∧
      m.EncryptMasterPublicKey.MasterPublicKey = some (m.D • (toyBn256 sm9Order).Gen1)) :=
  have h := MasterPublicKey_eq_scalar_mul (toyBn256 sm9Order)
    (toyBn256_isPairing sm9Order).g1ScalarBaseMult (toyBn256_isPairing sm9Order).g2ScalarBaseMult
  ⟨⟨_, rfl, h.1 [0, 5] _ rfl⟩, ⟨_, rfl, h.2.1 _ [0x02, 0x01, 0x05] _ rfl⟩,
    ⟨_, rfl, h.2.2.1 [0, 5] _ rfl⟩, ⟨_, rfl, h.2.2.2 _ [0x02, 0x01, 0x05] _ rfl⟩⟩

/-! ## cryptobyte: reading back what the Builder wrote -/

theorem toNat_ofNat_lt (n : Nat) (h : n < 256) : (UInt8.ofNat n).toNat = n := by
  simp [UInt8.toNat, UInt8.ofNat, Nat.mod_eq_of_lt h]

theorem readAnyASN1_short (tag : UInt8) (contents rest : List UInt8)
    (htag : tag.toNat % 32 ≠ 31) (hlen : contents.length ≤ 0x7f) :
    readAnyASN1 (tag :: ([UInt8.ofNat contents.length] ++ contents) ++ rest)
      = some (tag, contents, rest) := by
  have h1 : (UInt8.ofNat contents.length).toNat = contents.length :=
    toNat_ofNat_lt _ (by omega)
  simp only [List.singleton_append, List.cons_append, readAnyASN1, htag, if_false, h1]
  have h2 : contents.length < 128 := by omega
  rw [if_pos h2]
  simp only [List.nil_append, List.length_cons, List.length_append]
  have h3 : ¬ (contents.length + rest.length + 1 + 1 < contents.length + 2) := by omega
  simp only [h3, if_false]
  have h4 : List.take (contents.length + 2) (tag :: UInt8.ofNat contents.length :: (contents ++ rest))
      = tag :: UInt8.ofNat contents.length :: contents := by
    simp [List.take_append_eq_append_take]
  have h5 : List.drop (contents.length + 2) (tag :: UInt8.ofNat contents.length :: (contents ++ rest))
      = rest := by
    simp [List.drop_append_eq_append_drop]
  rw [h4, h5]
  rfl


theorem readAnyASN1_long (tag lb : UInt8) (k : Nat) (contents rest : List UInt8)
    (htag : tag.toNat % 32 ≠ 31) (hlb : lb.toNat = 128 + k) (hk : 1 ≤ k ∧ k ≤ 4)
    (h128 : 128 ≤ contents.length) (hlo : 256 ^ (k - 1) ≤ contents.length)
    (hhi : contents.length < 256 ^ k) (h32 : contents.length + 6 < 2 ^ 32) :
    readAnyASN1 (tag :: (lb :: beBytes k contents.length ++ contents) ++ rest)
      = some (tag, contents, rest) := by
  have hbl : (beBytes k contents.length).length = k := beBytes_length _ _
  have hnlt : ¬ (128 + k < 128) := by omega
  have hmod : (128 + k) % 128 = k := by omega
  have hval : beValue (beBytes k contents.length) = contents.length := by
    rw [beValue_beBytes, Nat.mod_eq_of_lt hhi]
  have hpow : (2 : Nat) ^ ((k - 1) * 8) = 256 ^ (k - 1) := by
    rw [Nat.mul_comm, pow_mul]; norm_num
  have htake : List.take k (List.drop 2
      (tag :: lb :: (beBytes k contents.length ++ contents ++ rest))) =
      beBytes k contents.length := by
    simp only [List.drop_succ_cons, List.drop_zero, List.append_assoc]
    conv_lhs => rw [← hbl]
    rw [hbl]
    nth_rewrite 1 [← hbl]
    exact List.take_left _ _
  simp only [List.cons_append, readAnyASN1, htag, if_false, hlb, hnlt, hmod]
  rw [htake, hval, hpow]
  have hc1 : ¬ (k = 0 ∨ k > 4 ∨
      (tag :: lb :: (beBytes k contents.length ++ contents ++ rest)).length < 2 + k) := by
    simp only [List.length_cons, List.length_append, hbl]
    omega
  have hc2 : ¬ (contents.length < 128) := by omega
  have hc3 : ¬ (contents.length / 256 ^ (k - 1) = 0) := by
    have hpos : 0 < 256 ^ (k - 1) := by positivity
    intro h0
    rw [Nat.div_eq_zero_iff hpos] at h0
    omega
  have hc4 : ¬ ((2 + k + contents.length) % 2 ^ 32 < contents.length) := by
    rw [Nat.mod_eq_of_lt (by omega)]
    omega
  have hc5 : ¬ ((tag :: lb :: (beBytes k contents.length ++ contents ++ rest)).length
      < 2 + k + contents.length) := by
    simp only [List.length_cons, List.length_append, hbl]
    omega
  rw [if_neg hc1, if_neg hc2, if_neg hc3, if_neg hc4, if_neg hc5]
  have h4 : List.drop (2 + k) (List.take (2 + k + contents.length)
      (tag :: lb :: (beBytes k contents.length ++ contents ++ rest))) = contents := by
    have e1 : tag :: lb :: (beBytes k contents.length ++ contents ++ rest)
        = (tag :: lb :: beBytes k contents.length ++ contents) ++ rest := by simp
    have e2 : (tag :: lb :: beBytes k contents.length ++ contents).length
        = 2 + k + contents.length := by
      simp only [List.cons_append, List.length_cons, List.length_append, hbl]; omega
    rw [e1, ← e2, List.take_left]
    have e3 : (tag :: lb :: beBytes k contents.length).length = 2 + k := by
      simp only [List.length_cons, hbl]; omega
    rw [← e3]
    exact List.drop_left _ _
  have h5 : List.drop (2 + k + contents.length)
      (tag :: lb :: (beBytes k contents.length ++ contents ++ rest)) = rest := by
    have e1 : tag :: lb :: (beBytes k contents.length ++ contents ++ rest)
        = (tag :: lb :: beBytes k contents.length ++ contents) ++ rest := by simp
    have e2 : (tag :: lb :: beBytes k contents.length ++ contents).length
        = 2 + k + contents.length := by
      simp only [List.cons_append, List.length_cons, List.length_append, hbl]; omega
    rw [e1, ← e2, List.drop_left]
  rw [h4, h5]


theorem readAnyASN1_addASN1 (tag : UInt8) (contents rest der : List UInt8)
    (h : addASN1 tag contents = .ok der) (h32 : contents.length + 6 < 2 ^ 32) :
    readAnyASN1 (der ++ rest) = some (tag, contents, rest) := by
  unfold addASN1 at h
  by_cases htag : tag.toNat % 32 = 31
  · simp [htag] at h
  rw [if_neg htag] at h
  unfold derLength at h
  have hnot : ¬ contents.length > 0xfffffffe := by omega
  rw [if_neg hnot] at h
  by_cases c4 : contents.length > 0xffffff
  · rw [if_pos c4] at h
    cases h
    exact readAnyASN1_long tag 0x84 4 contents rest htag (by decide) (by omega) (by omega)
      (by norm_num; omega) (by norm_num; omega) h32
  rw [if_neg c4] at h
  by_cases c3 : contents.length > 0xffff
  · rw [if_pos c3] at h
    cases h
    exact readAnyASN1_long tag 0x83 3 contents rest htag (by decide) (by omega) (by omega)
      (by norm_num; omega) (by norm_num; omega) h32
  rw [if_neg c3] at h
  by_cases c2 : contents.length > 0xff
  · rw [if_pos c2] at h
    cases h
    exact readAnyASN1_long tag 0x82 2 contents rest htag (by decide) (by omega) (by omega)
      (by norm_num; omega) (by norm_num; omega) h32
  rw [if_neg c2] at h
  by_cases c1 : contents.length > 0x7f
  · rw [if_pos c1] at h
    cases h
    exact readAnyASN1_long tag 0x81 1 contents rest htag (by decide) (by omega) (by omega)
      (by norm_num; omega) (by norm_num; omega) h32
  rw [if_neg c1] at h
  cases h
  exact readAnyASN1_short tag contents rest htag (by omega)

theorem ReadASN1BitStringAsBytes_AddASN1BitString (data rest der : List UInt8)
    (h : AddASN1BitString data = .ok der) (h32 : data.length + 7 < 2 ^ 32) :
    ReadASN1BitStringAsBytes (der ++ rest) = some (data, rest) := by
  have hr := readAnyASN1_addASN1 0x03 (0 :: data) rest der h
    (by simp only [List.length_cons]; omega)
  simp [ReadASN1BitStringAsBytes, readASN1, hr]

theorem AddASN1BitString_ok (data : List UInt8) (h32 : data.length + 7 < 2 ^ 32) :
    ∃ der, AddASN1BitString data = .ok der ∧ der.head? = some 0x03 := by
  unfold AddASN1BitString addASN1
  have htag : ¬ ((0x03 : UInt8).toNat % 32 = 31) := by decide
  rw [if_neg htag]
  have hl : ∃ l, derLength (0 :: data).length = some l := by
    unfold derLength
    have hnot : ¬ (0 :: data).length > 0xfffffffe := by
      simp only [List.length_cons]; omega
    rw [if_neg hnot]
    split_ifs <;> exact ⟨_, rfl⟩
  obtain ⟨l, hl⟩ := hl
  rw [hl]
  exact ⟨_, rfl, rfl⟩


/-! ## Key round trips -/

theorem unmarshalG1_tag4 {B : Bn256} (C : PointCodec B) (raw rest : List UInt8) (P : B.G1)
    (h : C.G1Unmarshal raw = .ok (P, rest)) : unmarshalG1 C (4 :: raw) = some (.ok P) := by
  simp [unmarshalG1, h]

theorem unmarshalG1_tag23 {B : Bn256} (C : PointCodec B) (t : UInt8) (x rest : List UInt8)
    (P : B.G1) (ht : t = 2 ∨ t = 3) (h : C.G1UnmarshalCompressed (t :: x) = .ok (P, rest)) :
    unmarshalG1 C (t :: x) = some (.ok P) := by
  have h4 : ¬ t = 4 := by rcases ht with rfl | rfl <;> decide
  simp [unmarshalG1, h, h4, ht]

theorem unmarshalG2_tag4 {B : Bn256} (C : PointCodec B) (raw rest : List UInt8) (P : B.G2)
    (h : C.G2Unmarshal raw = .ok (P, rest)) : unmarshalG2 C (4 :: raw) = some (.ok P) := by
  simp [unmarshalG2, h]

theorem unmarshalG2_tag23 {B : Bn256} (C : PointCodec B) (t : UInt8) (x rest : List UInt8)
    (P : B.G2) (ht : t = 2 ∨ t = 3) (h : C.G2UnmarshalCompressed (t :: x) = .ok (P, rest)) :
    unmarshalG2 C (t :: x) = some (.ok P) := by
  have h4 : ¬ t = 4 := by rcases ht with rfl | rfl <;> decide
  simp [unmarshalG2, h, h4, ht]

theorem readPrivateKeyDER_bitString (data der : List UInt8) (errPriv errPub : String)
    (h : AddASN1BitString data = .ok der) (h32 : data.length + 7 < 2 ^ 32) :
    readPrivateKeyDER der errPriv errPub = some (.ok (data, [])) := by
  have hr := ReadASN1BitStringAsBytes_AddASN1BitString data [] der h h32
  rw [List.append_nil] at hr
  obtain ⟨der', hd, hhead⟩ := AddASN1BitString_ok data h32
  rw [h] at hd
  cases hd
  cases der with
  | nil => simp at hhead
  | cons d0 ds =>
    simp only [List.head?_cons, Option.some.injEq] at hhead
    subst hhead
    have hne : ¬ ((3 : UInt8) = 0x30) := by decide
    simp [readPrivateKeyDER, hne, hr]

theorem SignMasterPublicKey_roundTrip {B : Bn256} (C : PointCodec B) (data : List UInt8)
    (P : B.G2) (recv : SignMasterPublicKey B) (h32 : data.length + 7 < 2 ^ 32)
    (hu : unmarshalG2 C data = some (.ok P)) :
    ∃ der, AddASN1BitString data = .ok der ∧
      recv.UnmarshalASN1 C der = some ({ recv with MasterPublicKey := some P }, none) := by
  obtain ⟨der, hd, -⟩ := AddASN1BitString_ok data h32
  refine ⟨der, hd, ?_⟩
  have hr := ReadASN1BitStringAsBytes_AddASN1BitString data [] der hd h32
  rw [List.append_nil] at hr
  simp [SignMasterPublicKey.UnmarshalASN1, hr, SignMasterPublicKey.UnmarshalRaw, hu]

theorem EncryptMasterPublicKey_roundTrip {B : Bn256} (C : PointCodec B) (data : List UInt8)
    (P : B.G1) (recv : EncryptMasterPublicKey B) (h32 : data.length + 7 < 2 ^ 32)
    (hu : unmarshalG1 C data = some (.ok P)) :
    ∃ der, AddASN1BitString data = .ok der ∧
      recv.UnmarshalASN1 C der = some ({ recv with MasterPublicKey := some P }, none) := by
  obtain ⟨der, hd, -⟩ := AddASN1BitString_ok data h32
  refine ⟨der, hd, ?_⟩
  have hr := ReadASN1BitStringAsBytes_AddASN1BitString data [] der hd h32
  rw [List.append_nil] at hr
  simp [EncryptMasterPublicKey.UnmarshalASN1, hr, EncryptMasterPublicKey.UnmarshalRaw, hu]

theorem SignPrivateKey_roundTrip {B : Bn256} (C : PointCodec B) (data : List UInt8)
    (P : B.G1) (recv : SignPrivateKey B) (h32 : data.length + 7 < 2 ^ 32)
    (hu : unmarshalG1 C data = some (.ok P)) :
    ∃ der, AddASN1BitString data = .ok der ∧
      recv.UnmarshalASN1 C der = some ({ recv with PrivateKey := some P }, none) := by
  obtain ⟨der, hd, -⟩ := AddASN1BitString_ok data h32
  refine ⟨der, hd, ?_⟩
  simp [SignPrivateKey.UnmarshalASN1, readPrivateKeyDER_bitString data der _ _ hd h32,
    SignPrivateKey.UnmarshalRaw, hu]

theorem EncryptPrivateKey_roundTrip {B : Bn256} (C : PointCodec B) (data : List UInt8)
    (P : B.G2) (recv : EncryptPrivateKey B) (h32 : data.length + 7 < 2 ^ 32)
    (hu : unmarshalG2 C data = some (.ok P)) :
    ∃ der, AddASN1BitString data = .ok der ∧
      recv.UnmarshalASN1 C der = some ({ recv with PrivateKey := some P }, none) := by
  obtain ⟨der, hd, -⟩ := AddASN1BitString_ok data h32
  refine ⟨der, hd, ?_⟩
  simp [EncryptPrivateKey.UnmarshalASN1, readPrivateKeyDER_bitString data der _ _ hd h32,
    EncryptPrivateKey.UnmarshalRaw, hu]

/-- C11. For each of the four point-carrying key types and every key holding a point whose
encodings round-trip through the G1/G2 decoders, `UnmarshalASN1` (on any receiver) applied to
the output of `MarshalASN1`, and likewise of `MarshalCompressedASN1`, succeeds and stores the
same point. -/
theorem UnmarshalASN1_MarshalASN1 {B : Bn256} (C : PointCodec B) (P1 : B.G1) (P2 : B.G2)
    (h1 : C.G1RoundTrip P1) (h2 : C.G2RoundTrip P2)
    (smp smpRecv : SignMasterPublicKey B) (emp empRecv : EncryptMasterPublicKey B)
    (sp spRecv : SignPrivateKey B) (ep epRecv : EncryptPrivateKey B)
    (hsmp : smp.MasterPublicKey = some P2) (hemp : emp.MasterPublicKey = some P1)
    (hsp : sp.PrivateKey = some P1) (hep : ep.PrivateKey = some P2) :
    (∃ der, smp.MarshalASN1 C = some (.ok der) ∧
      smpRecv.UnmarshalASN1 C der = some ({ smpRecv with MasterPublicKey := some P2 }, none)) ∧
    (∃ der, smp.MarshalCompressedASN1 C = some (.ok der) ∧
      smpRecv.UnmarshalASN1 C der = some ({ smpRecv with MasterPublicKey := some P2 }, none)) ∧
    (∃ der, emp.MarshalASN1 C = some (.ok der) ∧
      empRecv.UnmarshalASN1 C der = some ({ empRecv with MasterPublicKey := some P1 }, none)) ∧
    (∃ der, emp.MarshalCompressedASN1 C = some (.ok der) ∧
      empRecv.UnmarshalASN1 C der = some ({ empRecv with MasterPublicKey := some P1 }, none)) ∧
    (∃ der, sp.MarshalASN1 C = some (.ok der) ∧
      spRecv.UnmarshalASN1 C der = some ({ spRecv with PrivateKey := some P1 }, none)) ∧
    (∃ der, sp.MarshalCompressedASN1 C = some (.ok der) ∧
      spRecv.UnmarshalASN1 C der = some ({ spRecv with PrivateKey := some P1 }, none)) ∧
    (∃ der, ep.MarshalASN1 C = some (.ok der) ∧
      epRecv.UnmarshalASN1 C der = some ({ epRecv with PrivateKey := some P2 }, none)) ∧
    (∃ der, ep.MarshalCompressedASN1 C = some (.ok der) ∧
      epRecv.UnmarshalASN1 C der = some ({ epRecv with PrivateKey := some P2 }, none)) := by
  obtain ⟨⟨raw1, rest1, hm1, hu1⟩, ⟨t1, x1, r1, hc1, ht1, huc1⟩, hl1, hlc1⟩ := h1
  obtain ⟨⟨raw2, rest2, hm2, hu2⟩, ⟨t2, x2, r2, hc2, ht2, huc2⟩, hl2, hlc2⟩ := h2
  have u1 : unmarshalG1 C (C.G1MarshalUncompressed P1) = some (.ok P1) := by
    rw [hm1]; exact unmarshalG1_tag4 C raw1 rest1 P1 hu1
  have c1 : unmarshalG1 C (C.G1MarshalCompressed P1) = some (.ok P1) := by
    rw [hc1]; exact unmarshalG1_tag23 C t1 x1 r1 P1 ht1 huc1
  have u2 : unmarshalG2 C (C.G2MarshalUncompressed P2) = some (.ok P2) := by
    rw [hm2]; exact unmarshalG2_tag4 C raw2 rest2 P2 hu2
  have c2 : unmarshalG2 C (C.G2MarshalCompressed P2) = some (.ok P2) := by
    rw [hc2]; exact unmarshalG2_tag23 C t2 x2 r2 P2 ht2 huc2
  refine ⟨?_, ?_, ?_, ?_, ?_, ?_, ?_, ?_⟩
  · simpa [SignMasterPublicKey.MarshalASN1, hsmp] using
      SignMasterPublicKey_roundTrip C _ P2 smpRecv hl2 u2
  · simpa [SignMasterPublicKey.MarshalCompressedASN1, hsmp] using
      SignMasterPublicKey_roundTrip C _ P2 smpRecv hlc2 c2
  · simpa [EncryptMasterPublicKey.MarshalASN1, hemp] using
      EncryptMasterPublicKey_roundTrip C _ P1 empRecv hl1 u1
  · simpa [EncryptMasterPublicKey.MarshalCompressedASN1, hemp] using
      EncryptMasterPublicKey_roundTrip C _ P1 empRecv hlc1 c1
  · simpa [SignPrivateKey.MarshalASN1, hsp] using
      SignPrivateKey_roundTrip C _ P1 spRecv hl1 u1
  · simpa [SignPrivateKey.MarshalCompressedASN1, hsp] using
      SignPrivateKey_roundTrip C _ P1 spRecv hlc1 c1
  · simpa [EncryptPrivateKey.MarshalASN1, hep] using
      EncryptPrivateKey_roundTrip C _ P2 epRecv hl2 u2
  · simpa [EncryptPrivateKey.MarshalCompressedASN1, hep] using
      EncryptPrivateKey_roundTrip C _ P2 epRecv hlc2 c2

/-! ## Key round trips: a concrete instance -/

theorem toyCodec_roundTrip_7 :
    (toyCodec 251).G1RoundTrip (7 : ZMod 251) ∧ (toyCodec 251).G2RoundTrip (7 : ZMod 251) :=
  ⟨⟨⟨beBytes 32 7, [], rfl, rfl⟩, ⟨2, beBytes 32 7, [], rfl, Or.inl rfl, rfl⟩,
      by decide, by decide⟩,
    ⟨⟨beBytes 32 7, [], rfl, rfl⟩, ⟨2, beBytes 32 7, [], rfl, Or.inl rfl, rfl⟩,
      by decide, by decide⟩⟩

/-- C11, in the groups of integers modulo 251, at the point 7, with receivers that hold no
point. -/
theorem UnmarshalASN1_MarshalASN1_witness :
    (∃ der, SignMasterPublicKey.MarshalASN1 (toyCodec 251)
        { SignMasterPublicKey.new (toyBn256 251) with MasterPublicKey := some (7 : ZMod 251) }
          = some (.ok der) ∧
      SignMasterPublicKey.UnmarshalASN1 (toyCodec 251) (SignMasterPublicKey.new (toyBn256 251)) der
        = some ({ SignMasterPublicKey.new (toyBn256 251) with
                  MasterPublicKey := some (7 : ZMod 251) }, none)) ∧
    (∃ der, SignMasterPublicKey.MarshalCompressedASN1 (toyCodec 251)
        { SignMasterPublicKey.new (toyBn256 251) with MasterPublicKey := some (7 : ZMod 251) }
          = some (.ok der) ∧
      SignMasterPublicKey.UnmarshalASN1 (toyCodec 251) (SignMasterPublicKey.new (toyBn256 251)) der
        = some ({ SignMasterPublicKey.new (toyBn256 251) with
                  MasterPublicKey := some (7 : ZMod 251) }, none)) ∧
    (∃ der, EncryptMasterPublicKey.MarshalASN1 (toyCodec 251)
        { EncryptMasterPublicKey.new (toyBn256 251) with MasterPublicKey := some (7 : ZMod 251) }
          = some (.ok der) ∧
      EncryptMasterPublicKey.UnmarshalASN1 (toyCodec 251)
          (EncryptMasterPublicKey.new (toyBn256 251)) der
        = some ({ EncryptMasterPublicKey.new (toyBn256 251) with
                  MasterPublicKey := some (7 : ZMod 251) }, none)) ∧
    (∃ der, EncryptMasterPublicKey.MarshalCompressedASN1 (toyCodec 251)
        { EncryptMasterPublicKey.new (toyBn256 251) with MasterPublicKey := some (7 : ZMod 251) }
          = some (.ok der) ∧
      EncryptMasterPublicKey.UnmarshalASN1 (toyCodec 251)
          (EncryptMasterPublicKey.new (toyBn256 251)) der
        = some ({ EncryptMasterPublicKey.new (toyBn256 251) with
                  MasterPublicKey := some (7 : ZMod 251) }, none)) ∧
    (∃ der, SignPrivateKey.MarshalASN1 (toyCodec 251)
        { PrivateKey := some (7 : ZMod 251)
          SignMasterPublicKey := SignMasterPublicKey.new (toyBn256 251) } = some (.ok der) ∧
      SignPrivateKey.UnmarshalASN1 (toyCodec 251)
          { PrivateKey := none, SignMasterPublicKey := SignMasterPublicKey.new (toyBn256 251) } der
        = some ({ PrivateKey := some (7 : ZMod 251)
                  SignMasterPublicKey := SignMasterPublicKey.new (toyBn256 251) }, none)) ∧
    (∃ der, SignPrivateKey.MarshalCompressedASN1 (toyCodec 251)
        { PrivateKey := some (7 : ZMod 251)
          SignMasterPublicKey := SignMasterPublicKey.new (toyBn256 251) } = some (.ok der) ∧
      SignPrivateKey.UnmarshalASN1 (toyCodec 251)
          { PrivateKey := none, SignMasterPublicKey := SignMasterPublicKey.new (toyBn256 251) } der
        = some ({ PrivateKey := some (7 : ZMod 251)
                  SignMasterPublicKey := SignMasterPublicKey.new (toyBn256 251) }, none)) ∧
    (∃ der, EncryptPrivateKey.MarshalASN1 (toyCodec 251)
        { PrivateKey := some (7 : ZMod 251)
          EncryptMasterPublicKey := EncryptMasterPublicKey.new (toyBn256 251) }
          = some (.ok der) ∧
      EncryptPrivateKey.UnmarshalASN1 (toyCodec 251)
          { PrivateKey := none
            EncryptMasterPublicKey := EncryptMasterPublicKey.new (toyBn256 251) } der
        = some ({ PrivateKey := some (7 : ZMod 251)
                  EncryptMasterPublicKey := EncryptMasterPublicKey.new (toyBn256 251) }, none)) ∧
    (∃ der, EncryptPrivateKey.MarshalCompressedASN1 (toyCodec 251)
        { PrivateKey := some (7 : ZMod 251)
          EncryptMasterPublicKey := EncryptMasterPublicKey.new (toyBn256 251) }
          = some (.ok der) ∧
      EncryptPrivateKey.UnmarshalASN1 (toyCodec 251)
          { PrivateKey := none
            EncryptMasterPublicKey := EncryptMasterPublicKey.new (toyBn256 251) } der
        = some ({ PrivateKey := some (7 : ZMod 251)
                  EncryptMasterPublicKey := EncryptMasterPublicKey.new (toyBn256 251) }, none)) :=
  UnmarshalASN1_MarshalASN1 (toyCodec 251) (7 : ZMod 251) (7 : ZMod 251)
    toyCodec_roundTrip_7.1 toyCodec_roundTrip_7.2
    { SignMasterPublicKey.new (toyBn256 251) with MasterPublicKey := some (7 : ZMod 251) }
    (SignMasterPublicKey.new (toyBn256 251))
    { EncryptMasterPublicKey.new (toyBn256 251) with MasterPublicKey := some (7 : ZMod 251) }
    (EncryptMasterPublicKey.new (toyBn256 251))
    { PrivateKey := some (7 : ZMod 251)
      SignMasterPublicKey := SignMasterPublicKey.new (toyBn256 251) }
    { PrivateKey := none, SignMasterPublicKey := SignMasterPublicKey.new (toyBn256 251) }
    { PrivateKey := some (7 : ZMod 251)
      EncryptMasterPublicKey := EncryptMasterPublicKey.new (toyBn256 251) }
    { PrivateKey := none, EncryptMasterPublicKey := EncryptMasterPublicKey.new (toyBn256 251) }
    rfl rfl rfl rfl

/-! ## User private keys in the sequence form -/

theorem readPrivateKeyDER_sequence (der inner privBytes rest1 pubBytes : List UInt8)
    (errPriv errPub : String)
    (hseq : readASN1 der 0x30 = some (inner, []))
    (hpriv : ReadASN1BitStringAsBytes inner = some (privBytes, rest1))
    (hrest : rest1 ≠ [])
    (hpub : ReadASN1BitStringAsBytes rest1 = some (pubBytes, [])) :
    readPrivateKeyDER der errPriv errPub = some (.ok (privBytes, pubBytes)) := by
  cases der with
  | nil => simp [readASN1, readAnyASN1] at hseq
  | cons d0 ds =>
    have hd0 : d0 = 0x30 := by
      unfold readASN1 at hseq
      cases hr : readAnyASN1 (d0 :: ds) with
      | none => simp [hr] at hseq
      | some r =>
        obtain ⟨t, out, rest⟩ := r
        have ht : t = d0 := by
          unfold readAnyASN1 at hr
          cases ds with
          | nil => simp at hr
          | cons d1 ds' =>
            simp only at hr
            split_ifs at hr <;> simp_all
        simp only [hr] at hseq
        by_cases hne : t ≠ 0x30
        · simp [hne] at hseq
        · rw [← ht]; exact not_not.1 hne
    subst hd0
    have hne1 : rest1.isEmpty = false := by
      cases rest1 with
      | nil => exact absurd rfl hrest
      | cons _ _ => rfl
    simp [readPrivateKeyDER, hseq, hpriv, hpub, hne1]

theorem readPrivateKeyDER_of_isKeySequence (der privBytes pubBytes : List UInt8)
    (errPriv errPub : String) (h : IsKeySequence der privBytes pubBytes) :
    readPrivateKeyDER der errPriv errPub = some (.ok (privBytes, pubBytes)) := by
  obtain ⟨inner, rest1, hseq, hpriv, hrest, hpub⟩ := h
  exact readPrivateKeyDER_sequence der inner privBytes rest1 pubBytes _ _ hseq hpriv hrest hpub

/-- C12 (amended). For every DER input of the form SEQUENCE { BIT STRING priv, BIT STRING
masterPub } whose payloads decode to points `P` and `Q`, `UnmarshalASN1` of a user private key
succeeds on every receiver and leaves `PrivateKey = P`; the receiver's master public key is `Q`
when the receiver had none before the call, and otherwise the embedded master public key is the
one the receiver already had. -/
theorem UnmarshalASN1_sequence {B : Bn256} (C : PointCodec B)
    (derS privS pubS derE privE pubE : List UInt8) (P1 Q1 : B.G1) (P2 Q2 : B.G2)
    (sp : SignPrivateKey B) (ep : EncryptPrivateKey B)
    (hS : IsKeySequence derS privS pubS)
    (hP1 : unmarshalG1 C privS = some (.ok P1)) (hQ2 : unmarshalG2 C pubS = some (.ok Q2))
    (hE : IsKeySequence derE privE pubE)
    (hP2 : unmarshalG2 C privE = some (.ok P2)) (hQ1 : unmarshalG1 C pubE = some (.ok Q1)) :
    (∃ sp', sp.UnmarshalASN1 C derS = some (sp', none) ∧ sp'.PrivateKey = some P1 ∧
      (sp.SignMasterPublicKey.MasterPublicKey = none →
        sp'.SignMasterPublicKey.MasterPublicKey = some Q2) ∧
      (sp.SignMasterPublicKey.MasterPublicKey ≠ none →
        sp'.SignMasterPublicKey = sp.SignMasterPublicKey)) ∧
    (∃ ep', ep.UnmarshalASN1 C derE = some (ep', none) ∧ ep'.PrivateKey = some P2 ∧
      (ep.EncryptMasterPublicKey.MasterPublicKey = none →
        ep'.EncryptMasterPublicKey.MasterPublicKey = some Q1) ∧
      (ep.EncryptMasterPublicKey.MasterPublicKey ≠ none →
        ep'.EncryptMasterPublicKey = ep.EncryptMasterPublicKey)) := by
  have hlenS : pubS.length > 0 := by
    cases pubS with
    | nil => simp [unmarshalG2] at hQ2
    | cons _ _ => simp
  have hlenE : pubE.length > 0 := by
    cases pubE with
    | nil => simp [unmarshalG1] at hQ1
    | cons _ _ => simp
  constructor
  · refine ⟨({ sp with PrivateKey := some P1 } : SignPrivateKey B).SetMasterPublicKey
      { SignMasterPublicKey.new B with MasterPublicKey := some Q2 }, ?_, ?_, ?_, ?_⟩
    · simp [SignPrivateKey.UnmarshalASN1, readPrivateKeyDER_of_isKeySequence derS privS pubS _ _ hS,
        SignPrivateKey.UnmarshalRaw, hP1, hlenS, SignMasterPublicKey.UnmarshalRaw, hQ2]
    · unfold SignPrivateKey.SetMasterPublicKey
      split_ifs <;> rfl
    · intro hnone
      simp [SignPrivateKey.SetMasterPublicKey, hnone]
    · intro hsome
      have : sp.SignMasterPublicKey.MasterPublicKey.isNone = false := by
        cases h : sp.SignMasterPublicKey.MasterPublicKey with
        | none => exact absurd h hsome
        | some _ => rfl
      simp [SignPrivateKey.SetMasterPublicKey, this]
  · refine ⟨({ ep with PrivateKey := some P2 } : EncryptPrivateKey B).SetMasterPublicKey
      { EncryptMasterPublicKey.new B with MasterPublicKey := some Q1 }, ?_, ?_, ?_, ?_⟩
    · simp [EncryptPrivateKey.UnmarshalASN1,
        readPrivateKeyDER_of_isKeySequence derE privE pubE _ _ hE,
        EncryptPrivateKey.UnmarshalRaw, hP2, hlenE, EncryptMasterPublicKey.UnmarshalRaw, hQ1]
    · unfold EncryptPrivateKey.SetMasterPublicKey
      split_ifs <;> rfl
    · intro hnone
      simp [EncryptPrivateKey.SetMasterPublicKey, hnone]
    · intro hsome
      have : ep.EncryptMasterPublicKey.MasterPublicKey.isNone = false := by
        cases h : ep.EncryptMasterPublicKey.MasterPublicKey with
        | none => exact absurd h hsome
        | some _ => rfl
      simp [EncryptPrivateKey.SetMasterPublicKey, this]

/-- The sequence of the BIT STRINGs for the values 7 and 9 has the sequence form. -/
theorem toySequence_isKeySequence :
    IsKeySequence (toySequence (toyPointBits 4 7) (toyPointBits 4 9))
      (4 :: beBytes 32 7) (4 :: beBytes 32 9) :=
  ⟨toyPointBits 4 7 ++ toyPointBits 4 9, toyPointBits 4 9, rfl, rfl, by decide, rfl⟩

/-- C12 (amended), in the groups of integers modulo 251: a receiver without a master public
key, and (on the encrypt side) a receiver that holds the master public key 3. -/
theorem UnmarshalASN1_sequence_witness :
    (∃ sp', SignPrivateKey.UnmarshalASN1 (toyCodec 251)
        { PrivateKey := none, SignMasterPublicKey := SignMasterPublicKey.new (toyBn256 251) }
        (toySequence (toyPointBits 4 7) (toyPointBits 4 9)) = some (sp', none) ∧
      sp'.PrivateKey = some (7 : ZMod 251) ∧
      ((SignMasterPublicKey.new (toyBn256 251)).MasterPublicKey = none →
        sp'.SignMasterPublicKey.MasterPublicKey = some (9 : ZMod 251)) ∧
      ((SignMasterPublicKey.new (toyBn256 251)).MasterPublicKey ≠ none →
        sp'.SignMasterPublicKey = SignMasterPublicKey.new (toyBn256 251))) ∧
    (∃ ep', EncryptPrivateKey.UnmarshalASN1 (toyCodec 251)
        { PrivateKey := none
          EncryptMasterPublicKey :=
            { EncryptMasterPublicKey.new (toyBn256 251) with
              MasterPublicKey := some (3 : ZMod 251) } }
        (toySequence (toyPointBits 4 7) (toyPointBits 4 9)) = some (ep', none) ∧
      ep'.PrivateKey = some (7 : ZMod 251) ∧
      (some (3 : ZMod 251) = none →
        ep'.EncryptMasterPublicKey.MasterPublicKey = some (9 : ZMod 251)) ∧
      (some (3 : ZMod 251) ≠ none →
        ep'.EncryptMasterPublicKey =
          { EncryptMasterPublicKey.new (toyBn256 251) with
            MasterPublicKey := some (3 : ZMod 251) })) :=
  UnmarshalASN1_sequence (toyCodec 251) _ _ _ _ _ _ (7 : ZMod 251) (9 : ZMod 251)
    (7 : ZMod 251) (9 : ZMod 251) _ _ toySequence_isKeySequence rfl rfl
    toySequence_isKeySequence rfl rfl

/-- C12 (counterexample). The receiver already holds the master public key 3; the DER input is
the SEQUENCE of the BIT STRINGs for the private key 7 and the master public key 9.
`SignPrivateKey.UnmarshalASN1` succeeds, and the receiver's master public key is still 3, not
the point 9 decoded from `masterPub`. -/
theorem UnmarshalASN1_sequence_keeps_bound_master_key :
    ∃ sp', SignPrivateKey.UnmarshalASN1 (toyCodec 251)
        { PrivateKey := none
          SignMasterPublicKey :=
            { SignMasterPublicKey.new (toyBn256 251) with
              MasterPublicKey := some (3 : ZMod 251) } }
        (toySequence (toyPointBits 4 7) (toyPointBits 4 9)) = some (sp', none) ∧
      unmarshalG2 (toyCodec 251) (4 :: beBytes 32 9) = some (.ok (9 : ZMod 251)) ∧
      sp'.SignMasterPublicKey.MasterPublicKey = some (3 : ZMod 251) ∧
      sp'.SignMasterPublicKey.MasterPublicKey ≠ some (9 : ZMod 251) :=
  ⟨{ PrivateKey := some (7 : ZMod 251)
     SignMasterPublicKey :=
       { SignMasterPublicKey.new (toyBn256 251) with MasterPublicKey := some (3 : ZMod 251) } },
    rfl, rfl, rfl, by
      show some (3 : ZMod 251) ≠ some (9 : ZMod 251)
      decide⟩

/-! ## Trailing bytes -/

theorem readAnyASN1_head (s : List UInt8) (t : UInt8) (c r : List UInt8)
    (h : readAnyASN1 s = some (t, c, r)) : ∃ tl, s = t :: tl := by
  unfold readAnyASN1 at h
  cases s with
  | nil => simp at h
  | cons d0 ds =>
    cases ds with
    | nil => simp at h
    | cons d1 ds' =>
      simp only at h
      refine ⟨d1 :: ds', ?_⟩
      split_ifs at h <;> simp_all

theorem readASN1_some (s : List UInt8) (tag : UInt8) (c r : List UInt8)
    (h : readASN1 s tag = some (c, r)) : readAnyASN1 s = some (tag, c, r) := by
  unfold readASN1 at h
  cases hr : readAnyASN1 s with
  | none => simp [hr] at h
  | some x =>
    obtain ⟨t, out, rest⟩ := x
    simp only [hr] at h
    by_cases hne : t ≠ tag
    · simp [hne] at h
    · have ht : t = tag := not_not.1 hne
      subst ht
      simp at h
      obtain ⟨rfl, rfl⟩ := h
      rfl

theorem ReadASN1Integer_some (s : List UInt8) (d : Int) (r : List UInt8)
    (h : ReadASN1Integer s = some (d, r)) : ∃ c, readAnyASN1 s = some (0x02, c, r) := by
  unfold ReadASN1Integer at h
  cases hr : readASN1 s 0x02 with
  | none => simp [hr] at h
  | some x =>
    obtain ⟨bytes, rest⟩ := x
    refine ⟨bytes, ?_⟩
    have h2 := readASN1_some s 0x02 bytes rest hr
    simp only [hr] at h
    split_ifs at h
    cases bytes with
    | nil => simp at h
    | cons b0 bs =>
      simp only at h
      split_ifs at h <;> simp at h <;> rw [h2, h.2]

theorem ReadASN1BitStringAsBytes_some (s b r : List UInt8)
    (h : ReadASN1BitStringAsBytes s = some (b, r)) :
    ∃ c, readAnyASN1 s = some (0x03, c, r) := by
  unfold ReadASN1BitStringAsBytes at h
  cases hr : readASN1 s 0x03 with
  | none => simp [hr] at h
  | some x =>
    obtain ⟨bytes, rest⟩ := x
    refine ⟨bytes, ?_⟩
    have h2 := readASN1_some s 0x03 bytes rest hr
    simp only [hr] at h
    cases bytes with
    | nil => simp at h
    | cons b0 bs =>
      simp only at h
      split_ifs at h
      simp at h
      rw [h2, h.2]

theorem isEmpty_false_of_ne_nil (l : List UInt8) (h : l ≠ []) : l.isEmpty = false := by
  cases l with
  | nil => exact absurd rfl h
  | cons _ _ => rfl

theorem bitString_trailing (der c rest : List UInt8) (tag : UInt8)
    (h : readAnyASN1 der = some (tag, c, rest)) :
    ReadASN1BitStringAsBytes der = none ∨
      ∃ b, ReadASN1BitStringAsBytes der = some (b, rest) := by
  cases hr : ReadASN1BitStringAsBytes der with
  | none => exact Or.inl rfl
  | some x =>
    obtain ⟨b, input⟩ := x
    obtain ⟨c', hc'⟩ := ReadASN1BitStringAsBytes_some der b input hr
    rw [h] at hc'
    simp only [Option.some.injEq, Prod.mk.injEq] at hc'
    obtain ⟨-, -, rfl⟩ := hc'
    exact Or.inr ⟨b, rfl⟩

theorem readPrivateKeyDER_trailing (der c rest : List UInt8) (tag : UInt8)
    (errPriv errPub : String)
    (h : readAnyASN1 der = some (tag, c, rest)) (hrest : rest ≠ []) :
    readPrivateKeyDER der errPriv errPub = some (.error errPriv) := by
  have hne := isEmpty_false_of_ne_nil _ hrest
  obtain ⟨tl, rfl⟩ := readAnyASN1_head der tag c rest h
  unfold readPrivateKeyDER
  simp only
  by_cases h30 : tag = 0x30
  · rw [if_pos h30]
    cases hr : readASN1 (tag :: tl) 0x30 with
    | none => rfl
    | some x =>
      obtain ⟨inner, input⟩ := x
      have h2 := readASN1_some _ _ _ _ hr
      rw [h] at h2
      simp only [Option.some.injEq, Prod.mk.injEq] at h2
      obtain ⟨-, -, rfl⟩ := h2
      simp [hne]
  · rw [if_neg h30]
    rcases bitString_trailing _ _ _ _ h with hb | ⟨b, hb⟩
    · simp [hb]
    · simp [hb, hne]

theorem readPrivateKeyDER_inner_trailing (der inner b1 rest1 : List UInt8)
    (errPriv errPub : String)
    (hseq : readASN1 der 0x30 = some (inner, []))
    (hpriv : ReadASN1BitStringAsBytes inner = some (b1, rest1))
    (hrest : rest1 ≠ [])
    (hpub : ∀ b2, ReadASN1BitStringAsBytes rest1 ≠ some (b2, [])) :
    readPrivateKeyDER der errPriv errPub = some (.error errPub) := by
  have hne := isEmpty_false_of_ne_nil _ hrest
  obtain ⟨tl, rfl⟩ := readAnyASN1_head der 0x30 inner [] (readASN1_some _ _ _ _ hseq)
  unfold readPrivateKeyDER
  simp only [if_true, hseq, hpriv, List.isEmpty_nil, Bool.not_true, Bool.false_eq_true,
    if_false, hne, Bool.not_false]
  cases hr : ReadASN1BitStringAsBytes rest1 with
  | none => rfl
  | some x =>
    obtain ⟨b2, r2⟩ := x
    cases r2 with
    | nil => exact absurd hr (hpub b2)
    | cons _ _ => rfl

/-- C13. For every DER input in which bytes remain after the first top-level ASN.1 element,
`UnmarshalASN1` of each of the six key types returns an error (and leaves a public-key or
user-key receiver as it was); and a user private key whose SEQUENCE holds bytes after its first
BIT STRING that are not exactly one more BIT STRING is rejected as well. -/
theorem UnmarshalASN1_trailing_bytes {B : Bn256} (C : PointCodec B)
    (der c rest : List UInt8) (tag : UInt8)
    (der2 inner b1 rest1 : List UInt8)
    (smk : SignMasterPrivateKey B) (emk : EncryptMasterPrivateKey B)
    (smp : SignMasterPublicKey B) (emp : EncryptMasterPublicKey B)
    (sp : SignPrivateKey B) (ep : EncryptPrivateKey B)
    (h : readAnyASN1 der = some (tag, c, rest)) (hrest : rest ≠ [])
    (hseq : readASN1 der2 0x30 = some (inner, []))
    (hpriv : ReadASN1BitStringAsBytes inner = some (b1, rest1))
    (hrest1 : rest1 ≠ [])
    (hpub : ∀ b2, ReadASN1BitStringAsBytes rest1 ≠ some (b2, [])) :
    smk.UnmarshalASN1 der = .error "sm9: invalid sign master key asn1 data" ∧
    emk.UnmarshalASN1 der = .error "sm9: invalid encrpt master key asn1 data" ∧
    smp.UnmarshalASN1 C der
      = some (smp, some "sm9: invalid sign master public key asn1 data") ∧
    emp.UnmarshalASN1 C der
      = some (emp, some "sm9: invalid encrypt master public key asn1 data") ∧
    sp.UnmarshalASN1 C der = some (sp, some "sm9: invalid sign user private key asn1 data") ∧
    ep.UnmarshalASN1 C der
      = some (ep, some "sm9: invalid encrypt user private key asn1 data") ∧
    sp.UnmarshalASN1 C der2
      = some (sp, some "sm9: invalid sign master public key asn1 data") ∧
    ep.UnmarshalASN1 C der2
      = some (ep, some "sm9: invalid encrypt master public key asn1 data") := by
  have hne := isEmpty_false_of_ne_nil _ hrest
  refine ⟨?_, ?_, ?_, ?_, ?_, ?_, ?_, ?_⟩
  · cases hr : ReadASN1Integer der with
    | none => simp [SignMasterPrivateKey.UnmarshalASN1, hr]
    | some x =>
      obtain ⟨d, input⟩ := x
      obtain ⟨c', hc'⟩ := ReadASN1Integer_some der d input hr
      rw [h] at hc'
      simp only [Option.some.injEq, Prod.mk.injEq] at hc'
      obtain ⟨-, -, rfl⟩ := hc'
      simp [SignMasterPrivateKey.UnmarshalASN1, hr, hne]
  · cases hr : ReadASN1Integer der with
    | none => simp [EncryptMasterPrivateKey.UnmarshalASN1, hr]
    | some x =>
      obtain ⟨d, input⟩ := x
      obtain ⟨c', hc'⟩ := ReadASN1Integer_some der d input hr
      rw [h] at hc'
      simp only [Option.some.injEq, Prod.mk.injEq] at hc'
      obtain ⟨-, -, rfl⟩ := hc'
      simp [EncryptMasterPrivateKey.UnmarshalASN1, hr, hne]
  · rcases bitString_trailing _ _ _ _ h with hb | ⟨b, hb⟩
    · simp [SignMasterPublicKey.UnmarshalASN1, hb]
    · simp [SignMasterPublicKey.UnmarshalASN1, hb, hne]
  · rcases bitString_trailing _ _ _ _ h with hb | ⟨b, hb⟩
    · simp [EncryptMasterPublicKey.UnmarshalASN1, hb]
    · simp [EncryptMasterPublicKey.UnmarshalASN1, hb, hne]
  · simp [SignPrivateKey.UnmarshalASN1, readPrivateKeyDER_trailing der c rest tag _ _ h hrest]
  · simp [EncryptPrivateKey.UnmarshalASN1, readPrivateKeyDER_trailing der c rest tag _ _ h hrest]
  · simp [SignPrivateKey.UnmarshalASN1,
      readPrivateKeyDER_inner_trailing der2 inner b1 rest1 _ _ hseq hpriv hrest1 hpub]
  · simp [EncryptPrivateKey.UnmarshalASN1,
      readPrivateKeyDER_inner_trailing der2 inner b1 rest1 _ _ hseq hpriv hrest1 hpub]

/-- C13, in the groups of integers modulo 251: the INTEGER 5 followed by one more byte, and a
SEQUENCE that holds two empty BIT STRINGs followed by one more byte. -/
theorem UnmarshalASN1_trailing_bytes_witness :
    SignMasterPrivateKey.UnmarshalASN1
        ({ SignMasterPublicKey := SignMasterPublicKey.new (toyBn256 251), D := 1 } :
          SignMasterPrivateKey (toyBn256 251)) [0x02, 0x01, 0x05, 0x00]
      = .error "sm9: invalid sign master key asn1 data" ∧
    EncryptMasterPrivateKey.UnmarshalASN1
        ({ EncryptMasterPublicKey := EncryptMasterPublicKey.new (toyBn256 251), D := 1 } :
          EncryptMasterPrivateKey (toyBn256 251)) [0x02, 0x01, 0x05, 0x00]
      = .error "sm9: invalid encrpt master key asn1 data" ∧
    SignMasterPublicKey.UnmarshalASN1 (toyCodec 251) (SignMasterPublicKey.new (toyBn256 251))
        [0x02, 0x01, 0x05, 0x00]
      = some (SignMasterPublicKey.new (toyBn256 251),
          some "sm9: invalid sign master public key asn1 data") ∧
    EncryptMasterPublicKey.UnmarshalASN1 (toyCodec 251)
        (EncryptMasterPublicKey.new (toyBn256 251)) [0x02, 0x01, 0x05, 0x00]
      = some (EncryptMasterPublicKey.new (toyBn256 251),
          some "sm9: invalid encrypt master public key asn1 data") ∧
    SignPrivateKey.UnmarshalASN1 (toyCodec 251)
        { PrivateKey := none, SignMasterPublicKey := SignMasterPublicKey.new (toyBn256 251) }
        [0x02, 0x01, 0x05, 0x00]
      = some ({ PrivateKey := none
                SignMasterPublicKey := SignMasterPublicKey.new (toyBn256 251) },
          some "sm9: invalid sign user private key asn1 data") ∧
    EncryptPrivateKey.UnmarshalASN1 (toyCodec 251)
        { PrivateKey := none
          EncryptMasterPublicKey := EncryptMasterPublicKey.new (toyBn256 251) }
        [0x02, 0x01, 0x05, 0x00]
      = some ({ PrivateKey := none
                EncryptMasterPublicKey := EncryptMasterPublicKey.new (toyBn256 251) },
          some "sm9: invalid encrypt user private key asn1 data") ∧
    SignPrivateKey.UnmarshalASN1 (toyCodec 251)
        { PrivateKey := none, SignMasterPublicKey := SignMasterPublicKey.new (toyBn256 251) }
        [0x30, 0x07, 0x03, 0x01, 0x00, 0x03, 0x01, 0x00, 0x00]
      = some ({ PrivateKey := none
                SignMasterPublicKey := SignMasterPublicKey.new (toyBn256 251) },
          some "sm9: invalid sign master public key asn1 data") ∧
    EncryptPrivateKey.UnmarshalASN1 (toyCodec 251)
        { PrivateKey := none
          EncryptMasterPublicKey := EncryptMasterPublicKey.new (toyBn256 251) }
        [0x30, 0x07, 0x03, 0x01, 0x00, 0x03, 0x01, 0x00, 0x00]
      = some ({ PrivateKey := none
                EncryptMasterPublicKey := EncryptMasterPublicKey.new (toyBn256 251) },
          some "sm9: invalid encrypt master public key asn1 data") :=
  UnmarshalASN1_trailing_bytes (toyCodec 251) [0x02, 0x01, 0x05, 0x00] [0x05] [0x00] 0x02
    [0x30, 0x07, 0x03, 0x01, 0x00, 0x03, 0x01, 0x00, 0x00]
    [0x03, 0x01, 0x00, 0x03, 0x01, 0x00, 0x00] [] [0x03, 0x01, 0x00, 0x00] _ _ _ _ _ _
    rfl (by decide) rfl rfl (by decide)
    (by
      intro b2 h
      have h' : ReadASN1BitStringAsBytes [0x03, 0x01, 0x00, 0x00] = some ([], [0x00]) := rfl
      rw [h'] at h
      simp at h)

/-! ## The point identity byte -/

/-- C14. For every non-empty byte string whose first byte is not `0x02`, `0x03` or `0x04`,
`unmarshalG1`, `unmarshalG2` and `UnmarshalRaw` of each key type return the error "invalid point
identity byte" (and `UnmarshalRaw` leaves its receiver as it was). When the first byte is `0x04`
the result is that of the uncompressed decoder on the bytes after it, and when it is `0x02` or
`0x03` that of the compressed decoder on the whole input. -/
theorem unmarshal_identity_byte {B : Bn256} (C : PointCodec B) (b0 : UInt8) (tl : List UInt8)
    (smp : SignMasterPublicKey B) (emp : EncryptMasterPublicKey B)
    (sp : SignPrivateKey B) (ep : EncryptPrivateKey B) :
    ((b0 ≠ 2 ∧ b0 ≠ 3 ∧ b0 ≠ 4) →
      unmarshalG1 C (b0 :: tl) = some (.error "sm9: invalid point identity byte") ∧
      unmarshalG2 C (b0 :: tl) = some (.error "sm9: invalid point identity byte") ∧
      smp.UnmarshalRaw C (b0 :: tl) = some (smp, some "sm9: invalid point identity byte") ∧
      emp.UnmarshalRaw C (b0 :: tl) = some (emp, some "sm9: invalid point identity byte") ∧
      sp.UnmarshalRaw C (b0 :: tl) = some (sp, some "sm9: invalid point identity byte") ∧
      ep.UnmarshalRaw C (b0 :: tl) = some (ep, some "sm9: invalid point identity byte")) ∧
    unmarshalG1 C (4 :: tl) = some ((C.G1Unmarshal tl).map Prod.fst) ∧
    unmarshalG2 C (4 :: tl) = some ((C.G2Unmarshal tl).map Prod.fst) ∧
    ((b0 = 2 ∨ b0 = 3) →
      unmarshalG1 C (b0 :: tl) = some ((C.G1UnmarshalCompressed (b0 :: tl)).map Prod.fst) ∧
      unmarshalG2 C (b0 :: tl) = some ((C.G2UnmarshalCompressed (b0 :: tl)).map Prod.fst)) := by
  refine ⟨?_, ?_, ?_, ?_⟩
  · rintro ⟨h2, h3, h4⟩
    have e1 : unmarshalG1 C (b0 :: tl) = some (.error "sm9: invalid point identity byte") := by
      simp [unmarshalG1, h2, h3, h4]
    have e2 : unmarshalG2 C (b0 :: tl) = some (.error "sm9: invalid point identity byte") := by
      simp [unmarshalG2, h2, h3, h4]
    refine ⟨e1, e2, ?_, ?_, ?_, ?_⟩
    · simp [SignMasterPublicKey.UnmarshalRaw, e2]
    · simp [EncryptMasterPublicKey.UnmarshalRaw, e1]
    · simp [SignPrivateKey.UnmarshalRaw, e1]
    · simp [EncryptPrivateKey.UnmarshalRaw, e2]
  · simp only [unmarshalG1, if_true, List.drop_succ_cons, List.drop_zero]
    cases C.G1Unmarshal tl <;> rfl
  · simp only [unmarshalG2, if_true, List.drop_succ_cons, List.drop_zero]
    cases C.G2Unmarshal tl <;> rfl
  · intro h23
    have h4 : ¬ b0 = 4 := by rcases h23 with rfl | rfl <;> decide
    constructor
    · simp only [unmarshalG1, h4, if_false, h23, if_true]
      cases C.G1UnmarshalCompressed (b0 :: tl) <;> rfl
    · simp only [unmarshalG2, h4, if_false, h23, if_true]
      cases C.G2UnmarshalCompressed (b0 :: tl) <;> rfl

/-! ## Errors and the receiver: user private keys -/

theorem SignPrivateKey_UnmarshalRaw_cases {B : Bn256} (C : PointCodec B)
    (priv : SignPrivateKey B) (bytes : List UInt8) (r : SignPrivateKey B × Option String)
    (h : priv.UnmarshalRaw C bytes = some r) :
    (∃ e, unmarshalG1 C bytes = some (.error e) ∧ r = (priv, some e)) ∨
    (∃ g, unmarshalG1 C bytes = some (.ok g) ∧ r = ({ priv with PrivateKey := some g }, none)) := by
  unfold SignPrivateKey.UnmarshalRaw at h
  cases hu : unmarshalG1 C bytes with
  | none => simp [hu] at h
  | some x =>
    cases x with
    | error e =>
      simp only [hu, Option.some.injEq] at h
      exact Or.inl ⟨e, rfl, h.symm⟩
    | ok g =>
      simp only [hu, Option.some.injEq] at h
      exact Or.inr ⟨g, rfl, h.symm⟩

theorem EncryptPrivateKey_UnmarshalRaw_cases {B : Bn256} (C : PointCodec B)
    (priv : EncryptPrivateKey B) (bytes : List UInt8) (r : EncryptPrivateKey B × Option String)
    (h : priv.UnmarshalRaw C bytes = some r) :
    (∃ e, unmarshalG2 C bytes = some (.error e) ∧ r = (priv, some e)) ∨
    (∃ g, unmarshalG2 C bytes = some (.ok g) ∧ r = ({ priv with PrivateKey := some g }, none)) := by
  unfold EncryptPrivateKey.UnmarshalRaw at h
  cases hu : unmarshalG2 C bytes with
  | none => simp [hu] at h
  | some x =>
    cases x with
    | error e =>
      simp only [hu, Option.some.injEq] at h
      exact Or.inl ⟨e, rfl, h.symm⟩
    | ok g =>
      simp only [hu, Option.some.injEq] at h
      exact Or.inr ⟨g, rfl, h.symm⟩

theorem SignPrivateKey_UnmarshalASN1_error_cases {B : Bn256} (C : PointCodec B)
    (sp sp' : SignPrivateKey B) (der : List UInt8) (err : String)
    (h : sp.UnmarshalASN1 C der = some (sp', some err)) :
    (∃ bytes pubBytes g,
        readPrivateKeyDER der "sm9: invalid sign user private key asn1 data"
          "sm9: invalid sign master public key asn1 data" = some (.ok (bytes, pubBytes)) ∧
        unmarshalG1 C bytes = some (.ok g) ∧ pubBytes ≠ [] ∧
        unmarshalG2 C pubBytes = some (.error err) ∧
        sp' = { sp with PrivateKey := some g }) ∨
    (sp' = sp ∧
      (readPrivateKeyDER der "sm9: invalid sign user private key asn1 data"
          "sm9: invalid sign master public key asn1 data" = some (.error err) ∨
        ∃ bytes pubBytes,
          readPrivateKeyDER der "sm9: invalid sign user private key asn1 data"
            "sm9: invalid sign master public key asn1 data" = some (.ok (bytes, pubBytes)) ∧
          unmarshalG1 C bytes = some (.error err))) := by
  unfold SignPrivateKey.UnmarshalASN1 at h
  cases hd : readPrivateKeyDER der "sm9: invalid sign user private key asn1 data"
      "sm9: invalid sign master public key asn1 data" with
  | none => simp [hd] at h
  | some x =>
    cases x with
    | error e =>
      simp only [hd, Option.some.injEq, Prod.mk.injEq] at h
      obtain ⟨rfl, rfl⟩ := h
      exact Or.inr ⟨rfl, Or.inl rfl⟩
    | ok bp =>
      obtain ⟨bytes, pubBytes⟩ := bp
      simp only [hd] at h
      cases hr : sp.UnmarshalRaw C bytes with
      | none => simp [hr] at h
      | some r =>
        rcases SignPrivateKey_UnmarshalRaw_cases C sp bytes r hr with ⟨e, hg, rfl⟩ | ⟨g, hg, rfl⟩
        · simp only [hr, Option.some.injEq, Prod.mk.injEq] at h
          obtain ⟨rfl, rfl⟩ := h
          exact Or.inr ⟨rfl, Or.inr ⟨bytes, pubBytes, rfl, hg⟩⟩
        · simp only [hr] at h
          by_cases hlen : pubBytes.length > 0
          · simp only [hlen, if_true] at h
            unfold SignMasterPublicKey.UnmarshalRaw at h
            cases hu : unmarshalG2 C pubBytes with
            | none => simp [hu] at h
            | some y =>
              cases y with
              | error e2 =>
                simp only [hu, Option.some.injEq, Prod.mk.injEq] at h
                obtain ⟨rfl, rfl⟩ := h
                refine Or.inl ⟨bytes, pubBytes, g, rfl, hg, ?_, hu, rfl⟩
                intro hnil
                simp [hnil] at hlen
              | ok g2 => simp [hu] at h
          · simp [hlen] at h

theorem EncryptPrivateKey_UnmarshalASN1_error_cases {B : Bn256} (C : PointCodec B)
    (ep ep' : EncryptPrivateKey B) (der : List UInt8) (err : String)
    (h : ep.UnmarshalASN1 C der = some (ep', some err)) :
    (∃ bytes pubBytes g,
        readPrivateKeyDER der "sm9: invalid encrypt user private key asn1 data"
          "sm9: invalid encrypt master public key asn1 data" = some (.ok (bytes, pubBytes)) ∧
        unmarshalG2 C bytes = some (.ok g) ∧ pubBytes ≠ [] ∧
        unmarshalG1 C pubBytes = some (.error err) ∧
        ep' = { ep with PrivateKey := some g }) ∨
    (ep' = ep ∧
      (readPrivateKeyDER der "sm9: invalid encrypt user private key asn1 data"
          "sm9: invalid encrypt master public key asn1 data" = some (.error err) ∨
        ∃ bytes pubBytes,
          readPrivateKeyDER der "sm9: invalid encrypt user private key asn1 data"
            "sm9: invalid encrypt master public key asn1 data" = some (.ok (bytes, pubBytes)) ∧
          unmarshalG2 C bytes = some (.error err))) := by
  unfold EncryptPrivateKey.UnmarshalASN1 at h
  cases hd : readPrivateKeyDER der "sm9: invalid encrypt user private key asn1 data"
      "sm9: invalid encrypt master public key asn1 data" with
  | none => simp [hd] at h
  | some x =>
    cases x with
    | error e =>
      simp only [hd, Option.some.injEq, Prod.mk.injEq] at h
      obtain ⟨rfl, rfl⟩ := h
      exact Or.inr ⟨rfl, Or.inl rfl⟩
    | ok bp =>
      obtain ⟨bytes, pubBytes⟩ := bp
      simp only [hd] at h
      cases hr : ep.UnmarshalRaw C bytes with
      | none => simp [hr] at h
      | some r =>
        rcases EncryptPrivateKey_UnmarshalRaw_cases C ep bytes r hr with
          ⟨e, hg, rfl⟩ | ⟨g, hg, rfl⟩
        · simp only [hr, Option.some.injEq, Prod.mk.injEq] at h
          obtain ⟨rfl, rfl⟩ := h
          exact Or.inr ⟨rfl, Or.inr ⟨bytes, pubBytes, rfl, hg⟩⟩
        · simp only [hr] at h
          by_cases hlen : pubBytes.length > 0
          · simp only [hlen, if_true] at h
            unfold EncryptMasterPublicKey.UnmarshalRaw at h
            cases hu : unmarshalG1 C pubBytes with
            | none => simp [hu] at h
            | some y =>
              cases y with
              | error e2 =>
                simp only [hu, Option.some.injEq, Prod.mk.injEq] at h
                obtain ⟨rfl, rfl⟩ := h
                refine Or.inl ⟨bytes, pubBytes, g, rfl, hg, ?_, hu, rfl⟩
                intro hnil
                simp [hnil] at hlen
              | ok g2 => simp [hu] at h
          · simp [hlen] at h

theorem SignPrivateKey_UnmarshalASN1_masterPub_error {B : Bn256} (C : PointCodec B)
    (sp : SignPrivateKey B) (der bytes pubBytes : List UInt8) (g : B.G1) (err : String)
    (hd : readPrivateKeyDER der "sm9: invalid sign user private key asn1 data"
      "sm9: invalid sign master public key asn1 data" = some (.ok (bytes, pubBytes)))
    (hg : unmarshalG1 C bytes = some (.ok g)) (hne : pubBytes ≠ [])
    (hu : unmarshalG2 C pubBytes = some (.error err)) :
    sp.UnmarshalASN1 C der = some ({ sp with PrivateKey := some g }, some err) := by
  have hlen : pubBytes.length > 0 := List.length_pos.mpr hne
  simp [SignPrivateKey.UnmarshalASN1, hd, SignPrivateKey.UnmarshalRaw, hg, hlen,
    SignMasterPublicKey.UnmarshalRaw, hu]

theorem EncryptPrivateKey_UnmarshalASN1_masterPub_error {B : Bn256} (C : PointCodec B)
    (ep : EncryptPrivateKey B) (der bytes pubBytes : List UInt8) (g : B.G2) (err : String)
    (hd : readPrivateKeyDER der "sm9: invalid encrypt user private key asn1 data"
      "sm9: invalid encrypt master public key asn1 data" = some (.ok (bytes, pubBytes)))
    (hg : unmarshalG2 C bytes = some (.ok g)) (hne : pubBytes ≠ [])
    (hu : unmarshalG1 C pubBytes = some (.error err)) :
    ep.UnmarshalASN1 C der = some ({ ep with PrivateKey := some g }, some err) := by
  have hlen : pubBytes.length > 0 := List.length_pos.mpr hne
  simp [EncryptPrivateKey.UnmarshalASN1, hd, EncryptPrivateKey.UnmarshalRaw, hg, hlen,
    EncryptMasterPublicKey.UnmarshalRaw, hu]

/-- C16 (amended). When `SignPrivateKey.UnmarshalASN1` or `EncryptPrivateKey.UnmarshalASN1`
returns an error, the master public key is as before the call and exactly one of two cases
holds. Either the DER structure was accepted, the private-key BIT STRING decoded to a point
`g`, and the error is the one of decoding the (non-empty) master-public-key BIT STRING: then
the receiver after the call is the receiver before it with `PrivateKey` overwritten by `g`. Or
the error is the one of the DER structure or of decoding the private-key BIT STRING: then the
receiver is as before the call. The first case does occur: whenever the private-key BIT STRING
decodes to `g` and the master-public-key BIT STRING is rejected, the call returns that error
and `PrivateKey` is `g`. -/
theorem UnmarshalASN1_error_receiver {B : Bn256} (C : PointCodec B)
    (sp sp' : SignPrivateKey B) (ep ep' : EncryptPrivateKey B) (derS derE : List UInt8)
    (errS errE : String)
    (hS : sp.UnmarshalASN1 C derS = some (sp', some errS))
    (hE : ep.UnmarshalASN1 C derE = some (ep', some errE)) :
    (sp'.SignMasterPublicKey = sp.SignMasterPublicKey ∧
      ((∃ bytes pubBytes g,
          readPrivateKeyDER derS "sm9: invalid sign user private key asn1 data"
            "sm9: invalid sign master public key asn1 data" = some (.ok (bytes, pubBytes)) ∧
          unmarshalG1 C bytes = some (.ok g) ∧ pubBytes ≠ [] ∧
          unmarshalG2 C pubBytes = some (.error errS) ∧
          sp' = { sp with PrivateKey := some g }) ∨
        (sp' = sp ∧
          (readPrivateKeyDER derS "sm9: invalid sign user private key asn1 data"
              "sm9: invalid sign master public key asn1 data" = some (.error errS) ∨
            ∃ bytes pubBytes,
              readPrivateKeyDER derS "sm9: invalid sign user private key asn1 data"
                "sm9: invalid sign master public key asn1 data"
                  = some (.ok (bytes, pubBytes)) ∧
              unmarshalG1 C bytes = some (.error errS))))) ∧
    (ep'.EncryptMasterPublicKey = ep.EncryptMasterPublicKey ∧
      ((∃ bytes pubBytes g,
          readPrivateKeyDER derE "sm9: invalid encrypt user private key asn1 data"
            "sm9: invalid encrypt master public key asn1 data" = some (.ok (bytes, pubBytes)) ∧
          unmarshalG2 C bytes = some (.ok g) ∧ pubBytes ≠ [] ∧
          unmarshalG1 C pubBytes = some (.error errE) ∧
          ep' = { ep with PrivateKey := some g }) ∨
        (ep' = ep ∧
          (readPrivateKeyDER derE "sm9: invalid encrypt user private key asn1 data"
              "sm9: invalid encrypt master public key asn1 data" = some (.error errE) ∨
            ∃ bytes pubBytes,
              readPrivateKeyDER derE "sm9: invalid encrypt user private key asn1 data"
                "sm9: invalid encrypt master public key asn1 data"
                  = some (.ok (bytes, pubBytes)) ∧
              unmarshalG2 C bytes = some (.error errE))))) ∧
    (∀ (recv : SignPrivateKey B) (der bytes pubBytes : List UInt8) (g : B.G1) (err : String),
      readPrivateKeyDER der "sm9: invalid sign user private key asn1 data"
        "sm9: invalid sign master public key asn1 data" = some (.ok (bytes, pubBytes)) →
      unmarshalG1 C bytes = some (.ok g) → pubBytes ≠ [] →
      unmarshalG2 C pubBytes = some (.error err) →
      recv.UnmarshalASN1 C der = some ({ recv with PrivateKey := some g }, some err)) ∧
    (∀ (recv : EncryptPrivateKey B) (der bytes pubBytes : List UInt8) (g : B.G2) (err : String),
      readPrivateKeyDER der "sm9: invalid encrypt user private key asn1 data"
        "sm9: invalid encrypt master public key asn1 data" = some (.ok (bytes, pubBytes)) →
      unmarshalG2 C bytes = some (.ok g) → pubBytes ≠ [] →
      unmarshalG1 C pubBytes = some (.error err) →
      recv.UnmarshalASN1 C der = some ({ recv with PrivateKey := some g }, some err)) := by
  have hs := SignPrivateKey_UnmarshalASN1_error_cases C sp sp' derS errS hS
  have he := EncryptPrivateKey_UnmarshalASN1_error_cases C ep ep' derE errE hE
  refine ⟨⟨?_, hs⟩, ⟨?_, he⟩,
    fun recv der bytes pubBytes g err hd hg hne hu =>
      SignPrivateKey_UnmarshalASN1_masterPub_error C recv der bytes pubBytes g err hd hg hne hu,
    fun recv der bytes pubBytes g err hd hg hne hu =>
      EncryptPrivateKey_UnmarshalASN1_masterPub_error C recv der bytes pubBytes g err hd hg hne
        hu⟩
  · rcases hs with ⟨_, _, _, _, _, _, _, rfl⟩ | ⟨rfl, _⟩ <;> rfl
  · rcases he with ⟨_, _, _, _, _, _, _, rfl⟩ | ⟨rfl, _⟩ <;> rfl

/-- C16 (amended), in the groups of integers modulo 251. The receivers hold the private key 4
and the master public key 2; the DER input is the SEQUENCE of a valid private-key BIT STRING
(the point 9) and a master-public-key BIT STRING with the unknown identity byte `0x06`. Both
calls return the error of the identity byte, and the receivers then hold the private key 9
and still the master public key 2. -/
theorem UnmarshalASN1_error_receiver_witness :
    SignPrivateKey.UnmarshalASN1 (toyCodec 251) (toySignPrivateKey 4 2)
        (toySequence (toyPointBits 4 9) (toyPointBits 6 1))
      = some (toySignPrivateKey 9 2, some "sm9: invalid point identity byte") ∧
    EncryptPrivateKey.UnmarshalASN1 (toyCodec 251) (toyEncryptPrivateKey 4 2)
        (toySequence (toyPointBits 4 9) (toyPointBits 6 1))
      = some (toyEncryptPrivateKey 9 2, some "sm9: invalid point identity byte") ∧
    (toySignPrivateKey 9 2).PrivateKey ≠ (toySignPrivateKey 4 2).PrivateKey ∧
    ((toySignPrivateKey 9 2).SignMasterPublicKey = (toySignPrivateKey 4 2).SignMasterPublicKey ∧
      ((∃ bytes pubBytes g,
          readPrivateKeyDER (toySequence (toyPointBits 4 9) (toyPointBits 6 1))
            "sm9: invalid sign user private key asn1 data"
            "sm9: invalid sign master public key asn1 data" = some (.ok (bytes, pubBytes)) ∧
          unmarshalG1 (toyCodec 251) bytes = some (.ok g) ∧ pubBytes ≠ [] ∧
          unmarshalG2 (toyCodec 251) pubBytes
            = some (.error "sm9: invalid point identity byte") ∧
          toySignPrivateKey 9 2 = { toySignPrivateKey 4 2 with PrivateKey := some g }) ∨
        (toySignPrivateKey 9 2 = toySignPrivateKey 4 2 ∧
          (readPrivateKeyDER (toySequence (toyPointBits 4 9) (toyPointBits 6 1))
              "sm9: invalid sign user private key asn1 data"
              "sm9: invalid sign master public key asn1 data"
                = some (.error "sm9: invalid point identity byte") ∨
            ∃ bytes pubBytes,
              readPrivateKeyDER (toySequence (toyPointBits 4 9) (toyPointBits 6 1))
                "sm9: invalid sign user private key asn1 data"
                "sm9: invalid sign master public key asn1 data"
                  = some (.ok (bytes, pubBytes)) ∧
              unmarshalG1 (toyCodec 251) bytes
                = some (.error "sm9: invalid point identity byte"))))) ∧
    ((toyEncryptPrivateKey 9 2).EncryptMasterPublicKey
        = (toyEncryptPrivateKey 4 2).EncryptMasterPublicKey ∧
      ((∃ bytes pubBytes g,
          readPrivateKeyDER (toySequence (toyPointBits 4 9) (toyPointBits 6 1))
            "sm9: invalid encrypt user private key asn1 data"
            "sm9: invalid encrypt master public key asn1 data"
              = some (.ok (bytes, pubBytes)) ∧
          unmarshalG2 (toyCodec 251) bytes = some (.ok g) ∧ pubBytes ≠ [] ∧
          unmarshalG1 (toyCodec 251) pubBytes
            = some (.error "sm9: invalid point identity byte") ∧
          toyEncryptPrivateKey 9 2 = { toyEncryptPrivateKey 4 2 with PrivateKey := some g }) ∨
        (toyEncryptPrivateKey 9 2 = toyEncryptPrivateKey 4 2 ∧
          (readPrivateKeyDER (toySequence (toyPointBits 4 9) (toyPointBits 6 1))
              "sm9: invalid encrypt user private key asn1 data"
              "sm9: invalid encrypt master public key asn1 data"
                = some (.error "sm9: invalid point identity byte") ∨
            ∃ bytes pubBytes,
              readPrivateKeyDER (toySequence (toyPointBits 4 9) (toyPointBits 6 1))
                "sm9: invalid encrypt user private key asn1 data"
                "sm9: invalid encrypt master public key asn1 data"
                  = some (.ok (bytes, pubBytes)) ∧
              unmarshalG2 (toyCodec 251) bytes
                = some (.error "sm9: invalid point identity byte"))))) ∧
    (∀ (recv : SignPrivateKey (toyBn256 251)) (der bytes pubBytes : List UInt8)
        (g : (toyBn256 251).G1) (err : String),
      readPrivateKeyDER der "sm9: invalid sign user private key asn1 data"
        "sm9: invalid sign master public key asn1 data" = some (.ok (bytes, pubBytes)) →
      unmarshalG1 (toyCodec 251) bytes = some (.ok g) → pubBytes ≠ [] →
      unmarshalG2 (toyCodec 251) pubBytes = some (.error err) →
      recv.UnmarshalASN1 (toyCodec 251) der
        = some ({ recv with PrivateKey := some g }, some err)) ∧
    (∀ (recv : EncryptPrivateKey (toyBn256 251)) (der bytes pubBytes : List UInt8)
        (g : (toyBn256 251).G2) (err : String),
      readPrivateKeyDER der "sm9: invalid encrypt user private key asn1 data"
        "sm9: invalid encrypt master public key asn1 data" = some (.ok (bytes, pubBytes)) →
      unmarshalG2 (toyCodec 251) bytes = some (.ok g) → pubBytes ≠ [] →
      unmarshalG1 (toyCodec 251) pubBytes = some (.error err) →
      recv.UnmarshalASN1 (toyCodec 251) der
        = some ({ recv with PrivateKey := some g }, some err)) :=
  ⟨rfl, rfl, by
      show some (9 : ZMod 251) ≠ some (4 : ZMod 251)
      decide,
    UnmarshalASN1_error_receiver (toyCodec 251) (toySignPrivateKey 4 2)
      (toySignPrivateKey 9 2) (toyEncryptPrivateKey 4 2) (toyEncryptPrivateKey 9 2)
      (toySequence (toyPointBits 4 9) (toyPointBits 6 1))
      (toySequence (toyPointBits 4 9) (toyPointBits 6 1))
      "sm9: invalid point identity byte" "sm9: invalid point identity byte" rfl rfl⟩

/-- C16 (counterexample). The receiver holds the private key 3; the DER input is the SEQUENCE
of a valid private-key BIT STRING (the point 7) and a master-public-key BIT STRING with the
unknown identity byte `0x05`. Both `UnmarshalASN1` methods return an error, and the receiver's
`PrivateKey` is 7, not 3 as before the call. -/
theorem UnmarshalASN1_error_changes_PrivateKey :
    (∃ sp', SignPrivateKey.UnmarshalASN1 (toyCodec 251)
        { PrivateKey := some (3 : ZMod 251)
          SignMasterPublicKey := SignMasterPublicKey.new (toyBn256 251) }
        (toySequence (toyPointBits 4 7) (toyPointBits 5 9))
          = some (sp', some "sm9: invalid point identity byte") ∧
      sp'.PrivateKey = some (7 : ZMod 251) ∧ sp'.PrivateKey ≠ some (3 : ZMod 251)) ∧
    (∃ ep', EncryptPrivateKey.UnmarshalASN1 (toyCodec 251)
        { PrivateKey := some (3 : ZMod 251)
          EncryptMasterPublicKey := EncryptMasterPublicKey.new (toyBn256 251) }
        (toySequence (toyPointBits 4 7) (toyPointBits 5 9))
          = some (ep', some "sm9: invalid point identity byte") ∧
      ep'.PrivateKey = some (7 : ZMod 251) ∧ ep'.PrivateKey ≠ some (3 : ZMod 251)) :=
  ⟨⟨{ PrivateKey := some (7 : ZMod 251)
      SignMasterPublicKey := SignMasterPublicKey.new (toyBn256 251) }, rfl, rfl, by
      show some (7 : ZMod 251) ≠ some (3 : ZMod 251)
      decide⟩,
    ⟨{ PrivateKey := some (7 : ZMod 251)
       EncryptMasterPublicKey := EncryptMasterPublicKey.new (toyBn256 251) }, rfl, rfl, by
      show some (7 : ZMod 251) ≠ some (3 : ZMod 251)
      decide⟩⟩

/-! ## Errors and the receiver: GT.Unmarshal -/

set_option maxRecDepth 100000 in
/-- C15 (counterexample). The receiver holds `gtSample`, whose first coordinate is 1; the input
is 32 zero bytes followed by 352 bytes `0xff`. `GT.Unmarshal` returns an error for the second
coordinate, and the receiver's first coordinate is 0 after the call. A receiver whose element
is nil holds an element after the failed call. -/
theorem GT_Unmarshal_error_changes_receiver :
    GT.Unmarshal sm9P ⟨some gtSample⟩ (List.replicate 32 0 ++ List.replicate 352 255)
      = (⟨some { gtSample with x.x.x := 0 }⟩, .error "sm9: coordinate exceeds modulus") ∧
    ({ gtSample with x.x.x := 0 } : gfP12) ≠ gtSample ∧
    GT.Unmarshal sm9P ⟨none⟩ (List.replicate 32 0 ++ List.replicate 352 255)
      = (⟨some gfP12.zero⟩, .error "sm9: coordinate exceeds modulus") :=
  ⟨rfl, by decide, rfl⟩

/-- C15 (amended). When `GT.Unmarshal(m)` returns the error for fewer than 384 bytes, the
receiver is unchanged. When it returns an error because the `k`-th of the twelve values is at
least `p` (and the values before it are below `p`), the coordinates after the `k`-th keep the
value they had before the call (zero when the receiver's element was nil), and the coordinates
before the `k`-th hold the values read from `m`. -/
theorem GT_Unmarshal_error_receiver (pmod : Nat) (e : GT gfP12) (m : List UInt8) :
    (m.length < 384 → (GT.Unmarshal pmod e m).1 = e) ∧
    (∀ k, k < 12 → 384 ≤ m.length →
      (∀ j, j < k → beValue ((m.drop (32 * j)).take 32) < pmod) →
      pmod ≤ beValue ((m.drop (32 * k)).take 32) →
      ∃ v', (GT.Unmarshal pmod e m).1 = ⟨some v'⟩ ∧
        (GT.Unmarshal pmod e m).2 = .error "sm9: coordinate exceeds modulus" ∧
        ∀ i, i < 12 →
          (i < k → v'.coords[i]? = some (beValue ((m.drop (32 * i)).take 32))) ∧
          (k < i → v'.coords[i]? = (e.p.getD gfP12.zero).coords[i]?)) := by
  constructor
  · intro hlen
    have hl : m.length < 12 * numBytes := by simpa [numBytes] using hlen
    simp [GT.Unmarshal, hl]
  · intro k hk hlen hlt hge
    have hl : ¬ m.length < 12 * numBytes := by simp [numBytes]; omega
    interval_cases k
    · -- the value of index 0 is rejected
      have h0 : ¬ beValue (m.take 32) < pmod := by
        have := hge
        simp only [numBytes] at *
        norm_num at this ⊢
        exact this
      simp only [GT.Unmarshal, hl, if_false,  gfP_Unmarshal_error _ _ h0]
      refine ⟨_, rfl, trivial, ?_⟩
      intro i hi
      interval_cases i <;> simp [gfP12.coords, numBytes] <;> (cases e.p <;> rfl)
    · -- the value of index 1 is rejected
      have h0 : beValue (m.take 32) < pmod := by
        simpa [numBytes] using hlt 0 (by norm_num)
      have h1 : ¬ beValue ((m.drop (numBytes)).take 32) < pmod := by
        have := hge
        simp only [numBytes] at *
        norm_num at this ⊢
        exact this
      simp only [GT.Unmarshal, hl, if_false, gfP_Unmarshal_ok _ _ h0, gfP_Unmarshal_error _ _ h1]
      refine ⟨_, rfl, trivial, ?_⟩
      intro i hi
      interval_cases i <;> simp [gfP12.coords, numBytes] <;> (cases e.p <;> rfl)
    · -- the value of index 2 is rejected
      have h0 : beValue (m.take 32) < pmod := by
        simpa [numBytes] using hlt 0 (by norm_num)
      have h1 : beValue ((m.drop (numBytes)).take 32) < pmod := by
        simpa [numBytes] using hlt 1 (by norm_num)
      have h2 : ¬ beValue ((m.drop (2 * numBytes)).take 32) < pmod := by
        have := hge
        simp only [numBytes] at *
        norm_num at this ⊢
        exact this
      simp only [GT.Unmarshal, hl, if_false, gfP_Unmarshal_ok _ _ h0, gfP_Unmarshal_ok _ _ h1, gfP_Unmarshal_error _ _ h2]
      refine ⟨_, rfl, trivial, ?_⟩
      intro i hi
      interval_cases i <;> simp [gfP12.coords, numBytes] <;> (cases e.p <;> rfl)
    · -- the value of index 3 is rejected
      have h0 : beValue (m.take 32) < pmod := by
        simpa [numBytes] using hlt 0 (by norm_num)
      have h1 : beValue ((m.drop (numBytes)).take 32) < pmod := by
        simpa [numBytes] using hlt 1 (by norm_num)
      have h2 : beValue ((m.drop (2 * numBytes)).take 32) < pmod := by
        simpa [numBytes] using hlt 2 (by norm_num)
      have h3 : ¬ beValue ((m.drop (3 * numBytes)).take 32) < pmod := by
        have := hge
        simp only [numBytes] at *
        norm_num at this ⊢
        exact this
      simp only [GT.Unmarshal, hl, if_false, gfP_Unmarshal_ok _ _ h0, gfP_Unmarshal_ok _ _ h1, gfP_Unmarshal_ok _ _ h2, gfP_Unmarshal_error _ _ h3]
      refine ⟨_, rfl, trivial, ?_⟩
      intro i hi
      interval_cases i <;> simp [gfP12.coords, numBytes] <;> (cases e.p <;> rfl)
    · -- the value of index 4 is rejected
      have h0 : beValue (m.take 32) < pmod := by
        simpa [numBytes] using hlt 0 (by norm_num)
      have h1 : beValue ((m.drop (numBytes)).take 32) < pmod := by
        simpa [numBytes] using hlt 1 (by norm_num)
      have h2 : beValue ((m.drop (2 * numBytes)).take 32) < pmod := by
        simpa [numBytes] using hlt 2 (by norm_num)
      have h3 : beValue ((m.drop (3 * numBytes)).take 32) < pmod := by
        simpa [numBytes] using hlt 3 (by norm_num)
      have h4 : ¬ beValue ((m.drop (4 * numBytes)).take 32) < pmod := by
        have := hge
        simp only [numBytes] at *
        norm_num at this ⊢
        exact this
      simp only [GT.Unmarshal, hl, if_false, gfP_Unmarshal_ok _ _ h0, gfP_Unmarshal_ok _ _ h1, gfP_Unmarshal_ok _ _ h2, gfP_Unmarshal_ok _ _ h3, gfP_Unmarshal_error _ _ h4]
      refine ⟨_, rfl, trivial, ?_⟩
      intro i hi
      interval_cases i <;> simp [gfP12.coords, numBytes] <;> (cases e.p <;> rfl)
    · -- the value of index 5 is rejected
      have h0 : beValue (m.take 32) < pmod := by
        simpa [numBytes] using hlt 0 (by norm_num)
      have h1 : beValue ((m.drop (numBytes)).take 32) < pmod := by
        simpa [numBytes] using hlt 1 (by norm_num)
      have h2 : beValue ((m.drop (2 * numBytes)).take 32) < pmod := by
        simpa [numBytes] using hlt 2 (by norm_num)
      have h3 : beValue ((m.drop (3 * numBytes)).take 32) < pmod := by
        simpa [numBytes] using hlt 3 (by norm_num)
      have h4 : beValue ((m.drop (4 * numBytes)).take 32) < pmod := by
        simpa [numBytes] using hlt 4 (by norm_num)
      have h5 : ¬ beValue ((m.drop (5 * numBytes)).take 32) < pmod := by
        have := hge
        simp only [numBytes] at *
        norm_num at this ⊢
        exact this
      simp only [GT.Unmarshal, hl, if_false, gfP_Unmarshal_ok _ _ h0, gfP_Unmarshal_ok _ _ h1, gfP_Unmarshal_ok _ _ h2, gfP_Unmarshal_ok _ _ h3, gfP_Unmarshal_ok _ _ h4, gfP_Unmarshal_error _ _ h5]
      refine ⟨_, rfl, trivial, ?_⟩
      intro i hi
      interval_cases i <;> simp [gfP12.coords, numBytes] <;> (cases e.p <;> rfl)
    · -- the value of index 6 is rejected
      have h0 : beValue (m.take 32) < pmod := by
        simpa [numBytes] using hlt 0 (by norm_num)
      have h1 : beValue ((m.drop (numBytes)).take 32) < pmod := by
        simpa [numBytes] using hlt 1 (by norm_num)
      have h2 : beValue ((m.drop (2 * numBytes)).take 32) < pmod := by
        simpa [numBytes] using hlt 2 (by norm_num)
      have h3 : beValue ((m.drop (3 * numBytes)).take 32) < pmod := by
        simpa [numBytes] using hlt 3 (by norm_num)
      have h4 : beValue ((m.drop (4 * numBytes)).take 32) < pmod := by
        simpa [numBytes] using hlt 4 (by norm_num)
      have h5 : beValue ((m.drop (5 * numBytes)).take 32) < pmod := by
        simpa [numBytes] using hlt 5 (by norm_num)
      have h6 : ¬ beValue ((m.drop (6 * numBytes)).take 32) < pmod := by
        have := hge
        simp only [numBytes] at *
        norm_num at this ⊢
        exact this
      simp only [GT.Unmarshal, hl, if_false, gfP_Unmarshal_ok _ _ h0, gfP_Unmarshal_ok _ _ h1, gfP_Unmarshal_ok _ _ h2, gfP_Unmarshal_ok _ _ h3, gfP_Unmarshal_ok _ _ h4, gfP_Unmarshal_ok _ _ h5, gfP_Unmarshal_error _ _ h6]
      refine ⟨_, rfl, trivial, ?_⟩
      intro i hi
      interval_cases i <;> simp [gfP12.coords, numBytes] <;> (cases e.p <;> rfl)
    · -- the value of index 7 is rejected
      have h0 : beValue (m.take 32) < pmod := by
        simpa [numBytes] using hlt 0 (by norm_num)
      have h1 : beValue ((m.drop (numBytes)).take 32) < pmod := by
        simpa [numBytes] using hlt 1 (by norm_num)
      have h2 : beValue ((m.drop (2 * numBytes)).take 32) < pmod := by
        simpa [numBytes] using hlt 2 (by norm_num)
      have h3 : beValue ((m.drop (3 * numBytes)).take 32) < pmod := by
        simpa [numBytes] using hlt 3 (by norm_num)
      have h4 : beValue ((m.drop (4 * numBytes)).take 32) < pmod := by
        simpa [numBytes] using hlt 4 (by norm_num)
      have h5 : beValue ((m.drop (5 * numBytes)).take 32) < pmod := by
        simpa [numBytes] using hlt 5 (by norm_num)
      have h6 : beValue ((m.drop (6 * numBytes)).take 32) < pmod := by
        simpa [numBytes] using hlt 6 (by norm_num)
      have h7 : ¬ beValue ((m.drop (7 * numBytes)).take 32) < pmod := by
        have := hge
        simp only [numBytes] at *
        norm_num at this ⊢
        exact this
      simp only [GT.Unmarshal, hl, if_false, gfP_Unmarshal_ok _ _ h0, gfP_Unmarshal_ok _ _ h1, gfP_Unmarshal_ok _ _ h2, gfP_Unmarshal_ok _ _ h3, gfP_Unmarshal_ok _ _ h4, gfP_Unmarshal_ok _ _ h5, gfP_Unmarshal_ok _ _ h6, gfP_Unmarshal_error _ _ h7]
      refine ⟨_, rfl, trivial, ?_⟩
      intro i hi
      interval_cases i <;> simp [gfP12.coords, numBytes] <;> (cases e.p <;> rfl)
    · -- the value of index 8 is rejected
      have h0 : beValue (m.take 32) < pmod := by
        simpa [numBytes] using hlt 0 (by norm_num)
      have h1 : beValue ((m.drop (numBytes)).take 32) < pmod := by
        simpa [numBytes] using hlt 1 (by norm_num)
      have h2 : beValue ((m.drop (2 * numBytes)).take 32) < pmod := by
        simpa [numBytes] using hlt 2 (by norm_num)
      have h3 : beValue ((m.drop (3 * numBytes)).take 32) < pmod := by
        simpa [numBytes] using hlt 3 (by norm_num)
      have h4 : beValue ((m.drop (4 * numBytes)).take 32) < pmod := by
        simpa [numBytes] using hlt 4 (by norm_num)
      have h5 : beValue ((m.drop (5 * numBytes)).take 32) < pmod := by
        simpa [numBytes] using hlt 5 (by norm_num)
      have h6 : beValue ((m.drop (6 * numBytes)).take 32) < pmod := by
        simpa [numBytes] using hlt 6 (by norm_num)
      have h7 : beValue ((m.drop (7 * numBytes)).take 32) < pmod := by
        simpa [numBytes] using hlt 7 (by norm_num)
      have h8 : ¬ beValue ((m.drop (8 * numBytes)).take 32) < pmod := by
        have := hge
        simp only [numBytes] at *
        norm_num at this ⊢
        exact this
      simp only [GT.Unmarshal, hl, if_false, gfP_Unmarshal_ok _ _ h0, gfP_Unmarshal_ok _ _ h1, gfP_Unmarshal_ok _ _ h2, gfP_Unmarshal_ok _ _ h3, gfP_Unmarshal_ok _ _ h4, gfP_Unmarshal_ok _ _ h5, gfP_Unmarshal_ok _ _ h6, gfP_Unmarshal_ok _ _ h7, gfP_Unmarshal_error _ _ h8]
      refine ⟨_, rfl, trivial, ?_⟩
      intro i hi
      interval_cases i <;> simp [gfP12.coords, numBytes] <;> (cases e.p <;> rfl)
    · -- the value of index 9 is rejected
      have h0 : beValue (m.take 32) < pmod := by
        simpa [numBytes] using hlt 0 (by norm_num)
      have h1 : beValue ((m.drop (numBytes)).take 32) < pmod := by
        simpa [numBytes] using hlt 1 (by norm_num)
      have h2 : beValue ((m.drop (2 * numBytes)).take 32) < pmod := by
        simpa [numBytes] using hlt 2 (by norm_num)
      have h3 : beValue ((m.drop (3 * numBytes)).take 32) < pmod := by
        simpa [numBytes] using hlt 3 (by norm_num)
      have h4 : beValue ((m.drop (4 * numBytes)).take 32) < pmod := by
        simpa [numBytes] using hlt 4 (by norm_num)
      have h5 : beValue ((m.drop (5 * numBytes)).take 32) < pmod := by
        simpa [numBytes] using hlt 5 (by norm_num)
      have h6 : beValue ((m.drop (6 * numBytes)).take 32) < pmod := by
        simpa [numBytes] using hlt 6 (by norm_num)
      have h7 : beValue ((m.drop (7 * numBytes)).take 32) < pmod := by
        simpa [numBytes] using hlt 7 (by norm_num)
      have h8 : beValue ((m.drop (8 * numBytes)).take 32) < pmod := by
        simpa [numBytes] using hlt 8 (by norm_num)
      have h9 : ¬ beValue ((m.drop (9 * numBytes)).take 32) < pmod := by
        have := hge
        simp only [numBytes] at *
        norm_num at this ⊢
        exact this
      simp only [GT.Unmarshal, hl, if_false, gfP_Unmarshal_ok _ _ h0, gfP_Unmarshal_ok _ _ h1, gfP_Unmarshal_ok _ _ h2, gfP_Unmarshal_ok _ _ h3, gfP_Unmarshal_ok _ _ h4, gfP_Unmarshal_ok _ _ h5, gfP_Unmarshal_ok _ _ h6, gfP_Unmarshal_ok _ _ h7, gfP_Unmarshal_ok _ _ h8, gfP_Unmarshal_error _ _ h9]
      refine ⟨_, rfl, trivial, ?_⟩
      intro i hi
      interval_cases i <;> simp [gfP12.coords, numBytes] <;> (cases e.p <;> rfl)
    · -- the value of index 10 is rejected
      have h0 : beValue (m.take 32) < pmod := by
        simpa [numBytes] using hlt 0 (by norm_num)
      have h1 : beValue ((m.drop (numBytes)).take 32) < pmod := by
        simpa [numBytes] using hlt 1 (by norm_num)
      have h2 : beValue ((m.drop (2 * numBytes)).take 32) < pmod := by
        simpa [numBytes] using hlt 2 (by norm_num)
      have h3 : beValue ((m.drop (3 * numBytes)).take 32) < pmod := by
        simpa [numBytes] using hlt 3 (by norm_num)
      have h4 : beValue ((m.drop (4 * numBytes)).take 32) < pmod := by
        simpa [numBytes] using hlt 4 (by norm_num)
      have h5 : beValue ((m.drop (5 * numBytes)).take 32) < pmod := by
        simpa [numBytes] using hlt 5 (by norm_num)
      have h6 : beValue ((m.drop (6 * numBytes)).take 32) < pmod := by
        simpa [numBytes] using hlt 6 (by norm_num)
      have h7 : beValue ((m.drop (7 * numBytes)).take 32) < pmod := by
        simpa [numBytes] using hlt 7 (by norm_num)
      have h8 : beValue ((m.drop (8 * numBytes)).take 32) < pmod := by
        simpa [numBytes] using hlt 8 (by norm_num)
      have h9 : beValue ((m.drop (9 * numBytes)).take 32) < pmod := by
        simpa [numBytes] using hlt 9 (by norm_num)
      have h10 : ¬ beValue ((m.drop (10 * numBytes)).take 32) < pmod := by
        have := hge
        simp only [numBytes] at *
        norm_num at this ⊢
        exact this
      simp only [GT.Unmarshal, hl, if_false, gfP_Unmarshal_ok _ _ h0, gfP_Unmarshal_ok _ _ h1, gfP_Unmarshal_ok _ _ h2, gfP_Unmarshal_ok _ _ h3, gfP_Unmarshal_ok _ _ h4, gfP_Unmarshal_ok _ _ h5, gfP_Unmarshal_ok _ _ h6, gfP_Unmarshal_ok _ _ h7, gfP_Unmarshal_ok _ _ h8, gfP_Unmarshal_ok _ _ h9, gfP_Unmarshal_error _ _ h10]
      refine ⟨_, rfl, trivial, ?_⟩
      intro i hi
      interval_cases i <;> simp [gfP12.coords, numBytes]
      cases e.p <;> rfl
    · -- the value of index 11 is rejected
      have h0 : beValue (m.take 32) < pmod := by
        simpa [numBytes] using hlt 0 (by norm_num)
      have h1 : beValue ((m.drop (numBytes)).take 32) < pmod := by
        simpa [numBytes] using hlt 1 (by norm_num)
      have h2 : beValue ((m.drop (2 * numBytes)).take 32) < pmod := by
        simpa [numBytes] using hlt 2 (by norm_num)
      have h3 : beValue ((m.drop (3 * numBytes)).take 32) < pmod := by
        simpa [numBytes] using hlt 3 (by norm_num)
      have h4 : beValue ((m.drop (4 * numBytes)).take 32) < pmod := by
        simpa [numBytes] using hlt 4 (by norm_num)
      have h5 : beValue ((m.drop (5 * numBytes)).take 32) < pmod := by
        simpa [numBytes] using hlt 5 (by norm_num)
      have h6 : beValue ((m.drop (6 * numBytes)).take 32) < pmod := by
        simpa [numBytes] using hlt 6 (by norm_num)
      have h7 : beValue ((m.drop (7 * numBytes)).take 32) < pmod := by
        simpa [numBytes] using hlt 7 (by norm_num)
      have h8 : beValue ((m.drop (8 * numBytes)).take 32) < pmod := by
        simpa [numBytes] using hlt 8 (by norm_num)
      have h9 : beValue ((m.drop (9 * numBytes)).take 32) < pmod := by
        simpa [numBytes] using hlt 9 (by norm_num)
      have h10 : beValue ((m.drop (10 * numBytes)).take 32) < pmod := by
        simpa [numBytes] using hlt 10 (by norm_num)
      have h11 : ¬ beValue ((m.drop (11 * numBytes)).take 32) < pmod := by
        have := hge
        simp only [numBytes] at *
        norm_num at this ⊢
        exact this
      simp only [GT.Unmarshal, hl, if_false, gfP_Unmarshal_ok _ _ h0, gfP_Unmarshal_ok _ _ h1, gfP_Unmarshal_ok _ _ h2, gfP_Unmarshal_ok _ _ h3, gfP_Unmarshal_ok _ _ h4, gfP_Unmarshal_ok _ _ h5, gfP_Unmarshal_ok _ _ h6, gfP_Unmarshal_ok _ _ h7, gfP_Unmarshal_ok _ _ h8, gfP_Unmarshal_ok _ _ h9, gfP_Unmarshal_ok _ _ h10, gfP_Unmarshal_error _ _ h11]
      refine ⟨_, rfl, trivial, ?_⟩
      intro i hi
      interval_cases i <;> simp [gfP12.coords, numBytes]

/-! ## XTS: bytes and tweaks -/

theorem toNat_lt_256 (a : UInt8) : a.toNat < 256 := UInt8.toNat_lt a

theorem ofNat_toNat_byte (a : UInt8) : UInt8.ofNat a.toNat = a := by
  cases a with
  | mk v =>
    apply UInt8.eq_of_val_eq
    simp [UInt8.ofNat, UInt8.toNat]

theorem xorByte_cancel (a t : UInt8) : xorByte (xorByte a t) t = a := by
  have ha := toNat_lt_256 a
  have ht := toNat_lt_256 t
  have hx : a.toNat ^^^ t.toNat < 256 := Nat.xor_lt_two_pow (n := 8) ha ht
  have h1 : (UInt8.ofNat (a.toNat ^^^ t.toNat)).toNat = a.toNat ^^^ t.toNat :=
    toNat_ofNat_lt _ hx
  unfold xorByte
  rw [h1, Nat.xor_assoc, Nat.xor_self, Nat.xor_zero]
  exact ofNat_toNat_byte a

theorem xorBytes_length (a b : List UInt8) :
    (xorBytes a b).length = min a.length b.length := by
  simp [xorBytes]

theorem xorBytes_cancel (a t : List UInt8) (h : a.length ≤ t.length) :
    xorBytes (xorBytes a t) t = a := by
  induction a generalizing t with
  | nil => simp [xorBytes]
  | cons x xs ih =>
    cases t with
    | nil => simp at h
    | cons y ys =>
      simp only [List.length_cons, Nat.add_le_add_iff_right] at h
      have := ih ys h
      simp only [xorBytes, List.zipWith_cons_cons, xorByte_cancel, List.cons.injEq, true_and]
        at this ⊢
      exact this

theorem shiftLeft1_length (l : List UInt8) (c : Nat) : (shiftLeft1 l c).1.length = l.length := by
  induction l generalizing c with
  | nil => rfl
  | cons b rest ih => simp [shiftLeft1, ih]

theorem shiftRight1_length (l : List UInt8) (c : Nat) :
    (shiftRight1 l c).1.length = l.length := by
  induction l generalizing c with
  | nil => rfl
  | cons b rest ih => simp [shiftRight1, ih]

theorem mul2_length (t : List UInt8) : (mul2 t).length = t.length := by
  unfold mul2
  have h := shiftLeft1_length t 0
  cases hs : shiftLeft1 t 0 with
  | mk out carry =>
    rw [hs] at h
    cases out with
    | nil => simpa using h
    | cons b0 rest =>
      simp only
      split_ifs <;> simpa using h

theorem mul2GB_length (t : List UInt8) : (mul2GB t).length = t.length := by
  unfold mul2GB
  have h := shiftRight1_length t 0
  cases hs : shiftRight1 t 0 with
  | mk out carry =>
    rw [hs] at h
    cases out with
    | nil => simpa using h
    | cons b0 rest =>
      simp only
      split_ifs <;> simpa using h

theorem advance_length (x : xts) (t : List UInt8) : (x.advance t).length = t.length := by
  unfold xts.advance
  split_ifs
  · exact mul2GB_length t
  · exact mul2_length t

theorem iterate_length (adv : List UInt8 → List UInt8)
    (hadv : ∀ t, (adv t).length = t.length) (n : Nat) (t : List UInt8) :
    (adv^[n] t).length = t.length := by
  induction n generalizing t with
  | zero => rfl
  | succ n ih => rw [Function.iterate_succ_apply, ih, hadv]

theorem leBytes_length (n v : Nat) : (leBytes n v).length = n := by
  induction n generalizing v with
  | zero => rfl
  | succ n ih => simp [leBytes, ih]

/-! ## XTS: one block -/

theorem xtsBlock_length (f : List UInt8 → List UInt8)
    (hf : ∀ b : List UInt8, b.length = 16 → (f b).length = 16) (T P : List UInt8)
    (hT : T.length = 16) (hP : P.length = 16) : (xtsBlock f T P).length = 16 := by
  unfold xtsBlock
  have h1 : (xorBytes P T).length = 16 := by rw [xorBytes_length, hT, hP]; rfl
  rw [xorBytes_length, hf _ h1, hT]
  rfl

theorem xtsBlock_inv (c : Block) (hc : c.IsCipher) (T P : List UInt8)
    (hT : T.length = 16) (hP : P.length = 16) :
    xtsBlock c.Decrypt T (xtsBlock c.Encrypt T P) = P := by
  unfold xtsBlock
  have h1 : (xorBytes P T).length = 16 := by rw [xorBytes_length, hT, hP]; rfl
  have h2 : (c.Encrypt (xorBytes P T)).length = 16 := hc.encrypt_length _ h1
  rw [xorBytes_cancel _ _ (by rw [h2, hT]), hc.decrypt_encrypt _ h1,
    xorBytes_cancel _ _ (by rw [hP, hT])]

/-! ## XTS: full blocks -/

theorem block16_zero_append (c rest : List UInt8) (hc : c.length = 16) :
    block16 (c ++ rest) 0 = c := by
  unfold block16
  rw [Nat.mul_zero, List.drop_zero, ← hc, List.take_left]

theorem block16_succ_append (c rest : List UInt8) (hc : c.length = 16) (i : Nat) :
    block16 (c ++ rest) (i + 1) = block16 rest i := by
  unfold block16
  have : 16 * (i + 1) = c.length + 16 * i := by rw [hc]; ring
  rw [this, List.drop_append]

theorem block16_drop (src : List UInt8) (i : Nat) :
    block16 (src.drop 16) i = block16 src (i + 1) := by
  unfold block16
  rw [List.drop_drop]
  congr 2
  ring

theorem cryptFull_tweak (f adv : List UInt8 → List UInt8) (T src : List UInt8) (n : Nat) :
    (cryptFull f adv T src n).2 = adv^[n] T := by
  induction n generalizing T src with
  | zero => rfl
  | succ n ih =>
    simp only [cryptFull, Function.iterate_succ_apply]
    exact ih (adv T) (src.drop 16)

theorem cryptFull_length (f adv : List UInt8 → List UInt8)
    (hf : ∀ b : List UInt8, b.length = 16 → (f b).length = 16)
    (hadv : ∀ t, (adv t).length = t.length) (T src : List UInt8) (n : Nat)
    (hT : T.length = 16) (hsrc : 16 * n ≤ src.length) :
    (cryptFull f adv T src n).1.length = 16 * n := by
  induction n generalizing T src with
  | zero => rfl
  | succ n ih =>
    have hP : (src.take 16).length = 16 := by rw [List.length_take]; omega
    have ih' := ih (adv T) (src.drop 16) (by rw [hadv, hT]) (by rw [List.length_drop]; omega)
    simp only [cryptFull, List.length_append, xtsBlock_length f hf T _ hT hP, ih']
    ring

theorem cryptFull_block (f adv : List UInt8 → List UInt8)
    (hf : ∀ b : List UInt8, b.length = 16 → (f b).length = 16)
    (hadv : ∀ t, (adv t).length = t.length) (T src : List UInt8) (n i : Nat)
    (hT : T.length = 16) (hsrc : 16 * n ≤ src.length) (hi : i < n) :
    block16 (cryptFull f adv T src n).1 i = xtsBlock f (adv^[i] T) (block16 src i) := by
  induction n generalizing T src i with
  | zero => omega
  | succ n ih =>
    have hP : (src.take 16).length = 16 := by rw [List.length_take]; omega
    have hc := xtsBlock_length f hf T _ hT hP
    simp only [cryptFull]
    cases i with
    | zero =>
      rw [block16_zero_append _ _ hc]
      simp [block16]
    | succ j =>
      rw [block16_succ_append _ _ hc, Function.iterate_succ_apply, ← block16_drop]
      exact ih (adv T) (src.drop 16) j (by rw [hadv, hT]) (by rw [List.length_drop]; omega)
        (by omega)

theorem cryptFull_take (f adv : List UInt8 → List UInt8) (T src : List UInt8) (n : Nat) :
    cryptFull f adv T (src.take (16 * n)) n = cryptFull f adv T src n := by
  induction n generalizing T src with
  | zero => rfl
  | succ n ih =>
    simp only [cryptFull]
    have h1 : (src.take (16 * (n + 1))).take 16 = src.take 16 := by
      rw [List.take_take]
      congr 1
      exact Nat.min_eq_left (by omega)
    have h2 : (src.take (16 * (n + 1))).drop 16 = (src.drop 16).take (16 * n) := by
      rw [List.drop_take]
      congr 1
    rw [h1, h2, ih]

theorem cryptFull_inv (c : Block) (hc : c.IsCipher) (adv : List UInt8 → List UInt8)
    (hadv : ∀ t, (adv t).length = t.length) (T src : List UInt8) (n : Nat)
    (hT : T.length = 16) (hsrc : 16 * n ≤ src.length) :
    (cryptFull c.Decrypt adv T (cryptFull c.Encrypt adv T src n).1 n).1 = src.take (16 * n) := by
  induction n generalizing T src with
  | zero => simp [cryptFull]
  | succ n ih =>
    have hP : (src.take 16).length = 16 := by rw [List.length_take]; omega
    have hcl := xtsBlock_length c.Encrypt hc.encrypt_length T _ hT hP
    have ih' := ih (adv T) (src.drop 16) (by rw [hadv, hT]) (by rw [List.length_drop]; omega)
    simp only [cryptFull]
    have h1 : (xtsBlock c.Encrypt T (src.take 16) ++
        (cryptFull c.Encrypt adv (adv T) (src.drop 16) n).1).take 16
        = xtsBlock c.Encrypt T (src.take 16) := by
      exact List.take_left' hcl
    have h2 : (xtsBlock c.Encrypt T (src.take 16) ++
        (cryptFull c.Encrypt adv (adv T) (src.drop 16) n).1).drop 16
        = (cryptFull c.Encrypt adv (adv T) (src.drop 16) n).1 := by
      exact List.drop_left' hcl
    rw [h1, h2, ih', xtsBlock_inv c hc T _ hT hP]
    have h3 : 16 * (n + 1) = 16 + 16 * n := by ring
    rw [h3, List.take_add]

/-! ## XTS: the streaming core -/

theorem cryptFull_append (f adv : List UInt8 → List UInt8) (T A X : List UInt8) (m : Nat)
    (hA : A.length = 16 * m) : cryptFull f adv T (A ++ X) m = cryptFull f adv T A m := by
  rw [← cryptFull_take f adv T (A ++ X) m, List.take_left' hA]

theorem block16_append_right (A X : List UInt8) (m : Nat) (hA : A.length = 16 * m) :
    block16 (A ++ X) m = X.take 16 := by
  unfold block16
  rw [List.drop_left' hA]

theorem take_block16_drop (src : List UInt8) (m : Nat) :
    src.take (16 * m) ++ block16 src m ++ src.drop (16 * (m + 1)) = src := by
  unfold block16
  have h : 16 * (m + 1) = 16 * m + 16 := by ring
  rw [h, ← List.drop_drop, List.append_assoc, List.take_append_drop, List.take_append_drop]

theorem xtsEncrypt_full (k1 : Block) (adv : List UInt8 → List UInt8) (T0 src : List UInt8)
    (hr : src.length % 16 = 0) :
    xtsEncrypt k1 adv T0 src = (cryptFull k1.Encrypt adv T0 src (src.length / 16)).1 := by
  unfold xtsEncrypt
  simp only [hr, if_true]

theorem xtsDecrypt_full (k1 : Block) (adv : List UInt8 → List UInt8) (T0 src : List UInt8)
    (hr : src.length % 16 = 0) :
    xtsDecrypt k1 adv T0 src = (cryptFull k1.Decrypt adv T0 src (src.length / 16)).1 := by
  unfold xtsDecrypt
  simp only [hr, if_true]

theorem xtsEncrypt_stealing (k1 : Block) (adv : List UInt8 → List UInt8) (T0 src : List UInt8)
    (hr : src.length % 16 ≠ 0) :
    xtsEncrypt k1 adv T0 src =
      (cryptFull k1.Encrypt adv T0 src (src.length / 16 - 1)).1 ++
        xtsBlock k1.Encrypt (adv (adv^[src.length / 16 - 1] T0))
          (src.drop (16 * (src.length / 16)) ++
            (xtsBlock k1.Encrypt (adv^[src.length / 16 - 1] T0)
              (block16 src (src.length / 16 - 1))).drop (src.length % 16)) ++
        (xtsBlock k1.Encrypt (adv^[src.length / 16 - 1] T0)
          (block16 src (src.length / 16 - 1))).take (src.length % 16) := by
  unfold xtsEncrypt
  simp only [hr, if_false]
  have ht := cryptFull_tweak k1.Encrypt adv T0 src (src.length / 16 - 1)
  cases h : cryptFull k1.Encrypt adv T0 src (src.length / 16 - 1) with
  | mk out T =>
    rw [h] at ht
    simp only at ht
    subst ht
    rfl

theorem xtsDecrypt_stealing (k1 : Block) (adv : List UInt8 → List UInt8) (T0 src : List UInt8)
    (hr : src.length % 16 ≠ 0) :
    xtsDecrypt k1 adv T0 src =
      (cryptFull k1.Decrypt adv T0 src (src.length / 16 - 1)).1 ++
        xtsBlock k1.Decrypt (adv^[src.length / 16 - 1] T0)
          (src.drop (16 * (src.length / 16)) ++
            (xtsBlock k1.Decrypt (adv (adv^[src.length / 16 - 1] T0))
              (block16 src (src.length / 16 - 1))).drop (src.length % 16)) ++
        (xtsBlock k1.Decrypt (adv (adv^[src.length / 16 - 1] T0))
          (block16 src (src.length / 16 - 1))).take (src.length % 16) := by
  unfold xtsDecrypt
  simp only [hr, if_false]
  have ht := cryptFull_tweak k1.Decrypt adv T0 src (src.length / 16 - 1)
  cases h : cryptFull k1.Decrypt adv T0 src (src.length / 16 - 1) with
  | mk out T =>
    rw [h] at ht
    simp only at ht
    subst ht
    rfl

theorem block16_length (src : List UInt8) (i : Nat) (h : 16 * (i + 1) ≤ src.length) :
    (block16 src i).length = 16 := by
  unfold block16
  rw [List.length_take, List.length_drop]
  omega

theorem xtsEncrypt_length (k1 : Block) (hc : k1.IsCipher) (adv : List UInt8 → List UInt8)
    (hadv : ∀ t, (adv t).length = t.length) (T0 src : List UInt8) (hT : T0.length = 16)
    (hL : 16 ≤ src.length) : (xtsEncrypt k1 adv T0 src).length = src.length := by
  by_cases hr : src.length % 16 = 0
  · rw [xtsEncrypt_full k1 adv T0 src hr,
      cryptFull_length _ adv hc.encrypt_length hadv T0 src _ hT (Nat.mul_div_le _ _)]
    omega
  · rw [xtsEncrypt_stealing k1 adv T0 src hr]
    have hn : 1 ≤ src.length / 16 := by omega
    have hT1 : (adv^[src.length / 16 - 1] T0).length = 16 := by
      rw [iterate_length adv hadv, hT]
    have hB : (block16 src (src.length / 16 - 1)).length = 16 :=
      block16_length _ _ (by omega)
    have hCC := xtsBlock_length k1.Encrypt hc.encrypt_length _ _ hT1 hB
    have hPP : (src.drop (16 * (src.length / 16)) ++
        (xtsBlock k1.Encrypt (adv^[src.length / 16 - 1] T0)
          (block16 src (src.length / 16 - 1))).drop (src.length % 16)).length = 16 := by
      rw [List.length_append, List.length_drop, List.length_drop, hCC]
      omega
    have hC := xtsBlock_length k1.Encrypt hc.encrypt_length _ _
      (show (adv (adv^[src.length / 16 - 1] T0)).length = 16 by rw [hadv, hT1]) hPP
    rw [List.length_append, List.length_append, hC, List.length_take, hCC,
      cryptFull_length _ adv hc.encrypt_length hadv T0 src _ hT (by omega)]
    omega

theorem xtsDecrypt_xtsEncrypt (k1 : Block) (hc : k1.IsCipher) (adv : List UInt8 → List UInt8)
    (hadv : ∀ t, (adv t).length = t.length) (T0 src : List UInt8) (hT : T0.length = 16)
    (hL : 16 ≤ src.length) : xtsDecrypt k1 adv T0 (xtsEncrypt k1 adv T0 src) = src := by
  have hlen := xtsEncrypt_length k1 hc adv hadv T0 src hT hL
  by_cases hr : src.length % 16 = 0
  · rw [xtsDecrypt_full k1 adv T0 _ (by rw [hlen]; exact hr), hlen,
      xtsEncrypt_full k1 adv T0 src hr,
      cryptFull_inv k1 hc adv hadv T0 src _ hT (Nat.mul_div_le _ _)]
    apply List.take_of_length_le
    omega
  · rw [xtsDecrypt_stealing k1 adv T0 _ (by rw [hlen]; exact hr), hlen,
      xtsEncrypt_stealing k1 adv T0 src hr]
    have hn : 1 ≤ src.length / 16 := by omega
    have hT1 : (adv^[src.length / 16 - 1] T0).length = 16 := by
      rw [iterate_length adv hadv, hT]
    have hTn : (adv (adv^[src.length / 16 - 1] T0)).length = 16 := by rw [hadv, hT1]
    have hB : (block16 src (src.length / 16 - 1)).length = 16 :=
      block16_length _ _ (by omega)
    have hCC := xtsBlock_length k1.Encrypt hc.encrypt_length _ _ hT1 hB
    have hA := cryptFull_length _ adv hc.encrypt_length hadv T0 src (src.length / 16 - 1) hT
      (by omega)
    generalize hCCd : xtsBlock k1.Encrypt (adv^[src.length / 16 - 1] T0)
      (block16 src (src.length / 16 - 1)) = CC at hCC ⊢
    have htail : (src.drop (16 * (src.length / 16))).length = src.length % 16 := by
      rw [List.length_drop]
      omega
    have hPP : (src.drop (16 * (src.length / 16)) ++ CC.drop (src.length % 16)).length
        = 16 := by
      rw [List.length_append, htail, List.length_drop, hCC]
      omega
    generalize hPPd : src.drop (16 * (src.length / 16)) ++ CC.drop (src.length % 16) = PP
      at hPP ⊢
    have hC := xtsBlock_length k1.Encrypt hc.encrypt_length _ _ hTn hPP
    generalize hAd : (cryptFull k1.Encrypt adv T0 src (src.length / 16 - 1)).1 = A at hA ⊢
    have e1 : cryptFull k1.Decrypt adv T0
        (A ++ xtsBlock k1.Encrypt (adv (adv^[src.length / 16 - 1] T0)) PP ++
          CC.take (src.length % 16)) (src.length / 16 - 1)
        = cryptFull k1.Decrypt adv T0 A (src.length / 16 - 1) := by
      rw [List.append_assoc]
      exact cryptFull_append _ _ _ _ _ _ hA
    have e2 : block16 (A ++ xtsBlock k1.Encrypt (adv (adv^[src.length / 16 - 1] T0)) PP ++
        CC.take (src.length % 16)) (src.length / 16 - 1)
        = xtsBlock k1.Encrypt (adv (adv^[src.length / 16 - 1] T0)) PP := by
      rw [List.append_assoc, block16_append_right _ _ _ hA]
      exact List.take_left' hC
    have e3 : (A ++ xtsBlock k1.Encrypt (adv (adv^[src.length / 16 - 1] T0)) PP ++
        CC.take (src.length % 16)).drop (16 * (src.length / 16))
        = CC.take (src.length % 16) := by
      apply List.drop_left'
      rw [List.length_append, hA, hC]
      omega
    rw [e1, e2, e3, xtsBlock_inv k1 hc _ PP hTn hPP, ← hAd,
      cryptFull_inv k1 hc adv hadv T0 src _ hT (by omega)]
    have e4 : PP.drop (src.length % 16) = CC.drop (src.length % 16) := by
      rw [← hPPd]
      exact List.drop_left' htail
    have e5 : PP.take (src.length % 16) = src.drop (16 * (src.length / 16)) := by
      rw [← hPPd]
      exact List.take_left' htail
    rw [e4, e5, List.take_append_drop, ← hCCd, xtsBlock_inv k1 hc _ _ hT1 hB]
    have e6 := take_block16_drop src (src.length / 16 - 1)
    have e7 : src.length / 16 - 1 + 1 = src.length / 16 := by omega
    rw [e7] at e6
    exact e6

/-! ## SM4: decryption inverts encryption -/

theorem beValue_lt (l : List UInt8) : beValue l < 256 ^ l.length := by
  induction l using List.reverseRecOn with
  | nil => simp [beValue]
  | append_singleton bs b ih =>
    rw [beValue_append_singleton, List.length_append, List.length_singleton, pow_succ]
    have hb := toNat_lt_256 b
    nlinarith

theorem beBytes_beValue (l : List UInt8) : beBytes l.length (beValue l) = l := by
  induction l using List.reverseRecOn with
  | nil => rfl
  | append_singleton bs b ih =>
    have hb := toNat_lt_256 b
    rw [beValue_append_singleton, List.length_append, List.length_singleton, beBytes]
    have h1 : (beValue bs * 256 + b.toNat) / 256 = beValue bs := by omega
    have h2 : (beValue bs * 256 + b.toNat) % 256 = b.toNat := by omega
    rw [h1, h2, ih, ofNat_toNat_byte]

theorem sm4Rounds_eq (rk : List Nat) (x0 x1 x2 x3 : Nat) :
    sm4Rounds rk x0 x1 x2 x3 =
      beBytes 4 (sm4State rk (x0, x1, x2, x3)).2.2.2 ++
        beBytes 4 (sm4State rk (x0, x1, x2, x3)).2.2.1 ++
        beBytes 4 (sm4State rk (x0, x1, x2, x3)).2.1 ++
        beBytes 4 (sm4State rk (x0, x1, x2, x3)).1 := by
  induction rk generalizing x0 x1 x2 x3 with
  | nil => rfl
  | cons r rs ih => simp only [sm4Rounds, sm4State, ih]

theorem sm4State_append (rs : List Nat) (r : Nat) (s : Nat × Nat × Nat × Nat) :
    sm4State (rs ++ [r]) s = sm4State [r] (sm4State rs s) := by
  induction rs generalizing s with
  | nil => rfl
  | cons a rs ih =>
    obtain ⟨x0, x1, x2, x3⟩ := s
    exact ih (x1, x2, x3, x0 ^^^ sm4L (sm4Tau (x1 ^^^ x2 ^^^ x3 ^^^ a)))

theorem sm4State_reverse (rk : List Nat) (x0 x1 x2 x3 : Nat) :
    sm4State rk.reverse ((sm4State rk (x0, x1, x2, x3)).2.2.2,
      (sm4State rk (x0, x1, x2, x3)).2.2.1, (sm4State rk (x0, x1, x2, x3)).2.1,
      (sm4State rk (x0, x1, x2, x3)).1) = (x3, x2, x1, x0) := by
  induction rk generalizing x0 x1 x2 x3 with
  | nil => rfl
  | cons r rs ih =>
    rw [List.reverse_cons, sm4State_append]
    simp only [sm4State]
    rw [ih]
    simp only [sm4State]
    have h : x3 ^^^ x2 ^^^ x1 = x1 ^^^ x2 ^^^ x3 := by
      rw [Nat.xor_comm (x3 ^^^ x2) x1, Nat.xor_comm x3 x2, Nat.xor_assoc]
    rw [h, Nat.xor_assoc, Nat.xor_self, Nat.xor_zero]

set_option maxRecDepth 100000 in
theorem sm4Sbox_lt (i : Nat) : sm4Sbox.getD i 0 < 256 := by
  have hall : ∀ x ∈ sm4Sbox, x < 256 := by decide
  rw [List.getD_eq_getElem?_getD]
  cases h : sm4Sbox[i]? with
  | none => simp
  | some v =>
    simp only [Option.getD_some]
    exact hall v (List.getElem?_mem h)

theorem sm4Tau_lt (a : Nat) : sm4Tau a < 2 ^ 32 := by
  unfold sm4Tau
  have h1 := sm4Sbox_lt ((a >>> 24) % 256)
  have h2 := sm4Sbox_lt ((a >>> 16) % 256)
  have h3 := sm4Sbox_lt ((a >>> 8) % 256)
  have h4 := sm4Sbox_lt (a % 256)
  refine Nat.or_lt_two_pow (Nat.or_lt_two_pow (Nat.or_lt_two_pow ?_ ?_) ?_) ?_
  · rw [Nat.shiftLeft_eq]; omega
  · rw [Nat.shiftLeft_eq]; omega
  · rw [Nat.shiftLeft_eq]; omega
  · omega

theorem rotl32_lt (x n : Nat) : rotl32 x n < 2 ^ 32 := Nat.mod_lt _ (by norm_num)

theorem sm4L_lt (b : Nat) (hb : b < 2 ^ 32) : sm4L b < 2 ^ 32 := by
  unfold sm4L
  exact Nat.xor_lt_two_pow (Nat.xor_lt_two_pow (Nat.xor_lt_two_pow
    (Nat.xor_lt_two_pow hb (rotl32_lt _ _)) (rotl32_lt _ _)) (rotl32_lt _ _)) (rotl32_lt _ _)

theorem sm4State_lt (rk : List Nat) (x0 x1 x2 x3 : Nat) (h0 : x0 < 2 ^ 32) (h1 : x1 < 2 ^ 32)
    (h2 : x2 < 2 ^ 32) (h3 : x3 < 2 ^ 32) :
    (sm4State rk (x0, x1, x2, x3)).1 < 2 ^ 32 ∧ (sm4State rk (x0, x1, x2, x3)).2.1 < 2 ^ 32 ∧
      (sm4State rk (x0, x1, x2, x3)).2.2.1 < 2 ^ 32 ∧
      (sm4State rk (x0, x1, x2, x3)).2.2.2 < 2 ^ 32 := by
  induction rk generalizing x0 x1 x2 x3 with
  | nil => exact ⟨h0, h1, h2, h3⟩
  | cons r rs ih =>
    simp only [sm4State]
    exact ih _ _ _ _ h1 h2 h3 (Nat.xor_lt_two_pow h0 (sm4L_lt _ (sm4Tau_lt _)))

theorem sm4Crypt_length (rk : List Nat) (b : List UInt8) : (sm4Crypt rk b).length = 16 := by
  unfold sm4Crypt
  rw [sm4Rounds_eq]
  simp [beBytes_length]

theorem word_lt (b : List UInt8) (i : Nat) : beValue ((b.drop i).take 4) < 2 ^ 32 := by
  have h := beValue_lt ((b.drop i).take 4)
  have hl : ((b.drop i).take 4).length ≤ 4 := by
    rw [List.length_take]
    omega
  calc beValue ((b.drop i).take 4) < 256 ^ ((b.drop i).take 4).length := h
    _ ≤ 256 ^ 4 := Nat.pow_le_pow_right (by norm_num) hl
    _ = 2 ^ 32 := by norm_num

theorem beValue_beBytes_word (v : Nat) (h : v < 2 ^ 32) : beValue (beBytes 4 v) = v := by
  rw [beValue_beBytes]
  exact Nat.mod_eq_of_lt (by norm_num at h ⊢; exact h)

theorem words_of_append (a b c d : List UInt8) (ha : a.length = 4) (hb : b.length = 4)
    (hc : c.length = 4) (hd : d.length = 4) :
    (((a ++ b ++ c ++ d).drop 0).take 4 = a) ∧ (((a ++ b ++ c ++ d).drop 4).take 4 = b) ∧
      (((a ++ b ++ c ++ d).drop 8).take 4 = c) ∧ (((a ++ b ++ c ++ d).drop 12).take 4 = d) := by
  refine ⟨?_, ?_, ?_, ?_⟩
  · rw [List.drop_zero, List.append_assoc, List.append_assoc]
    exact List.take_left' ha
  · rw [List.append_assoc, List.append_assoc, List.drop_left' ha]
    exact List.take_left' hb
  · rw [List.append_assoc, List.drop_left' (by rw [List.length_append, ha, hb])]
    exact List.take_left' hc
  · rw [List.drop_left' (by rw [List.length_append, List.length_append, ha, hb, hc])]
    exact List.take_of_length_le (by omega)

theorem block_words (b : List UInt8) (hb : b.length = 16) :
    (b.drop 0).take 4 ++ (b.drop 4).take 4 ++ (b.drop 8).take 4 ++ (b.drop 12).take 4 = b := by
  have e1 : b.drop 4 = (b.drop 0).drop 4 := by rw [List.drop_drop]
  have e2 : b.drop 8 = (b.drop 4).drop 4 := by rw [List.drop_drop]
  have e3 : b.drop 12 = (b.drop 8).drop 4 := by rw [List.drop_drop]
  have e4 : (b.drop 12).take 4 = b.drop 12 :=
    List.take_of_length_le (by rw [List.length_drop]; omega)
  rw [e4, List.append_assoc, List.append_assoc]
  conv_lhs => rw [e3, List.take_append_drop, e2, List.take_append_drop, e1,
    List.take_append_drop, List.drop_zero]

theorem sm4Crypt_reverse (rk : List Nat) (b : List UInt8) (hb : b.length = 16) :
    sm4Crypt rk.reverse (sm4Crypt rk b) = b := by
  have hlt := sm4State_lt rk _ _ _ _ (word_lt b 0) (word_lt b 4) (word_lt b 8) (word_lt b 12)
  obtain ⟨l0, l1, l2, l3⟩ := hlt
  have hw := words_of_append
    (beBytes 4 (sm4State rk (beValue ((b.drop 0).take 4), beValue ((b.drop 4).take 4),
      beValue ((b.drop 8).take 4), beValue ((b.drop 12).take 4))).2.2.2)
    (beBytes 4 (sm4State rk (beValue ((b.drop 0).take 4), beValue ((b.drop 4).take 4),
      beValue ((b.drop 8).take 4), beValue ((b.drop 12).take 4))).2.2.1)
    (beBytes 4 (sm4State rk (beValue ((b.drop 0).take 4), beValue ((b.drop 4).take 4),
      beValue ((b.drop 8).take 4), beValue ((b.drop 12).take 4))).2.1)
    (beBytes 4 (sm4State rk (beValue ((b.drop 0).take 4), beValue ((b.drop 4).take 4),
      beValue ((b.drop 8).take 4), beValue ((b.drop 12).take 4))).1)
    (beBytes_length _ _) (beBytes_length _ _) (beBytes_length _ _) (beBytes_length _ _)
  obtain ⟨w0, w1, w2, w3⟩ := hw
  have hlen : ∀ i, i + 4 ≤ 16 → ((b.drop i).take 4).length = 4 := by
    intro i hi
    rw [List.length_take, List.length_drop]
    omega
  have hv : ∀ i, i + 4 ≤ 16 →
      beBytes 4 (beValue ((b.drop i).take 4)) = (b.drop i).take 4 := by
    intro i hi
    have := beBytes_beValue ((b.drop i).take 4)
    rwa [hlen i hi] at this
  unfold sm4Crypt
  rw [sm4Rounds_eq rk, w0, w1, w2, w3, beValue_beBytes_word _ l0, beValue_beBytes_word _ l1,
    beValue_beBytes_word _ l2, beValue_beBytes_word _ l3, sm4Rounds_eq, sm4State_reverse]
  simp only
  rw [hv 0 (by omega), hv 4 (by omega), hv 8 (by omega), hv 12 (by omega)]
  exact block_words b hb

theorem sm4NewCipher_isCipher (key : List UInt8) (c : Block) (h : sm4NewCipher key = .ok c) :
    c.IsCipher := by
  unfold sm4NewCipher at h
  split_ifs at h
  simp only [Except.ok.injEq] at h
  subst h
  exact ⟨fun b _ => sm4Crypt_length _ b, fun b _ => sm4Crypt_length _ b,
    fun b hb => sm4Crypt_reverse _ b hb⟩

/-! ## XTS: layout of the output -/

theorem block16_append_left (A X : List UInt8) (i : Nat) (h : 16 * (i + 1) ≤ A.length) :
    block16 (A ++ X) i = block16 A i := by
  unfold block16
  rw [List.drop_append_of_le_length (by omega), List.take_append_of_le_length]
  rw [List.length_drop]
  omega

theorem xtsEncrypt_full_block (k1 : Block) (hc : k1.IsCipher) (adv : List UInt8 → List UInt8)
    (hadv : ∀ t, (adv t).length = t.length) (T0 src : List UInt8) (hT : T0.length = 16)
    (hr : src.length % 16 = 0) (i : Nat) (hi : i < src.length / 16) :
    block16 (xtsEncrypt k1 adv T0 src) i = xtsBlock k1.Encrypt (adv^[i] T0) (block16 src i) := by
  rw [xtsEncrypt_full k1 adv T0 src hr]
  exact cryptFull_block _ adv hc.encrypt_length hadv T0 src _ i hT (Nat.mul_div_le _ _) hi

theorem xtsEncrypt_stealing_layout (k1 : Block) (hc : k1.IsCipher)
    (adv : List UInt8 → List UInt8) (hadv : ∀ t, (adv t).length = t.length)
    (T0 src : List UInt8) (hT : T0.length = 16) (hL : 16 ≤ src.length)
    (hr : src.length % 16 ≠ 0) :
    (∀ i, i + 1 < src.length / 16 →
      block16 (xtsEncrypt k1 adv T0 src) i
        = xtsBlock k1.Encrypt (adv^[i] T0) (block16 src i)) ∧
    block16 (xtsEncrypt k1 adv T0 src) (src.length / 16 - 1)
      = xtsBlock k1.Encrypt (adv^[src.length / 16] T0)
          (src.drop (16 * (src.length / 16)) ++
            (xtsBlock k1.Encrypt (adv^[src.length / 16 - 1] T0)
              (block16 src (src.length / 16 - 1))).drop (src.length % 16)) ∧
    (xtsEncrypt k1 adv T0 src).drop (16 * (src.length / 16))
      = (xtsBlock k1.Encrypt (adv^[src.length / 16 - 1] T0)
          (block16 src (src.length / 16 - 1))).take (src.length % 16) := by
  have hn : 1 ≤ src.length / 16 := by omega
  have hT1 : (adv^[src.length / 16 - 1] T0).length = 16 := by
    rw [iterate_length adv hadv, hT]
  have hTn : (adv (adv^[src.length / 16 - 1] T0)).length = 16 := by rw [hadv, hT1]
  have hB : (block16 src (src.length / 16 - 1)).length = 16 :=
    block16_length _ _ (by omega)
  have hCC := xtsBlock_length k1.Encrypt hc.encrypt_length _ _ hT1 hB
  have hA := cryptFull_length _ adv hc.encrypt_length hadv T0 src (src.length / 16 - 1) hT
    (by omega)
  have hPP : (src.drop (16 * (src.length / 16)) ++
      (xtsBlock k1.Encrypt (adv^[src.length / 16 - 1] T0)
        (block16 src (src.length / 16 - 1))).drop (src.length % 16)).length = 16 := by
    rw [List.length_append, List.length_drop, List.length_drop, hCC]
    omega
  have hC := xtsBlock_length k1.Encrypt hc.encrypt_length _ _ hTn hPP
  have hit : adv^[src.length / 16] T0 = adv (adv^[src.length / 16 - 1] T0) := by
    rw [← Function.iterate_succ_apply' adv]
    congr 1
    omega
  rw [xtsEncrypt_stealing k1 adv T0 src hr, hit]
  refine ⟨?_, ?_, ?_⟩
  · intro i hi
    rw [List.append_assoc, block16_append_left _ _ i (by rw [hA]; omega)]
    exact cryptFull_block _ adv hc.encrypt_length hadv T0 src _ i hT (by omega) (by omega)
  · rw [List.append_assoc, block16_append_right _ _ _ hA]
    exact List.take_left' hC
  · apply List.drop_left'
    rw [List.length_append, hA, hC]
    omega

theorem CryptBlocks_encrypt (x : xts) (hx : x.decrypt = false) (src : List UInt8)
    (hL : 16 ≤ src.length) :
    x.CryptBlocks src = .ok (xtsEncrypt x.k1 x.advance x.tweak src) := by
  unfold xts.CryptBlocks
  rw [if_neg (by omega), hx]
  rfl

theorem CryptBlocks_decrypt (x : xts) (hx : x.decrypt = true) (src : List UInt8)
    (hL : 16 ≤ src.length) :
    x.CryptBlocks src = .ok (xtsDecrypt x.k1 x.advance x.tweak src) := by
  unfold xts.CryptBlocks
  rw [if_neg (by omega), hx]
  rfl

theorem newXTS_ok (cipherFunc : List UInt8 → Except String Block)
    (key tweakKey tweak : List UInt8) (isGB decrypt : Bool) (k1 k2 : Block)
    (hk1 : cipherFunc key = .ok k1) (hk2 : cipherFunc tweakKey = .ok k2) :
    newXTS cipherFunc key tweakKey tweak isGB decrypt
      = .ok { k1 := k1, k2 := k2, tweak := k2.Encrypt tweak, isGB := isGB,
              decrypt := decrypt } := by
  unfold newXTS
  rw [hk1, hk2]

theorem newXTS_roundTrip (cipherFunc : List UInt8 → Except String Block)
    (key tweakKey tweak : List UInt8) (isGB : Bool) (k1 k2 : Block)
    (hk1 : cipherFunc key = .ok k1) (hk2 : cipherFunc tweakKey = .ok k2)
    (hc1 : k1.IsCipher) (hc2 : k2.IsCipher) (htw : tweak.length = 16)
    (P : List UInt8) (hP : 16 ≤ P.length) :
    ∃ enc dec C, newXTS cipherFunc key tweakKey tweak isGB false = .ok enc ∧
      newXTS cipherFunc key tweakKey tweak isGB true = .ok dec ∧
      enc.CryptBlocks P = .ok C ∧ C.length = P.length ∧ dec.CryptBlocks C = .ok P := by
  have hT : (k2.Encrypt tweak).length = 16 := hc2.encrypt_length _ htw
  refine ⟨_, _, _, newXTS_ok _ _ _ _ _ _ k1 k2 hk1 hk2, newXTS_ok _ _ _ _ _ _ k1 k2 hk1 hk2,
    CryptBlocks_encrypt _ rfl P hP, ?_, ?_⟩
  · exact xtsEncrypt_length k1 hc1 _ (advance_length _) _ P hT hP
  · have hlen := xtsEncrypt_length k1 hc1
      (xts.advance { k1 := k1, k2 := k2, tweak := k2.Encrypt tweak, isGB := isGB,
                     decrypt := false }) (advance_length _) _ P hT hP
    rw [CryptBlocks_decrypt _ rfl _ (by rw [hlen]; exact hP)]
    exact congrArg Except.ok
      (xtsDecrypt_xtsEncrypt k1 hc1 _ (advance_length _) _ P hT hP)

/-! ## XTS: claims -/

/-- C17: for keys that the cipher constructor accepts, every tweak source (a sector number
for the P1619 constructors, 16 raw bytes for the GB/T 17964 constructors) and every plaintext
`P` of at least 16 bytes, the encrypter and the decrypter are constructed, the ciphertext has
the length of `P`, and the decrypter returns `P` on the ciphertext, for every length (a
multiple of 16 or not), given that `Decrypt` inverts `Encrypt` for both subciphers. -/
theorem xts_decrypt_encrypt (cipherFunc : List UInt8 → Except String Block)
    (key tweakKey : List UInt8) (k1 k2 : Block)
    (hk1 : cipherFunc key = .ok k1) (hk2 : cipherFunc tweakKey = .ok k2)
    (hc1 : k1.IsCipher) (hc2 : k2.IsCipher)
    (sector : Nat) (tweak : List UInt8) (htw : tweak.length = 16)
    (P : List UInt8) (hP : 16 ≤ P.length) :
    (∃ enc dec C, NewXTSEncrypterWithSector cipherFunc key tweakKey sector = .ok enc ∧
      NewXTSDecrypterWithSector cipherFunc key tweakKey sector = .ok dec ∧
      enc.CryptBlocks P = .ok C ∧ C.length = P.length ∧ dec.CryptBlocks C = .ok P) ∧
    (∃ enc dec C, NewGBXTSEncrypter cipherFunc key tweakKey tweak = .ok enc ∧
      NewGBXTSDecrypter cipherFunc key tweakKey tweak = .ok dec ∧
      enc.CryptBlocks P = .ok C ∧ C.length = P.length ∧ dec.CryptBlocks C = .ok P) :=
  ⟨newXTS_roundTrip cipherFunc key tweakKey _ false k1 k2 hk1 hk2 hc1 hc2
      (leBytes_length 16 _) P hP,
    newXTS_roundTrip cipherFunc key tweakKey tweak true k1 k2 hk1 hk2 hc1 hc2 htw P hP⟩

/-- The keys, the tweak and the plaintext of `xtsGBTestVectors` (56 bytes: three blocks and a
tail of 8 bytes), with SM4, and the sector number 94. -/
theorem xts_decrypt_encrypt_witness :
    (∃ enc dec C, NewXTSEncrypterWithSector sm4NewCipher
        (fromHex "2B7E151628AED2A6ABF7158809CF4F3C")
        (fromHex "000102030405060708090A0B0C0D0E0F") 94 = .ok enc ∧
      NewXTSDecrypterWithSector sm4NewCipher (fromHex "2B7E151628AED2A6ABF7158809CF4F3C")
        (fromHex "000102030405060708090A0B0C0D0E0F") 94 = .ok dec ∧
      enc.CryptBlocks (fromHex "6BC1BEE22E409F96E93D7E117393172AAE2D8A571E03AC9C9EB76FAC45AF8E5130C81C46A35CE411E5FBC1191A0A52EFF69F2445DF4F9B17")
        = .ok C ∧
      C.length = (fromHex "6BC1BEE22E409F96E93D7E117393172AAE2D8A571E03AC9C9EB76FAC45AF8E5130C81C46A35CE411E5FBC1191A0A52EFF69F2445DF4F9B17").length ∧
      dec.CryptBlocks C = .ok (fromHex "6BC1BEE22E409F96E93D7E117393172AAE2D8A571E03AC9C9EB76FAC45AF8E5130C81C46A35CE411E5FBC1191A0A52EFF69F2445DF4F9B17")) ∧
    (∃ enc dec C, NewGBXTSEncrypter sm4NewCipher (fromHex "2B7E151628AED2A6ABF7158809CF4F3C")
        (fromHex "000102030405060708090A0B0C0D0E0F")
        (fromHex "F0F1F2F3F4F5F6F7F8F9FAFBFCFDFEFF") = .ok enc ∧
      NewGBXTSDecrypter sm4NewCipher (fromHex "2B7E151628AED2A6ABF7158809CF4F3C")
        (fromHex "000102030405060708090A0B0C0D0E0F")
        (fromHex "F0F1F2F3F4F5F6F7F8F9FAFBFCFDFEFF") = .ok dec ∧
      enc.CryptBlocks (fromHex "6BC1BEE22E409F96E93D7E117393172AAE2D8A571E03AC9C9EB76FAC45AF8E5130C81C46A35CE411E5FBC1191A0A52EFF69F2445DF4F9B17")
        = .ok C ∧
      C.length = (fromHex "6BC1BEE22E409F96E93D7E117393172AAE2D8A571E03AC9C9EB76FAC45AF8E5130C81C46A35CE411E5FBC1191A0A52EFF69F2445DF4F9B17").length ∧
      dec.CryptBlocks C = .ok (fromHex "6BC1BEE22E409F96E93D7E117393172AAE2D8A571E03AC9C9EB76FAC45AF8E5130C81C46A35CE411E5FBC1191A0A52EFF69F2445DF4F9B17")) :=
  xts_decrypt_encrypt sm4NewCipher (fromHex "2B7E151628AED2A6ABF7158809CF4F3C")
    (fromHex "000102030405060708090A0B0C0D0E0F") _ _ rfl rfl
    (sm4NewCipher_isCipher (fromHex "2B7E151628AED2A6ABF7158809CF4F3C") _ rfl)
    (sm4NewCipher_isCipher (fromHex "000102030405060708090A0B0C0D0E0F") _ rfl) 94
    (fromHex "F0F1F2F3F4F5F6F7F8F9FAFBFCFDFEFF") (by decide)
    (fromHex "6BC1BEE22E409F96E93D7E117393172AAE2D8A571E03AC9C9EB76FAC45AF8E5130C81C46A35CE411E5FBC1191A0A52EFF69F2445DF4F9B17")
    (by decide)

set_option maxRecDepth 100000 in
/-- C18, counterexample: vector 0 of `xtsTestVectors`. Both halves of the key are sixteen zero
bytes, so `k1 = k2`; the encrypter and the decrypter are constructed, and they map the 32 zero
bytes to the ciphertext of the vector and back, as `TestXTS` demands. -/
theorem NewXTS_accepts_equal_keys :
    ∃ enc dec,
      NewXTSEncrypterWithSector sm4NewCipher (fromHex "00000000000000000000000000000000")
        (fromHex "00000000000000000000000000000000") 0 = .ok enc ∧
      NewXTSDecrypterWithSector sm4NewCipher (fromHex "00000000000000000000000000000000")
        (fromHex "00000000000000000000000000000000") 0 = .ok dec ∧
      enc.CryptBlocks
          (fromHex "0000000000000000000000000000000000000000000000000000000000000000")
        = .ok (fromHex "d9b421f731c894fdc35b77291fe4e3b02a1fb76698d59f0e51376c4ada5bc75d") ∧
      dec.CryptBlocks
          (fromHex "d9b421f731c894fdc35b77291fe4e3b02a1fb76698d59f0e51376c4ada5bc75d")
        = .ok (fromHex "0000000000000000000000000000000000000000000000000000000000000000") :=
  ⟨_, _, rfl, rfl, rfl, rfl⟩

/-- C18, amended: a key that the cipher constructor accepts may serve as both `k1` and `k2`.
Each of the four constructors then returns an XTS state, with both subciphers made from the
key and `T₀` the encryption of the tweak; no constructor returns `WeakXTSKey`. -/
theorem NewXTS_equal_keys_ok (cipherFunc : List UInt8 → Except String Block)
    (key : List UInt8) (k : Block) (hk : cipherFunc key = .ok k) (sector : Nat)
    (tweak : List UInt8) :
    NewXTSEncrypterWithSector cipherFunc key key sector
      = .ok { k1 := k, k2 := k, tweak := k.Encrypt (leBytes 16 (sector % 2 ^ 64)),
              isGB := false, decrypt := false } ∧
    NewXTSDecrypterWithSector cipherFunc key key sector
      = .ok { k1 := k, k2 := k, tweak := k.Encrypt (leBytes 16 (sector % 2 ^ 64)),
              isGB := false, decrypt := true } ∧
    NewGBXTSEncrypter cipherFunc key key tweak
      = .ok { k1 := k, k2 := k, tweak := k.Encrypt tweak, isGB := true, decrypt := false } ∧
    NewGBXTSDecrypter cipherFunc key key tweak
      = .ok { k1 := k, k2 := k, tweak := k.Encrypt tweak, isGB := true, decrypt := true } :=
  ⟨newXTS_ok _ _ _ _ _ _ k k hk hk, newXTS_ok _ _ _ _ _ _ k k hk hk,
    newXTS_ok _ _ _ _ _ _ k k hk hk, newXTS_ok _ _ _ _ _ _ k k hk hk⟩

/-- C18, amended, with SM4 and the key of sixteen zero bytes of vector 0 of
`xtsTestVectors`, the sector number 0 and a tweak of sixteen zero bytes. -/
theorem NewXTS_equal_keys_ok_witness :
    NewXTSEncrypterWithSector sm4NewCipher (List.replicate 16 0) (List.replicate 16 0) 0
      = .ok { k1 := { Encrypt := sm4Crypt (sm4Expand (List.replicate 16 0)),
                      Decrypt := sm4Crypt (sm4Expand (List.replicate 16 0)).reverse },
              k2 := { Encrypt := sm4Crypt (sm4Expand (List.replicate 16 0)),
                      Decrypt := sm4Crypt (sm4Expand (List.replicate 16 0)).reverse },
              tweak := sm4Crypt (sm4Expand (List.replicate 16 0)) (leBytes 16 (0 % 2 ^ 64)),
              isGB := false, decrypt := false } ∧
    NewXTSDecrypterWithSector sm4NewCipher (List.replicate 16 0) (List.replicate 16 0) 0
      = .ok { k1 := { Encrypt := sm4Crypt (sm4Expand (List.replicate 16 0)),
                      Decrypt := sm4Crypt (sm4Expand (List.replicate 16 0)).reverse },
              k2 := { Encrypt := sm4Crypt (sm4Expand (List.replicate 16 0)),
                      Decrypt := sm4Crypt (sm4Expand (List.replicate 16 0)).reverse },
              tweak := sm4Crypt (sm4Expand (List.replicate 16 0)) (leBytes 16 (0 % 2 ^ 64)),
              isGB := false, decrypt := true } ∧
    NewGBXTSEncrypter sm4NewCipher (List.replicate 16 0) (List.replicate 16 0)
        (List.replicate 16 0)
      = .ok { k1 := { Encrypt := sm4Crypt (sm4Expand (List.replicate 16 0)),
                      Decrypt := sm4Crypt (sm4Expand (List.replicate 16 0)).reverse },
              k2 := { Encrypt := sm4Crypt (sm4Expand (List.replicate 16 0)),
                      Decrypt := sm4Crypt (sm4Expand (List.replicate 16 0)).reverse },
              tweak := sm4Crypt (sm4Expand (List.replicate 16 0)) (List.replicate 16 0),
              isGB := true, decrypt := false } ∧
    NewGBXTSDecrypter sm4NewCipher (List.replicate 16 0) (List.replicate 16 0)
        (List.replicate 16 0)
      = .ok { k1 := { Encrypt := sm4Crypt (sm4Expand (List.replicate 16 0)),
                      Decrypt := sm4Crypt (sm4Expand (List.replicate 16 0)).reverse },
              k2 := { Encrypt := sm4Crypt (sm4Expand (List.replicate 16 0)),
                      Decrypt := sm4Crypt (sm4Expand (List.replicate 16 0)).reverse },
              tweak := sm4Crypt (sm4Expand (List.replicate 16 0)) (List.replicate 16 0),
              isGB := true, decrypt := true } :=
  NewXTS_equal_keys_ok sm4NewCipher (List.replicate 16 0)
    { Encrypt := sm4Crypt (sm4Expand (List.replicate 16 0)),
      Decrypt := sm4Crypt (sm4Expand (List.replicate 16 0)).reverse } rfl 0
    (List.replicate 16 0)

/-- C19: an encrypter (of either variant, `isGB`) on an input of `L ≥ 16` bytes with
`r = L mod 16 ≠ 0` and `n = ⌊L / 16⌋` writes `L` bytes. With `T_0 = E_K2(tweak)` and
`T_(i+1) = T_i·α`: the blocks `0..n-2` are `E_K1(P_i ⊕ T_i) ⊕ T_i`; block `n-1` is
`E_K1(PP ⊕ T_n) ⊕ T_n`, where `CC = E_K1(P_(n-1) ⊕ T_(n-1)) ⊕ T_(n-1)` and `PP` is the tail of
`r` bytes of the input followed by the last `16 - r` bytes of `CC`; the last `r` bytes are the
first `r` bytes of `CC`. -/
theorem xts_encrypt_stealing (cipherFunc : List UInt8 → Except String Block)
    (key tweakKey tweak : List UInt8) (isGB : Bool) (k1 k2 : Block)
    (hk1 : cipherFunc key = .ok k1) (hk2 : cipherFunc tweakKey = .ok k2)
    (hc1 : k1.IsCipher) (hc2 : k2.IsCipher) (htw : tweak.length = 16)
    (src : List UInt8) (hL : 16 ≤ src.length) (hr : src.length % 16 ≠ 0) :
    ∃ x out, newXTS cipherFunc key tweakKey tweak isGB false = .ok x ∧
      x.CryptBlocks src = .ok out ∧ out.length = src.length ∧
      (∀ i, i + 1 < src.length / 16 →
        block16 out i
          = xtsBlock k1.Encrypt (x.advance^[i] (k2.Encrypt tweak)) (block16 src i)) ∧
      block16 out (src.length / 16 - 1)
        = xtsBlock k1.Encrypt (x.advance^[src.length / 16] (k2.Encrypt tweak))
            (src.drop (16 * (src.length / 16)) ++
              (xtsBlock k1.Encrypt (x.advance^[src.length / 16 - 1] (k2.Encrypt tweak))
                (block16 src (src.length / 16 - 1))).drop (src.length % 16)) ∧
      out.drop (16 * (src.length / 16))
        = (xtsBlock k1.Encrypt (x.advance^[src.length / 16 - 1] (k2.Encrypt tweak))
            (block16 src (src.length / 16 - 1))).take (src.length % 16) := by
  have hT : (k2.Encrypt tweak).length = 16 := hc2.encrypt_length _ htw
  exact ⟨_, _, newXTS_ok _ _ _ _ _ _ k1 k2 hk1 hk2, CryptBlocks_encrypt _ rfl src hL,
    xtsEncrypt_length k1 hc1 _ (advance_length _) _ src hT hL,
    xtsEncrypt_stealing_layout k1 hc1 _ (advance_length _) _ src hT hL hr⟩

/-- Vector 5 of `xtsTestVectors` (25 bytes: `n = 1`, `r = 9`), with SM4 and the tweak of the
sector number 94. -/
theorem xts_encrypt_stealing_witness :
    ∃ x out, newXTS sm4NewCipher (fromHex "c46acc2e7e013cb71cdbf750cf76b000")
        (fromHex "249fbf4fb6cd17607773c23ffa2c4330") (leBytes 16 94) false false = .ok x ∧
      x.CryptBlocks (fromHex "7e9c2289cba460e470222953439cdaa892a5433d4dab2a3f67") = .ok out ∧
      out.length = (fromHex "7e9c2289cba460e470222953439cdaa892a5433d4dab2a3f67").length ∧
      (∀ i, i + 1 < (fromHex "7e9c2289cba460e470222953439cdaa892a5433d4dab2a3f67").length / 16 →
        block16 out i
          = xtsBlock (sm4Crypt (sm4Expand (fromHex "c46acc2e7e013cb71cdbf750cf76b000")))
              (x.advance^[i] (sm4Crypt (sm4Expand (fromHex "249fbf4fb6cd17607773c23ffa2c4330"))
                (leBytes 16 94)))
              (block16 (fromHex "7e9c2289cba460e470222953439cdaa892a5433d4dab2a3f67") i)) ∧
      block16 out ((fromHex "7e9c2289cba460e470222953439cdaa892a5433d4dab2a3f67").length / 16 - 1)
        = xtsBlock (sm4Crypt (sm4Expand (fromHex "c46acc2e7e013cb71cdbf750cf76b000")))
            (x.advance^[(fromHex "7e9c2289cba460e470222953439cdaa892a5433d4dab2a3f67").length / 16]
              (sm4Crypt (sm4Expand (fromHex "249fbf4fb6cd17607773c23ffa2c4330"))
                (leBytes 16 94)))
            ((fromHex "7e9c2289cba460e470222953439cdaa892a5433d4dab2a3f67").drop
                (16 * ((fromHex "7e9c2289cba460e470222953439cdaa892a5433d4dab2a3f67").length / 16)) ++
              (xtsBlock (sm4Crypt (sm4Expand (fromHex "c46acc2e7e013cb71cdbf750cf76b000")))
                (x.advance^[(fromHex "7e9c2289cba460e470222953439cdaa892a5433d4dab2a3f67").length / 16 - 1]
                  (sm4Crypt (sm4Expand (fromHex "249fbf4fb6cd17607773c23ffa2c4330"))
                    (leBytes 16 94)))
                (block16 (fromHex "7e9c2289cba460e470222953439cdaa892a5433d4dab2a3f67")
                  ((fromHex "7e9c2289cba460e470222953439cdaa892a5433d4dab2a3f67").length / 16 - 1))).drop
                ((fromHex "7e9c2289cba460e470222953439cdaa892a5433d4dab2a3f67").length % 16)) ∧
      out.drop (16 * ((fromHex "7e9c2289cba460e470222953439cdaa892a5433d4dab2a3f67").length / 16))
        = (xtsBlock (sm4Crypt (sm4Expand (fromHex "c46acc2e7e013cb71cdbf750cf76b000")))
            (x.advance^[(fromHex "7e9c2289cba460e470222953439cdaa892a5433d4dab2a3f67").length / 16 - 1]
              (sm4Crypt (sm4Expand (fromHex "249fbf4fb6cd17607773c23ffa2c4330"))
                (leBytes 16 94)))
            (block16 (fromHex "7e9c2289cba460e470222953439cdaa892a5433d4dab2a3f67")
              ((fromHex "7e9c2289cba460e470222953439cdaa892a5433d4dab2a3f67").length / 16 - 1))).take
            ((fromHex "7e9c2289cba460e470222953439cdaa892a5433d4dab2a3f67").length % 16) :=
  xts_encrypt_stealing sm4NewCipher (fromHex "c46acc2e7e013cb71cdbf750cf76b000")
    (fromHex "249fbf4fb6cd17607773c23ffa2c4330") (leBytes 16 94) false
    { Encrypt := sm4Crypt (sm4Expand (fromHex "c46acc2e7e013cb71cdbf750cf76b000")),
      Decrypt := sm4Crypt (sm4Expand (fromHex "c46acc2e7e013cb71cdbf750cf76b000")).reverse }
    { Encrypt := sm4Crypt (sm4Expand (fromHex "249fbf4fb6cd17607773c23ffa2c4330")),
      Decrypt := sm4Crypt (sm4Expand (fromHex "249fbf4fb6cd17607773c23ffa2c4330")).reverse }
    rfl rfl
    (sm4NewCipher_isCipher (fromHex "c46acc2e7e013cb71cdbf750cf76b000") _ rfl)
    (sm4NewCipher_isCipher (fromHex "249fbf4fb6cd17607773c23ffa2c4330") _ rfl)
    (by decide) (fromHex "7e9c2289cba460e470222953439cdaa892a5433d4dab2a3f67")
    (by decide) (by decide)

/-- C20: an encrypter (of either variant, `isGB`) on an input whose length `L ≥ 16` is a
multiple of 16 writes `L` bytes, and block `i < L / 16` of them is `E_K1(P_i ⊕ T_i) ⊕ T_i`
with `T_0 = E_K2(tweak)` and `T_(i+1) = T_i·α`. In particular two such inputs with the same
block `i` give the same output block `i`. -/
theorem xts_encrypt_blocks (cipherFunc : List UInt8 → Except String Block)
    (key tweakKey tweak : List UInt8) (isGB : Bool) (k1 k2 : Block)
    (hk1 : cipherFunc key = .ok k1) (hk2 : cipherFunc tweakKey = .ok k2)
    (hc1 : k1.IsCipher) (hc2 : k2.IsCipher) (htw : tweak.length = 16)
    (src : List UInt8) (hL : 16 ≤ src.length) (hr : src.length % 16 = 0) :
    ∃ x out, newXTS cipherFunc key tweakKey tweak isGB false = .ok x ∧
      x.CryptBlocks src = .ok out ∧ out.length = src.length ∧
      (∀ i, i < src.length / 16 →
        block16 out i
          = xtsBlock k1.Encrypt (x.advance^[i] (k2.Encrypt tweak)) (block16 src i)) ∧
      (∀ src2 out2 i, 16 ≤ src2.length → src2.length % 16 = 0 →
        x.CryptBlocks src2 = .ok out2 → i < src.length / 16 → i < src2.length / 16 →
        block16 src2 i = block16 src i → block16 out2 i = block16 out i) := by
  have hT : (k2.Encrypt tweak).length = 16 := hc2.encrypt_length _ htw
  refine ⟨_, _, newXTS_ok _ _ _ _ _ _ k1 k2 hk1 hk2, CryptBlocks_encrypt _ rfl src hL,
    xtsEncrypt_length k1 hc1 _ (advance_length _) _ src hT hL,
    fun i hi => xtsEncrypt_full_block k1 hc1 _ (advance_length _) _ src hT hr i hi, ?_⟩
  intro src2 out2 i hL2 hr2 h2 hi hi2 hb
  rw [CryptBlocks_encrypt _ rfl src2 hL2] at h2
  simp only [Except.ok.injEq] at h2
  rw [← h2, xtsEncrypt_full_block k1 hc1 _ (advance_length _) _ src2 hT hr2 i hi2,
    xtsEncrypt_full_block k1 hc1 _ (advance_length _) _ src hT hr i hi, hb]

/-- Vector 1 of `xtsTestVectors` (32 bytes), with SM4 and the tweak of the sector number
`0x3333333333`. -/
theorem xts_encrypt_blocks_witness :
    ∃ x out, newXTS sm4NewCipher (fromHex "11111111111111111111111111111111")
        (fromHex "22222222222222222222222222222222") (leBytes 16 0x3333333333) false false
          = .ok x ∧
      x.CryptBlocks (fromHex "4444444444444444444444444444444444444444444444444444444444444444")
        = .ok out ∧
      out.length
        = (fromHex "4444444444444444444444444444444444444444444444444444444444444444").length ∧
      (∀ i, i < (fromHex "4444444444444444444444444444444444444444444444444444444444444444").length / 16 →
        block16 out i
          = xtsBlock (sm4Crypt (sm4Expand (fromHex "11111111111111111111111111111111")))
              (x.advance^[i] (sm4Crypt (sm4Expand (fromHex "22222222222222222222222222222222"))
                (leBytes 16 0x3333333333)))
              (block16
                (fromHex "4444444444444444444444444444444444444444444444444444444444444444")
                i)) ∧
      (∀ src2 out2 i, 16 ≤ src2.length → src2.length % 16 = 0 →
        x.CryptBlocks src2 = .ok out2 →
        i < (fromHex "4444444444444444444444444444444444444444444444444444444444444444").length / 16 →
        i < src2.length / 16 →
        block16 src2 i
          = block16
              (fromHex "4444444444444444444444444444444444444444444444444444444444444444") i →
        block16 out2 i = block16 out i) :=
  xts_encrypt_blocks sm4NewCipher (fromHex "11111111111111111111111111111111")
    (fromHex "22222222222222222222222222222222") (leBytes 16 0x3333333333) false
    { Encrypt := sm4Crypt (sm4Expand (fromHex "11111111111111111111111111111111")),
      Decrypt := sm4Crypt (sm4Expand (fromHex "11111111111111111111111111111111")).reverse }
    { Encrypt := sm4Crypt (sm4Expand (fromHex "22222222222222222222222222222222")),
      Decrypt := sm4Crypt (sm4Expand (fromHex "22222222222222222222222222222222")).reverse }
    rfl rfl
    (sm4NewCipher_isCipher (fromHex "11111111111111111111111111111111") _ rfl)
    (sm4NewCipher_isCipher (fromHex "22222222222222222222222222222222") _ rfl)
    (by decide) (fromHex "4444444444444444444444444444444444444444444444444444444444444444")
    (by decide) (by decide)

set_option maxRecDepth 100000 in
/-- Vector 5 of `xtsTestVectors` (25 bytes, ciphertext stealing) and the vector of
`xtsGBTestVectors` (56 bytes, ciphertext stealing): the model of the mode, with SM4, gives
the ciphertexts that `TestXTS` and `TestXTS_GB` expect, and decrypts them. -/
theorem xts_test_vectors :
    (∃ enc dec, NewXTSEncrypterWithSector sm4NewCipher
        (fromHex "c46acc2e7e013cb71cdbf750cf76b000")
        (fromHex "249fbf4fb6cd17607773c23ffa2c4330") 94 = .ok enc ∧
      NewXTSDecrypterWithSector sm4NewCipher (fromHex "c46acc2e7e013cb71cdbf750cf76b000")
        (fromHex "249fbf4fb6cd17607773c23ffa2c4330") 94 = .ok dec ∧
      enc.CryptBlocks (fromHex "7e9c2289cba460e470222953439cdaa892a5433d4dab2a3f67")
        = .ok (fromHex "c3cf5445c64aa518f4abce2848faddfb4605d9fb66f1f12c0c") ∧
      dec.CryptBlocks (fromHex "c3cf5445c64aa518f4abce2848faddfb4605d9fb66f1f12c0c")
        = .ok (fromHex "7e9c2289cba460e470222953439cdaa892a5433d4dab2a3f67")) ∧
    (∃ enc, NewGBXTSEncrypter sm4NewCipher (fromHex "2B7E151628AED2A6ABF7158809CF4F3C")
        (fromHex "000102030405060708090A0B0C0D0E0F")
        (fromHex "F0F1F2F3F4F5F6F7F8F9FAFBFCFDFEFF") = .ok enc ∧
      enc.CryptBlocks (fromHex "6BC1BEE22E409F96E93D7E117393172AAE2D8A571E03AC9C9EB76FAC45AF8E5130C81C46A35CE411E5FBC1191A0A52EFF69F2445DF4F9B17")
        = .ok (fromHex "E9538251C71D7B80BBE4483FEF497BD12C5C581BD6242FC51E08964FB4F60FDB0BA42F63499279213D318D2C11F6886E903BE7F93A1B3479")) :=
  ⟨⟨_, _, rfl, rfl, rfl, rfl⟩, ⟨_, rfl, rfl⟩⟩

/-! ## The cached base point: stale after a second unmarshalling -/

theorem SignMasterPublicKey_stale {B : Bn256} (C : PointCodec B)
    (pemBits : List UInt8 → Except String (List UInt8)) (bytesA bytesB : List UInt8)
    (PA PB : B.G2) (hA : unmarshalG2 C bytesA = some (.ok PA))
    (hB : unmarshalG2 C bytesB = some (.ok PB)) (r s : Int) :
    ∃ pub, SignMasterPublicKey.run C pemBits (SignMasterPublicKey.new B)
        [.UnmarshalRaw bytesA, .ScalarBaseMult r, .UnmarshalRaw bytesB] = some pub ∧
      pub.MasterPublicKey = some PB ∧
      pub.ScalarBaseMult s
        = some (B.ScalarBaseMultGT (B.GenerateGTFieldTable (B.Pair B.Gen1 PA)) s, pub) := by
  refine ⟨{ MasterPublicKey := some PB, pairOnce := true,
            basePoint := some (B.Pair B.Gen1 PA), tableGenOnce := true,
            table := some (B.GenerateGTFieldTable (B.Pair B.Gen1 PA)) }, ?_, rfl, rfl⟩
  simp [SignMasterPublicKey.run, SignMasterPublicKey.step, SignMasterPublicKey.UnmarshalRaw,
    SignMasterPublicKey.new, hA, hB, SignMasterPublicKey.ScalarBaseMult,
    SignMasterPublicKey.generatorTable, SignMasterPublicKey.pair]

theorem EncryptMasterPublicKey_stale {B : Bn256} (C : PointCodec B)
    (pemBits : List UInt8 → Except String (List UInt8)) (bytesA bytesB : List UInt8)
    (PA PB : B.G1) (hA : unmarshalG1 C bytesA = some (.ok PA))
    (hB : unmarshalG1 C bytesB = some (.ok PB)) (r s : Int) :
    ∃ pub, EncryptMasterPublicKey.run C pemBits (EncryptMasterPublicKey.new B)
        [.UnmarshalRaw bytesA, .ScalarBaseMult r, .UnmarshalRaw bytesB] = some pub ∧
      pub.MasterPublicKey = some PB ∧
      pub.ScalarBaseMult s
        = some (B.ScalarBaseMultGT (B.GenerateGTFieldTable (B.Pair PA B.Gen2)) s, pub) := by
  refine ⟨{ MasterPublicKey := some PB, pairOnce := true,
            basePoint := some (B.Pair PA B.Gen2), tableGenOnce := true,
            table := some (B.GenerateGTFieldTable (B.Pair PA B.Gen2)) }, ?_, rfl, rfl⟩
  simp [EncryptMasterPublicKey.run, EncryptMasterPublicKey.step,
    EncryptMasterPublicKey.UnmarshalRaw, EncryptMasterPublicKey.new, hA, hB,
    EncryptMasterPublicKey.ScalarBaseMult, EncryptMasterPublicKey.generatorTable,
    EncryptMasterPublicKey.pair]

/-- C24 (code bug). From a fresh key, `UnmarshalRaw` of a point `A`, one `ScalarBaseMult`, and
`UnmarshalRaw` of a point `B` lead to a key that stores `B` as its `MasterPublicKey`, while
`ScalarBaseMult(s)` on it still returns the power of the base point of `A`: the flags
`pairOnce` and `tableGenOnce` are set, and `UnmarshalRaw` resets neither them nor the cached
`basePoint` and `table`. Whenever the two base points have different `s`-th powers, the result
is not `Pair(Gen1, MasterPublicKey)^s` (resp. `Pair(MasterPublicKey, Gen2)^s`). -/
theorem ScalarBaseMult_stale_after_UnmarshalRaw {B : Bn256} (C : PointCodec B)
    (pemBits : List UInt8 → Except String (List UInt8))
    (bytesA2 bytesB2 bytesA1 bytesB1 : List UInt8) (PA PB : B.G2) (QA QB : B.G1)
    (hA2 : unmarshalG2 C bytesA2 = some (.ok PA)) (hB2 : unmarshalG2 C bytesB2 = some (.ok PB))
    (hA1 : unmarshalG1 C bytesA1 = some (.ok QA)) (hB1 : unmarshalG1 C bytesB1 = some (.ok QB))
    (r s : Int)
    (hne2 : B.ScalarBaseMultGT (B.GenerateGTFieldTable (B.Pair B.Gen1 PA)) s
      ≠ B.ScalarBaseMultGT (B.GenerateGTFieldTable (B.Pair B.Gen1 PB)) s)
    (hne1 : B.ScalarBaseMultGT (B.GenerateGTFieldTable (B.Pair QA B.Gen2)) s
      ≠ B.ScalarBaseMultGT (B.GenerateGTFieldTable (B.Pair QB B.Gen2)) s) :
    (∃ pub out, SignMasterPublicKey.run C pemBits (SignMasterPublicKey.new B)
        [.UnmarshalRaw bytesA2, .ScalarBaseMult r, .UnmarshalRaw bytesB2] = some pub ∧
      pub.MasterPublicKey = some PB ∧ pub.ScalarBaseMult s = some (out, pub) ∧
      out ≠ B.ScalarBaseMultGT (B.GenerateGTFieldTable (B.Pair B.Gen1 PB)) s) ∧
    (∃ pub out, EncryptMasterPublicKey.run C pemBits (EncryptMasterPublicKey.new B)
        [.UnmarshalRaw bytesA1, .ScalarBaseMult r, .UnmarshalRaw bytesB1] = some pub ∧
      pub.MasterPublicKey = some QB ∧ pub.ScalarBaseMult s = some (out, pub) ∧
      out ≠ B.ScalarBaseMultGT (B.GenerateGTFieldTable (B.Pair QB B.Gen2)) s) := by
  obtain ⟨pub2, h21, h22, h23⟩ := SignMasterPublicKey_stale C pemBits bytesA2 bytesB2 PA PB hA2
    hB2 r s
  obtain ⟨pub1, h11, h12, h13⟩ := EncryptMasterPublicKey_stale C pemBits bytesA1 bytesB1 QA QB
    hA1 hB1 r s
  exact ⟨⟨pub2, _, h21, h22, h23, hne2⟩, ⟨pub1, _, h11, h12, h13, hne1⟩⟩

/-- C24 (code bug), in the groups of integers modulo 251, where `Pair(a, b)^s` is `s * a * b`:
the points 7 and then 9 are unmarshalled, with `ScalarBaseMult(1)` in between and after. -/
theorem ScalarBaseMult_stale_after_UnmarshalRaw_witness :
    (∃ pub out, SignMasterPublicKey.run (toyCodec 251) (fun _ => .error "no PEM")
        (SignMasterPublicKey.new (toyBn256 251))
        [.UnmarshalRaw (4 :: beBytes 32 7), .ScalarBaseMult 1, .UnmarshalRaw (4 :: beBytes 32 9)]
          = some pub ∧
      pub.MasterPublicKey = some (9 : ZMod 251) ∧ pub.ScalarBaseMult 1 = some (out, pub) ∧
      out ≠ (toyBn256 251).ScalarBaseMultGT ((toyBn256 251).GenerateGTFieldTable
        ((toyBn256 251).Pair (toyBn256 251).Gen1 (9 : ZMod 251))) 1) ∧
    (∃ pub out, EncryptMasterPublicKey.run (toyCodec 251) (fun _ => .error "no PEM")
        (EncryptMasterPublicKey.new (toyBn256 251))
        [.UnmarshalRaw (4 :: beBytes 32 7), .ScalarBaseMult 1, .UnmarshalRaw (4 :: beBytes 32 9)]
          = some pub ∧
      pub.MasterPublicKey = some (9 : ZMod 251) ∧ pub.ScalarBaseMult 1 = some (out, pub) ∧
      out ≠ (toyBn256 251).ScalarBaseMultGT ((toyBn256 251).GenerateGTFieldTable
        ((toyBn256 251).Pair (9 : ZMod 251) (toyBn256 251).Gen2)) 1) :=
  ScalarBaseMult_stale_after_UnmarshalRaw (toyCodec 251) (fun _ => .error "no PEM")
    (4 :: beBytes 32 7) (4 :: beBytes 32 9) (4 :: beBytes 32 7) (4 :: beBytes 32 9)
    (7 : ZMod 251) (9 : ZMod 251) (7 : ZMod 251) (9 : ZMod 251) rfl rfl rfl rfl 1 1
    (by
      show (Multiplicative.ofAdd ((1 : ZMod 251) * 7)) ^ (1 : Int)
        ≠ (Multiplicative.ofAdd ((1 : ZMod 251) * 9)) ^ (1 : Int)
      rw [zpow_one, zpow_one]
      decide)
    (by
      show (Multiplicative.ofAdd ((7 : ZMod 251) * 1)) ^ (1 : Int)
        ≠ (Multiplicative.ofAdd ((9 : ZMod 251) * 1)) ^ (1 : Int)
      rw [zpow_one, zpow_one]
      decide)

/-! ## Reads out of range -/

/-- C25 (code bug). `UnmarshalRaw` of each key type on the empty byte string does not return:
`unmarshalG1` and `unmarshalG2` read `bytes[0]` without a check of the length. The same read
is reached by `UnmarshalASN1` of each point-carrying key type on the BIT STRING with empty
content, `03 01 00`, and `UnmarshalASN1` of a user private key on the empty input reads
`der[0]`. -/
theorem unmarshal_empty_input_panics {B : Bn256} (C : PointCodec B)
    (smp : SignMasterPublicKey B) (emp : EncryptMasterPublicKey B)
    (sp : SignPrivateKey B) (ep : EncryptPrivateKey B) :
    unmarshalG1 C [] = none ∧ unmarshalG2 C [] = none ∧
    smp.UnmarshalRaw C [] = none ∧ emp.UnmarshalRaw C [] = none ∧
    sp.UnmarshalRaw C [] = none ∧ ep.UnmarshalRaw C [] = none ∧
    ReadASN1BitStringAsBytes [0x03, 0x01, 0x00] = some ([], []) ∧
    smp.UnmarshalASN1 C [0x03, 0x01, 0x00] = none ∧
    emp.UnmarshalASN1 C [0x03, 0x01, 0x00] = none ∧
    sp.UnmarshalASN1 C [0x03, 0x01, 0x00] = none ∧
    ep.UnmarshalASN1 C [0x03, 0x01, 0x00] = none ∧
    sp.UnmarshalASN1 C [] = none ∧ ep.UnmarshalASN1 C [] = none :=
  ⟨rfl, rfl, rfl, rfl, rfl, rfl, rfl, rfl, rfl, rfl, rfl, rfl, rfl⟩

/-! ## The bare BIT STRING form of a user private key -/

theorem readPrivateKeyDER_bare (der : List UInt8) (errPriv errPub : String)
    (bytes pubBytes : List UInt8) (h0 : der.head? ≠ some 0x30)
    (h : readPrivateKeyDER der errPriv errPub = some (.ok (bytes, pubBytes))) :
    pubBytes = [] := by
  unfold readPrivateKeyDER at h
  cases der with
  | nil => simp at h
  | cons d0 ds =>
    have hd : ¬ d0 = 0x30 := by simpa using h0
    simp only [hd, if_false] at h
    cases hr : ReadASN1BitStringAsBytes (d0 :: ds) with
    | none => simp [hr] at h
    | some x =>
      obtain ⟨b, rest⟩ := x
      simp only [hr] at h
      split_ifs at h
      · simp at h
      · simp only [Option.some.injEq, Except.ok.injEq, Prod.mk.injEq] at h
        exact h.2.symm

theorem SignPrivateKey_UnmarshalRaw_ok {B : Bn256} (C : PointCodec B)
    (sp sp' : SignPrivateKey B) (bytes : List UInt8)
    (h : sp.UnmarshalRaw C bytes = some (sp', none)) :
    ∃ g, sp' = { sp with PrivateKey := some g } := by
  unfold SignPrivateKey.UnmarshalRaw at h
  cases hu : unmarshalG1 C bytes with
  | none => simp [hu] at h
  | some x =>
    cases x with
    | error e => simp [hu] at h
    | ok g =>
      simp only [hu, Option.some.injEq, Prod.mk.injEq, and_true] at h
      exact ⟨g, h.symm⟩

theorem EncryptPrivateKey_UnmarshalRaw_ok {B : Bn256} (C : PointCodec B)
    (ep ep' : EncryptPrivateKey B) (bytes : List UInt8)
    (h : ep.UnmarshalRaw C bytes = some (ep', none)) :
    ∃ g, ep' = { ep with PrivateKey := some g } := by
  unfold EncryptPrivateKey.UnmarshalRaw at h
  cases hu : unmarshalG2 C bytes with
  | none => simp [hu] at h
  | some x =>
    cases x with
    | error e => simp [hu] at h
    | ok g =>
      simp only [hu, Option.some.injEq, Prod.mk.injEq, and_true] at h
      exact ⟨g, h.symm⟩

theorem SignPrivateKey_UnmarshalASN1_bare {B : Bn256} (C : PointCodec B)
    (sp sp' : SignPrivateKey B) (der : List UInt8) (h0 : der.head? ≠ some 0x30)
    (h : sp.UnmarshalASN1 C der = some (sp', none)) :
    ∃ g, sp' = { sp with PrivateKey := some g } := by
  unfold SignPrivateKey.UnmarshalASN1 at h
  cases hr : readPrivateKeyDER der "sm9: invalid sign user private key asn1 data"
      "sm9: invalid sign master public key asn1 data" with
  | none => simp [hr] at h
  | some x =>
    cases x with
    | error e => simp [hr] at h
    | ok bp =>
      obtain ⟨bytes, pubBytes⟩ := bp
      have hp := readPrivateKeyDER_bare der _ _ bytes pubBytes h0 hr
      subst hp
      simp only [hr] at h
      cases hraw : sp.UnmarshalRaw C bytes with
      | none => simp [hraw] at h
      | some y =>
        obtain ⟨sp1, e⟩ := y
        cases e with
        | some err => simp [hraw] at h
        | none =>
          simp only [hraw, List.length_nil, gt_iff_lt, lt_self_iff_false, if_false,
            Option.some.injEq, Prod.mk.injEq, and_true] at h
          subst h
          exact SignPrivateKey_UnmarshalRaw_ok C sp sp1 bytes hraw

theorem EncryptPrivateKey_UnmarshalASN1_bare {B : Bn256} (C : PointCodec B)
    (ep ep' : EncryptPrivateKey B) (der : List UInt8) (h0 : der.head? ≠ some 0x30)
    (h : ep.UnmarshalASN1 C der = some (ep', none)) :
    ∃ g, ep' = { ep with PrivateKey := some g } := by
  unfold EncryptPrivateKey.UnmarshalASN1 at h
  cases hr : readPrivateKeyDER der "sm9: invalid encrypt user private key asn1 data"
      "sm9: invalid encrypt master public key asn1 data" with
  | none => simp [hr] at h
  | some x =>
    cases x with
    | error e => simp [hr] at h
    | ok bp =>
      obtain ⟨bytes, pubBytes⟩ := bp
      have hp := readPrivateKeyDER_bare der _ _ bytes pubBytes h0 hr
      subst hp
      simp only [hr] at h
      cases hraw : ep.UnmarshalRaw C bytes with
      | none => simp [hraw] at h
      | some y =>
        obtain ⟨ep1, e⟩ := y
        cases e with
        | some err => simp [hraw] at h
        | none =>
          simp only [hraw, List.length_nil, gt_iff_lt, lt_self_iff_false, if_false,
            Option.some.injEq, Prod.mk.injEq, and_true] at h
          subst h
          exact EncryptPrivateKey_UnmarshalRaw_ok C ep ep1 bytes hraw

/-- C26. A successful `SignPrivateKey.UnmarshalASN1` or `EncryptPrivateKey.UnmarshalASN1` on a
DER input that does not start with the SEQUENCE tag `0x30` (the bare BIT STRING form), and a
successful `UnmarshalRaw` of a user private key, change only the receiver's `PrivateKey`: the
receiver after the call is the receiver before it with a new `PrivateKey`, so the embedded
master public key is the one it was, set or unset. -/
theorem UnmarshalASN1_bitString_frame {B : Bn256} (C : PointCodec B)
    (sp sp1 sp2 : SignPrivateKey B) (ep ep1 ep2 : EncryptPrivateKey B)
    (derS derE rawS rawE : List UInt8)
    (hS0 : derS.head? ≠ some 0x30) (hE0 : derE.head? ≠ some 0x30)
    (hS : sp.UnmarshalASN1 C derS = some (sp1, none))
    (hE : ep.UnmarshalASN1 C derE = some (ep1, none))
    (hSraw : sp.UnmarshalRaw C rawS = some (sp2, none))
    (hEraw : ep.UnmarshalRaw C rawE = some (ep2, none)) :
    (sp1.SignMasterPublicKey = sp.SignMasterPublicKey ∧
      ∃ g, sp1 = { sp with PrivateKey := some g }) ∧
    (ep1.EncryptMasterPublicKey = ep.EncryptMasterPublicKey ∧
      ∃ g, ep1 = { ep with PrivateKey := some g }) ∧
    (sp2.SignMasterPublicKey = sp.SignMasterPublicKey ∧
      ∃ g, sp2 = { sp with PrivateKey := some g }) ∧
    (ep2.EncryptMasterPublicKey = ep.EncryptMasterPublicKey ∧
      ∃ g, ep2 = { ep with PrivateKey := some g }) := by
  obtain ⟨g1, e1⟩ := SignPrivateKey_UnmarshalASN1_bare C sp sp1 derS hS0 hS
  obtain ⟨g2, e2⟩ := EncryptPrivateKey_UnmarshalASN1_bare C ep ep1 derE hE0 hE
  obtain ⟨g3, e3⟩ := SignPrivateKey_UnmarshalRaw_ok C sp sp2 rawS hSraw
  obtain ⟨g4, e4⟩ := EncryptPrivateKey_UnmarshalRaw_ok C ep ep2 rawE hEraw
  subst e1 e2 e3 e4
  exact ⟨⟨rfl, g1, rfl⟩, ⟨rfl, g2, rfl⟩, ⟨rfl, g3, rfl⟩, ⟨rfl, g4, rfl⟩⟩

/-- The first `ScalarBaseMult(r)` on a master public key whose two `sync.Once` flags are not
set returns `ScalarBaseMultGT` of the table of `Pair(Gen1, MasterPublicKey)` (resp.
`Pair(MasterPublicKey, Gen2)`), stores the base point and the table and sets both flags; every
later `ScalarBaseMult(s)` on the resulting key uses the stored table. -/
theorem ScalarBaseMult_fresh {B : Bn256} (smp : SignMasterPublicKey B)
    (emp : EncryptMasterPublicKey B) (P : B.G2) (Q : B.G1) (r s : Int)
    (hs : smp.MasterPublicKey = some P) (hs1 : smp.pairOnce = false)
    (hs2 : smp.tableGenOnce = false)
    (he : emp.MasterPublicKey = some Q) (he1 : emp.pairOnce = false)
    (he2 : emp.tableGenOnce = false) :
    (∃ smp2, smp.ScalarBaseMult r
        = some (B.ScalarBaseMultGT (B.GenerateGTFieldTable (B.Pair B.Gen1 P)) r, smp2) ∧
      smp2 = { smp with pairOnce := true, basePoint := some (B.Pair B.Gen1 P),
                        tableGenOnce := true,
                        table := some (B.GenerateGTFieldTable (B.Pair B.Gen1 P)) } ∧
      smp2.ScalarBaseMult s
        = some (B.ScalarBaseMultGT (B.GenerateGTFieldTable (B.Pair B.Gen1 P)) s, smp2)) ∧
    (∃ emp2, emp.ScalarBaseMult r
        = some (B.ScalarBaseMultGT (B.GenerateGTFieldTable (B.Pair Q B.Gen2)) r, emp2) ∧
      emp2 = { emp with pairOnce := true, basePoint := some (B.Pair Q B.Gen2),
                        tableGenOnce := true,
                        table := some (B.GenerateGTFieldTable (B.Pair Q B.Gen2)) } ∧
      emp2.ScalarBaseMult s
        = some (B.ScalarBaseMultGT (B.GenerateGTFieldTable (B.Pair Q B.Gen2)) s, emp2)) := by
  constructor
  · refine ⟨_, ?_, rfl, rfl⟩
    simp [SignMasterPublicKey.ScalarBaseMult, SignMasterPublicKey.generatorTable,
      SignMasterPublicKey.pair, hs, hs1, hs2]
  · refine ⟨_, ?_, rfl, rfl⟩
    simp [EncryptMasterPublicKey.ScalarBaseMult, EncryptMasterPublicKey.generatorTable,
      EncryptMasterPublicKey.pair, he, he1, he2]

/-- The first `ScalarBaseMult` in the groups of integers modulo 251, on fresh keys that hold
the point 7. -/
theorem ScalarBaseMult_fresh_witness :
    (∃ smp2, SignMasterPublicKey.ScalarBaseMult
        { SignMasterPublicKey.new (toyBn256 251) with MasterPublicKey := some (7 : ZMod 251) } 3
        = some ((toyBn256 251).ScalarBaseMultGT ((toyBn256 251).GenerateGTFieldTable
            ((toyBn256 251).Pair (toyBn256 251).Gen1 (7 : ZMod 251))) 3, smp2) ∧
      smp2 = { MasterPublicKey := some (7 : ZMod 251), pairOnce := true,
               basePoint := some ((toyBn256 251).Pair (toyBn256 251).Gen1 (7 : ZMod 251)),
               tableGenOnce := true,
               table := some ((toyBn256 251).GenerateGTFieldTable
                 ((toyBn256 251).Pair (toyBn256 251).Gen1 (7 : ZMod 251))) } ∧
      smp2.ScalarBaseMult 4
        = some ((toyBn256 251).ScalarBaseMultGT ((toyBn256 251).GenerateGTFieldTable
            ((toyBn256 251).Pair (toyBn256 251).Gen1 (7 : ZMod 251))) 4, smp2)) ∧
    (∃ emp2, EncryptMasterPublicKey.ScalarBaseMult
        { EncryptMasterPublicKey.new (toyBn256 251) with MasterPublicKey := some (7 : ZMod 251) }
        3
        = some ((toyBn256 251).ScalarBaseMultGT ((toyBn256 251).GenerateGTFieldTable
            ((toyBn256 251).Pair (7 : ZMod 251) (toyBn256 251).Gen2)) 3, emp2) ∧
      emp2 = { MasterPublicKey := some (7 : ZMod 251), pairOnce := true,
               basePoint := some ((toyBn256 251).Pair (7 : ZMod 251) (toyBn256 251).Gen2),
               tableGenOnce := true,
               table := some ((toyBn256 251).GenerateGTFieldTable
                 ((toyBn256 251).Pair (7 : ZMod 251) (toyBn256 251).Gen2)) } ∧
      emp2.ScalarBaseMult 4
        = some ((toyBn256 251).ScalarBaseMultGT ((toyBn256 251).GenerateGTFieldTable
            ((toyBn256 251).Pair (7 : ZMod 251) (toyBn256 251).Gen2)) 4, emp2)) :=
  ScalarBaseMult_fresh
    { SignMasterPublicKey.new (toyBn256 251) with MasterPublicKey := some (7 : ZMod 251) }
    { EncryptMasterPublicKey.new (toyBn256 251) with MasterPublicKey := some (7 : ZMod 251) }
    (7 : ZMod 251) (7 : ZMod 251) 3 4 rfl rfl rfl rfl rfl rfl

/-! ## The tweak advance, bit by bit -/

theorem shiftLeft1_getD (T : List UInt8) (c i : Nat) (hi : i < T.length) :
    ((shiftLeft1 T c).1.getD i 0).toNat
      = (2 * (T.getD i 0).toNat + (if i = 0 then c else (T.getD (i - 1) 0).toNat / 128))
          % 256 := by
  induction T generalizing c i with
  | nil => simp at hi
  | cons b rest ih =>
    cases i with
    | zero =>
      simp only [shiftLeft1, List.getD_cons_zero, if_true]
      exact toNat_ofNat_lt _ (Nat.mod_lt _ (by norm_num))
    | succ j =>
      have hj : j < rest.length := by simpa using hi
      simp only [shiftLeft1, List.getD_cons_succ, Nat.succ_ne_zero, if_false,
        Nat.add_sub_cancel]
      rw [ih (b.toNat / 128) j hj]
      cases j with
      | zero => simp
      | succ m => simp

theorem shiftLeft1_carry (T : List UInt8) (c : Nat) :
    (shiftLeft1 T c).2
      = if T.length = 0 then c else (T.getD (T.length - 1) 0).toNat / 128 := by
  induction T generalizing c with
  | nil => rfl
  | cons b rest ih =>
    simp only [shiftLeft1, List.length_cons, Nat.succ_ne_zero, if_false, Nat.add_sub_cancel]
    rw [ih]
    cases rest with
    | nil => simp
    | cons b2 rest2 => simp

theorem xorByte_toNat (a b : UInt8) : (xorByte a b).toNat = a.toNat ^^^ b.toNat := by
  unfold xorByte
  exact toNat_ofNat_lt _ (Nat.xor_lt_two_pow (n := 8) (toNat_lt_256 a) (toNat_lt_256 b))

theorem mul2_getD (T : List UInt8) (hT : T.length = 16) (i : Nat) (hi : i < 16) :
    ((mul2 T).getD i 0).toNat
      = if i = 0 ∧ 128 ≤ (T.getD 15 0).toNat then (2 * (T.getD 0 0).toNat) % 256 ^^^ 0x87
        else (2 * (T.getD i 0).toNat
          + (if i = 0 then 0 else (T.getD (i - 1) 0).toNat / 128)) % 256 := by
  have hlen := shiftLeft1_length T 0
  have hc := shiftLeft1_carry T 0
  have hg := shiftLeft1_getD T 0
  have h15 := toNat_lt_256 (T.getD 15 0)
  rw [hT] at hlen hc
  simp only [show ¬ (16 = 0) by decide, if_false, show 16 - 1 = 15 by rfl] at hc
  unfold mul2
  cases hs : shiftLeft1 T 0 with
  | mk out carry =>
    rw [hs] at hlen hc hg
    simp only at hlen hc hg
    cases out with
    | nil => simp at hlen
    | cons b0 rest =>
      simp only
      by_cases hcar : carry ≠ 0
      · rw [if_pos hcar]
        have h128 : 128 ≤ (T.getD 15 0).toNat := by omega
        cases i with
        | zero =>
          have h0 := hg 0 (by omega)
          simp only [List.getD_cons_zero, if_true, Nat.add_zero] at h0
          simp only [List.getD_cons_zero, true_and, h128, if_true, xorByte_toNat, h0]
          rfl
        | succ j =>
          have hj := hg (j + 1) (by omega)
          simp only [List.getD_cons_succ] at hj
          simp only [List.getD_cons_succ, Nat.succ_ne_zero, false_and, if_false, hj]
      · rw [if_neg hcar]
        have h128 : ¬ 128 ≤ (T.getD 15 0).toNat := by omega
        rw [hg i (by omega)]
        simp only [h128, and_false, if_false]

theorem bit_xor (x y i : Nat) :
    (x ^^^ y) / 2 ^ i % 2 = (x / 2 ^ i % 2 + y / 2 ^ i % 2) % 2 := by
  have h := Nat.testBit_xor x y i
  rw [Nat.testBit_to_div_mod, Nat.testBit_to_div_mod, Nat.testBit_to_div_mod] at h
  rcases Nat.mod_two_eq_zero_or_one (x / 2 ^ i) with a | a <;>
    rcases Nat.mod_two_eq_zero_or_one (y / 2 ^ i) with b | b <;>
    rcases Nat.mod_two_eq_zero_or_one ((x ^^^ y) / 2 ^ i) with c | c <;>
    simp_all

theorem shifted_bit (b p j : Nat) (hj : j < 8) (hp : p < 2) :
    (2 * b + p) % 256 / 2 ^ j % 2 = if j = 0 then p else b / 2 ^ (j - 1) % 2 := by
  interval_cases j <;> simp <;> omega

theorem mul2_bit (T : List UInt8) (hT : T.length = 16) (k : Nat) (hk : k < 128) :
    tweakBit (mul2 T) k
      = ((if k = 0 then 0 else tweakBit T (k - 1))
          + (if k = 0 ∨ k = 1 ∨ k = 2 ∨ k = 7 then tweakBit T 127 else 0)) % 2 := by
  have hl := toNat_lt_256 (T.getD 15 0)
  have e127 : tweakBit T 127 = (T.getD 15 0).toNat / 128 := by
    unfold tweakBit
    change (T.getD 15 0).toNat / 128 % 2 = (T.getD 15 0).toNat / 128
    omega
  rw [e127]
  unfold tweakBit
  rw [mul2_getD T hT (k / 8) (by omega)]
  by_cases hk0 : k / 8 = 0
  · have hk8 : k < 8 := by omega
    have hmod : k % 8 = k := Nat.mod_eq_of_lt hk8
    rw [hk0, hmod]
    by_cases h128 : 128 ≤ (T.getD 15 0).toNat
    · have hc : (T.getD 15 0).toNat / 128 = 1 := by omega
      rw [if_pos ⟨rfl, h128⟩, bit_xor, hc]
      have hs := shifted_bit (T.getD 0 0).toNat 0 k hk8 (by norm_num)
      rw [Nat.add_zero] at hs
      rw [hs]
      interval_cases k <;> simp
    · have hc : (T.getD 15 0).toNat / 128 = 0 := by omega
      rw [if_neg (fun h => h128 h.2), hc]
      simp only [if_true]
      have hs := shifted_bit (T.getD 0 0).toNat 0 k hk8 (by norm_num)
      rw [hs]
      interval_cases k <;> simp
  · have hk8 : 8 ≤ k := by omega
    have hn : ¬ (k = 0 ∨ k = 1 ∨ k = 2 ∨ k = 7) := by omega
    have hp := toNat_lt_256 (T.getD (k / 8 - 1) 0)
    rw [if_neg (fun h => hk0 h.1), if_neg hk0, if_neg hn, if_neg (by omega), Nat.add_zero,
      shifted_bit _ _ _ (Nat.mod_lt _ (by norm_num)) (by omega)]
    by_cases hj : k % 8 = 0
    · have e1 : (k - 1) / 8 = k / 8 - 1 := by omega
      have e2 : (k - 1) % 8 = 7 := by omega
      rw [if_pos hj, e1, e2, show (2 : ℕ) ^ 7 = 128 from rfl]
      omega
    · have e1 : (k - 1) / 8 = k / 8 := by omega
      have e2 : (k - 1) % 8 = k % 8 - 1 := by omega
      rw [if_neg hj, e1, e2, Nat.mod_mod]

/-! ## The tweak advance as multiplication by x -/

open Polynomial in
theorem coeff_bitSum (a : ℕ → ZMod 2) (n : ℕ) :
    (∑ k in Finset.range 128, C (a k) * X ^ k : (ZMod 2)[X]).coeff n
      = if n < 128 then a n else 0 := by
  rw [Polynomial.finset_sum_coeff]
  simp only [Polynomial.coeff_C_mul_X_pow]
  rw [Finset.sum_ite_eq]
  simp

open Polynomial in
theorem xtsModulus_monic : (X ^ 128 + X ^ 7 + X ^ 2 + X + 1 : (ZMod 2)[X]).Monic := by
  monicity!

open Polynomial in
theorem xtsModulus_degree : (X ^ 128 + X ^ 7 + X ^ 2 + X + 1 : (ZMod 2)[X]).degree = 128 := by
  compute_degree!

open Polynomial in
theorem coeff_xtsModulus (n : ℕ) :
    (X ^ 128 + X ^ 7 + X ^ 2 + X + 1 : (ZMod 2)[X]).coeff n
      = if n = 128 ∨ n = 7 ∨ n = 2 ∨ n = 1 ∨ n = 0 then 1 else 0 := by
  simp only [Polynomial.coeff_add, Polynomial.coeff_X_pow, Polynomial.coeff_X,
    Polynomial.coeff_one]
  by_cases h128 : n = 128
  · subst h128; simp
  by_cases h7 : n = 7
  · subst h7; simp
  by_cases h2 : n = 2
  · subst h2; simp
  by_cases h1 : n = 1
  · subst h1; simp
  by_cases h0 : n = 0
  · subst h0; simp
  have h1' : ¬ 1 = n := fun h => h1 h.symm
  have h0' : ¬ 0 = n := fun h => h0 h.symm
  simp [h128, h7, h2, h1, h0, h1', h0']

open Polynomial in
theorem mul_X_modByMonic (a : ℕ → ZMod 2) :
    (X * ∑ k in Finset.range 128, C (a k) * X ^ k : (ZMod 2)[X])
        %ₘ (X ^ 128 + X ^ 7 + X ^ 2 + X + 1)
      = ∑ k in Finset.range 128,
          C ((if k = 0 then 0 else a (k - 1))
            + (if k = 0 ∨ k = 1 ∨ k = 2 ∨ k = 7 then a 127 else 0)) * X ^ k := by
  refine (Polynomial.div_modByMonic_unique (C (a 127)) _ xtsModulus_monic ⟨?_, ?_⟩).2
  · ext n
    rw [Polynomial.coeff_add, coeff_bitSum, Polynomial.coeff_mul_C, coeff_xtsModulus]
    have h2 : ∀ x : ZMod 2, x + x = 0 := by decide
    cases n with
    | zero => simp [h2]
    | succ m =>
      rw [Polynomial.coeff_X_mul, coeff_bitSum]
      by_cases hm : m + 1 < 128
      · have hm' : m < 128 := by omega
        by_cases hc : m + 1 = 1 ∨ m + 1 = 2 ∨ m + 1 = 7
        · have e1 : (m + 1 = 0 ∨ m + 1 = 1 ∨ m + 1 = 2 ∨ m + 1 = 7) := Or.inr hc
          have e2 : (m + 1 = 128 ∨ m + 1 = 7 ∨ m + 1 = 2 ∨ m + 1 = 1 ∨ m + 1 = 0) := by omega
          rw [if_pos hm, if_pos hm', if_neg (Nat.succ_ne_zero m), if_pos e1, if_pos e2,
            Nat.add_sub_cancel, one_mul, add_assoc, h2, add_zero]
        · have e1 : ¬ (m + 1 = 0 ∨ m + 1 = 1 ∨ m + 1 = 2 ∨ m + 1 = 7) := by omega
          have e2 : ¬ (m + 1 = 128 ∨ m + 1 = 7 ∨ m + 1 = 2 ∨ m + 1 = 1 ∨ m + 1 = 0) := by
            omega
          rw [if_pos hm, if_pos hm', if_neg (Nat.succ_ne_zero m), if_neg e1, if_neg e2,
            Nat.add_sub_cancel, zero_mul, add_zero, add_zero]
      · by_cases h128 : m = 127
        · subst h128
          simp
        · have hm' : ¬ m < 128 := by omega
          have e2 : ¬ (m + 1 = 128 ∨ m + 1 = 7 ∨ m + 1 = 2 ∨ m + 1 = 1 ∨ m + 1 = 0) := by
            omega
          rw [if_neg hm, if_neg hm', if_neg e2, zero_mul, add_zero]
  · rw [xtsModulus_degree]
    show _ < ((128 : ℕ) : WithBot ℕ)
    rw [Polynomial.degree_lt_iff_coeff_zero]
    intro m hm
    rw [coeff_bitSum]
    have : ¬ m < 128 := by
      have : (128 : ℕ) ≤ m := by exact_mod_cast hm
      omega
    simp [this]

/-- C21: for every 16-byte tweak `T`, the tweak advance `mul2` (shift left by one bit with
byte 0 least significant, then XOR byte 0 with `0x87` if the top bit of byte 15 was set) is
the multiplication by `x` in GF(2)[x] modulo `x^128 + x^7 + x^2 + x + 1`, where bit `j` of
byte `i` is the coefficient of `x^(8i+j)`; the result is again 16 bytes long. -/
theorem mul2_eq_mul_X (T : List UInt8) (hT : T.length = 16) :
    (mul2 T).length = 16 ∧
    (∑ k in Finset.range 128,
        Polynomial.C ((tweakBit (mul2 T) k : ℕ) : ZMod 2) * Polynomial.X ^ k)
      = Polynomial.modByMonic
          (Polynomial.X * ∑ k in Finset.range 128,
            Polynomial.C ((tweakBit T k : ℕ) : ZMod 2) * Polynomial.X ^ k)
          (Polynomial.X ^ 128 + Polynomial.X ^ 7 + Polynomial.X ^ 2 + Polynomial.X + 1) := by
  refine ⟨by rw [mul2_length, hT], ?_⟩
  rw [mul_X_modByMonic (fun k => ((tweakBit T k : ℕ) : ZMod 2))]
  apply Finset.sum_congr rfl
  intro k hk
  rw [mul2_bit T hT k (Finset.mem_range.mp hk), ZMod.natCast_mod, Nat.cast_add]
  rw [Nat.cast_ite, Nat.cast_ite, Nat.cast_zero]

/-- C21 at the tweak `ff 00 .. 00 80`, whose top bit is set. -/
theorem mul2_eq_mul_X_witness :
    (mul2 (0xff :: List.replicate 14 0 ++ [0x80])).length = 16 ∧
    (∑ k in Finset.range 128,
        Polynomial.C ((tweakBit (mul2 (0xff :: List.replicate 14 0 ++ [0x80])) k : ℕ) : ZMod 2)
          * Polynomial.X ^ k)
      = Polynomial.modByMonic
          (Polynomial.X * ∑ k in Finset.range 128,
            Polynomial.C ((tweakBit (0xff :: List.replicate 14 0 ++ [0x80]) k : ℕ) : ZMod 2)
              * Polynomial.X ^ k)
          (Polynomial.X ^ 128 + Polynomial.X ^ 7 + Polynomial.X ^ 2 + Polynomial.X + 1) :=
  mul2_eq_mul_X (0xff :: List.replicate 14 0 ++ [0x80]) rfl

/-! ## XTS: the two variants -/

theorem xtsEncrypt_one_block (k1 : Block) (adv : List UInt8 → List UInt8)
    (T0 src : List UInt8) (hL : src.length = 16) :
    xtsEncrypt k1 adv T0 src = xtsBlock k1.Encrypt T0 (src.take 16) := by
  rw [xtsEncrypt_full k1 adv T0 src (by rw [hL]), hL]
  simp [cryptFull]

theorem xtsEncrypt_block_zero (k1 : Block) (hc : k1.IsCipher) (adv : List UInt8 → List UInt8)
    (hadv : ∀ t, (adv t).length = t.length) (T0 src : List UInt8) (hT : T0.length = 16)
    (hL : 32 ≤ src.length) :
    block16 (xtsEncrypt k1 adv T0 src) 0 = xtsBlock k1.Encrypt T0 (block16 src 0) := by
  by_cases hr : src.length % 16 = 0
  · exact xtsEncrypt_full_block k1 hc adv hadv T0 src hT hr 0 (by omega)
  · exact (xtsEncrypt_stealing_layout k1 hc adv hadv T0 src hT (by omega) hr).1 0 (by omega)

set_option maxRecDepth 100000 in
/-- C22 (counterexample). Keys, sector number and plaintext of vector 1 of `xtsTestVectors`.
The P1619 encrypter gives the ciphertext of the vector. The GB/T 17964 encrypter built with the
tweak `33 33 33 33 33 00 .. 00`, the little-endian representation of the sector number, gives
the same first block and a different second block: its tweak advance is the one that
reproduces the vector of `TestXTS_GB`, not the advance of P1619. -/
theorem xts_sector_GB_differ :
    ∃ x g, NewXTSEncrypterWithSector sm4NewCipher (fromHex "11111111111111111111111111111111")
        (fromHex "22222222222222222222222222222222") 0x3333333333 = .ok x ∧
      NewGBXTSEncrypter sm4NewCipher (fromHex "11111111111111111111111111111111")
        (fromHex "22222222222222222222222222222222")
        (fromHex "33333333330000000000000000000000") = .ok g ∧
      x.CryptBlocks (fromHex "4444444444444444444444444444444444444444444444444444444444444444")
        = .ok (fromHex "a74d726c11196a32be04e001ff29d0c7932f9f3ec29bfcb64dd17f63cbd3ea31") ∧
      g.CryptBlocks (fromHex "4444444444444444444444444444444444444444444444444444444444444444")
        = .ok (fromHex "a74d726c11196a32be04e001ff29d0c7724feef81d666ae5afdfe4649544fcf5") ∧
      fromHex "a74d726c11196a32be04e001ff29d0c7932f9f3ec29bfcb64dd17f63cbd3ea31"
        ≠ fromHex "a74d726c11196a32be04e001ff29d0c7724feef81d666ae5afdfe4649544fcf5" :=
  ⟨_, _, rfl, rfl, rfl, rfl, by decide⟩

/-- C22 (amended). For keys that the cipher constructor accepts, every sector number `s` and
every input of at least 16 bytes, the P1619 encrypter built with `s` and the GB/T 17964
encrypter built with the little-endian 16-byte representation of `s` start from the same
`T₀` and both write as many bytes as the input has. They give the same ciphertext for an input
of exactly 16 bytes, and the same first block for an input of at least 32 bytes. -/
theorem xts_sector_vs_GB (cipherFunc : List UInt8 → Except String Block)
    (key tweakKey : List UInt8) (k1 k2 : Block)
    (hk1 : cipherFunc key = .ok k1) (hk2 : cipherFunc tweakKey = .ok k2)
    (hc1 : k1.IsCipher) (hc2 : k2.IsCipher) (sector : Nat)
    (src : List UInt8) (hL : 16 ≤ src.length) :
    ∃ x g cx cg, NewXTSEncrypterWithSector cipherFunc key tweakKey sector = .ok x ∧
      NewGBXTSEncrypter cipherFunc key tweakKey (leBytes 16 (sector % 2 ^ 64)) = .ok g ∧
      x.tweak = g.tweak ∧ x.CryptBlocks src = .ok cx ∧ g.CryptBlocks src = .ok cg ∧
      cx.length = src.length ∧ cg.length = src.length ∧
      (src.length = 16 → cx = cg) ∧ (32 ≤ src.length → block16 cx 0 = block16 cg 0) := by
  have hT : (k2.Encrypt (leBytes 16 (sector % 2 ^ 64))).length = 16 :=
    hc2.encrypt_length _ (leBytes_length 16 _)
  refine ⟨_, _, _, _, newXTS_ok _ _ _ _ _ _ k1 k2 hk1 hk2, newXTS_ok _ _ _ _ _ _ k1 k2 hk1 hk2,
    rfl, CryptBlocks_encrypt _ rfl src hL, CryptBlocks_encrypt _ rfl src hL,
    xtsEncrypt_length k1 hc1 _ (advance_length _) _ src hT hL,
    xtsEncrypt_length k1 hc1 _ (advance_length _) _ src hT hL, ?_, ?_⟩
  · intro h16
    show xtsEncrypt k1 _ _ src = xtsEncrypt k1 _ _ src
    rw [xtsEncrypt_one_block k1 _ _ src h16, xtsEncrypt_one_block k1 _ _ src h16]
  · intro h32
    show block16 (xtsEncrypt k1 _ _ src) 0 = block16 (xtsEncrypt k1 _ _ src) 0
    rw [xtsEncrypt_block_zero k1 hc1 _ (advance_length _) _ src hT h32,
      xtsEncrypt_block_zero k1 hc1 _ (advance_length _) _ src hT h32]

/-- C22 (amended), with SM4 and the keys, sector number and plaintext (32 bytes `0x44`) of
vector 2 of `xtsTestVectors`. -/
theorem xts_sector_vs_GB_witness :
    ∃ x g cx cg, NewXTSEncrypterWithSector sm4NewCipher
        (fromHex "fffefdfcfbfaf9f8f7f6f5f4f3f2f1f0")
        (fromHex "22222222222222222222222222222222") 0x3333333333 = .ok x ∧
      NewGBXTSEncrypter sm4NewCipher (fromHex "fffefdfcfbfaf9f8f7f6f5f4f3f2f1f0")
        (fromHex "22222222222222222222222222222222")
        (leBytes 16 (0x3333333333 % 2 ^ 64)) = .ok g ∧
      x.tweak = g.tweak ∧
      x.CryptBlocks (List.replicate 32 0x44) = .ok cx ∧
      g.CryptBlocks (List.replicate 32 0x44) = .ok cg ∧
      cx.length = (List.replicate 32 (0x44 : UInt8)).length ∧
      cg.length = (List.replicate 32 (0x44 : UInt8)).length ∧
      ((List.replicate 32 (0x44 : UInt8)).length = 16 → cx = cg) ∧
      (32 ≤ (List.replicate 32 (0x44 : UInt8)).length → block16 cx 0 = block16 cg 0) :=
  xts_sector_vs_GB sm4NewCipher (fromHex "fffefdfcfbfaf9f8f7f6f5f4f3f2f1f0")
    (fromHex "22222222222222222222222222222222")
    { Encrypt := sm4Crypt (sm4Expand (fromHex "fffefdfcfbfaf9f8f7f6f5f4f3f2f1f0")),
      Decrypt := sm4Crypt (sm4Expand (fromHex "fffefdfcfbfaf9f8f7f6f5f4f3f2f1f0")).reverse }
    { Encrypt := sm4Crypt (sm4Expand (fromHex "22222222222222222222222222222222")),
      Decrypt := sm4Crypt (sm4Expand (fromHex "22222222222222222222222222222222")).reverse }
    rfl rfl
    (sm4NewCipher_isCipher (fromHex "fffefdfcfbfaf9f8f7f6f5f4f3f2f1f0") _ rfl)
    (sm4NewCipher_isCipher (fromHex "22222222222222222222222222222222") _ rfl)
    0x3333333333 (List.replicate 32 0x44) (by decide)

set_option maxRecDepth 100000 in
/-- The vector of `xtsGBTestVectors` under the tweak advance of P1619: with the keys, the tweak
and the plaintext of the vector, the streaming core with `mul2` agrees with the expected
ciphertext on the first block only. `TestXTS_GB` is passed with `mul2GB` (theorem
`xts_test_vectors`), not with `mul2`. -/
theorem xts_GB_vector_with_P1619_advance :
    xtsEncrypt
        { Encrypt := sm4Crypt (sm4Expand (fromHex "2B7E151628AED2A6ABF7158809CF4F3C")),
          Decrypt := sm4Crypt (sm4Expand (fromHex "2B7E151628AED2A6ABF7158809CF4F3C")).reverse }
        mul2
        (sm4Crypt (sm4Expand (fromHex "000102030405060708090A0B0C0D0E0F"))
          (fromHex "F0F1F2F3F4F5F6F7F8F9FAFBFCFDFEFF"))
        (fromHex "6BC1BEE22E409F96E93D7E117393172AAE2D8A571E03AC9C9EB76FAC45AF8E5130C81C46A35CE411E5FBC1191A0A52EFF69F2445DF4F9B17")
      = fromHex "e9538251c71d7b80bbe4483fef497bd1b3db1a3e60408c575d63ff7db39f83260869f9e2585fec9f0b863bf8fd784b8627d16c0db6d2cfc7" ∧
    fromHex "e9538251c71d7b80bbe4483fef497bd1b3db1a3e60408c575d63ff7db39f83260869f9e2585fec9f0b863bf8fd784b8627d16c0db6d2cfc7"
      ≠ fromHex "E9538251C71D7B80BBE4483FEF497BD12C5C581BD6242FC51E08964FB4F60FDB0BA42F63499279213D318D2C11F6886E903BE7F93A1B3479" :=
  ⟨rfl, by decide⟩

/-! ## XTS: short input -/

/-- C23: on an input of fewer than 16 bytes, `CryptBlocks` of every XTS state, encrypter or
decrypter of either variant, returns the error `ShortInput`; an error carries no output
bytes, so nothing is written to the destination. -/
theorem CryptBlocks_short_input (x : xts) (src : List UInt8) (h : src.length < 16) :
    x.CryptBlocks src = .error "ShortInput" := by
  unfold xts.CryptBlocks
  rw [if_pos h]

/-- C23, for the decrypter of the sector number 94 under the SM4 keys of vector 5 of
`xtsTestVectors`, on the first 15 bytes of the ciphertext of the vector. -/
theorem CryptBlocks_short_input_witness :
    xts.CryptBlocks
        { k1 := { Encrypt := sm4Crypt (sm4Expand (fromHex "c46acc2e7e013cb71cdbf750cf76b000")),
                  Decrypt :=
                    sm4Crypt (sm4Expand (fromHex "c46acc2e7e013cb71cdbf750cf76b000")).reverse },
          k2 := { Encrypt := sm4Crypt (sm4Expand (fromHex "249fbf4fb6cd17607773c23ffa2c4330")),
                  Decrypt :=
                    sm4Crypt (sm4Expand (fromHex "249fbf4fb6cd17607773c23ffa2c4330")).reverse },
          tweak := sm4Crypt (sm4Expand (fromHex "249fbf4fb6cd17607773c23ffa2c4330"))
            (leBytes 16 (94 % 2 ^ 64)),
          isGB := false, decrypt := true }
        (fromHex "c3cf5445c64aa518f4abce2848fadd")
      = .error "ShortInput" :=
  CryptBlocks_short_input _ (fromHex "c3cf5445c64aa518f4abce2848fadd") (by decide)

/-- C26, in the groups of integers modulo 251: the receivers hold the private key 3 and the
master public key 5; the input is the BIT STRING of the point 7, resp. its raw bytes. -/
theorem UnmarshalASN1_bitString_frame_witness :
    SignPrivateKey.UnmarshalASN1 (toyCodec 251) (toySignPrivateKey 3 5) (toyPointBits 4 7)
      = some (toySignPrivateKey 7 5, none) ∧
    EncryptPrivateKey.UnmarshalASN1 (toyCodec 251) (toyEncryptPrivateKey 3 5) (toyPointBits 4 7)
      = some (toyEncryptPrivateKey 7 5, none) ∧
    SignPrivateKey.UnmarshalRaw (toyCodec 251) (toySignPrivateKey 3 5) (4 :: beBytes 32 7)
      = some (toySignPrivateKey 7 5, none) ∧
    EncryptPrivateKey.UnmarshalRaw (toyCodec 251) (toyEncryptPrivateKey 3 5) (4 :: beBytes 32 7)
      = some (toyEncryptPrivateKey 7 5, none) ∧
    (((toySignPrivateKey 7 5).SignMasterPublicKey = (toySignPrivateKey 3 5).SignMasterPublicKey ∧
      ∃ g, toySignPrivateKey 7 5 = { toySignPrivateKey 3 5 with PrivateKey := some g }) ∧
    ((toyEncryptPrivateKey 7 5).EncryptMasterPublicKey
        = (toyEncryptPrivateKey 3 5).EncryptMasterPublicKey ∧
      ∃ g, toyEncryptPrivateKey 7 5 = { toyEncryptPrivateKey 3 5 with PrivateKey := some g }) ∧
    ((toySignPrivateKey 7 5).SignMasterPublicKey = (toySignPrivateKey 3 5).SignMasterPublicKey ∧
      ∃ g, toySignPrivateKey 7 5 = { toySignPrivateKey 3 5 with PrivateKey := some g }) ∧
    ((toyEncryptPrivateKey 7 5).EncryptMasterPublicKey
        = (toyEncryptPrivateKey 3 5).EncryptMasterPublicKey ∧
      ∃ g, toyEncryptPrivateKey 7 5 = { toyEncryptPrivateKey 3 5 with PrivateKey := some g })) :=
  ⟨rfl, rfl, rfl, rfl,
    UnmarshalASN1_bitString_frame (toyCodec 251) (toySignPrivateKey 3 5) (toySignPrivateKey 7 5)
      (toySignPrivateKey 7 5) (toyEncryptPrivateKey 3 5) (toyEncryptPrivateKey 7 5)
      (toyEncryptPrivateKey 7 5) (toyPointBits 4 7) (toyPointBits 4 7) (4 :: beBytes 32 7)
      (4 :: beBytes 32 7) (by decide) (by decide) rfl rfl rfl rfl⟩

end Gmsm
